import Mathlib

/-!
A verification development for mitmproxy's `view.py` addon
(`src/mitmproxy/addons/view.py`).

The module maintains:
- a `Store` of flows (insertion-ordered dict keyed by flow id),
- a filtered, sorted `View` index over that store
  (`sortedcontainers.SortedListWithKey`, keyed by a caching order key),
- a per-flow `Settings` map that is pruned in lockstep with the store,
- a `Focus` cursor over the view,
- blinker signals connecting them.

We embed the module as a pure state machine.  Flows are mutable objects in
Python, identified by `id`; the store, the index and the focus all alias the
same object per id, so the embedding tracks flows by id and re-synchronises
the stored value on `update`.  Order values are ints or strings (`SVal`).
The `_OrderKey.__call__` cache side effect on `Settings._values` is threaded
explicitly: helpers that compute a key return the updated settings map.
-/

/-- A flow, restricted to the fields `view.py` reads: `id` (unique),
`marked`, `killable`, and the fields the four order keys generate from
(`request.timestamp_start`, `request.method`, `request.url`, and the raw
content byte lengths of request and response).  `none` models Python `None`;
for the content fields `some 0` models an empty (falsy) byte string. -/
structure HTTPFlow where
  id : Nat
  marked : Bool
  killable : Bool
  ts_start : Option Int
  method : String
  url : String
  req_raw_content : Option Nat
  resp_raw_content : Option Nat
deriving DecidableEq, Repr

/-- A value stored in a flow's settings dict: either an order value produced
by an order key (`int` or `str` in the source) or a string written by the
`view.setval` commands. -/
inductive SVal where
  | i : Int → SVal
  | s : String → SVal
deriving DecidableEq, Repr

/-- Python `<` between order values.  The source only ever compares values
produced by one order key, so the cross-constructor cases are unreachable;
they are fixed arbitrarily to keep the order total. -/
def SVal.lt : SVal → SVal → Bool
  | .i a, .i b => decide (a < b)
  | .s a, .s b => decide (a < b)
  | .i _, .s _ => true
  | .s _, .i _ => false

/-- Non-strict comparison derived from `SVal.lt` (total: `a ≤ b ↔ ¬ b < a`). -/
def SVal.le (a b : SVal) : Bool := !(SVal.lt b a)

/-- A per-flow settings dict (`Settings._values[fid]`): insertion-ordered
string-keyed dict. -/
abbrev PerFlow := List (String × SVal)

/-- `Settings._values`: flow id → per-flow dict, insertion-ordered. -/
abbrev SettingsMap := List (Nat × PerFlow)

/-- Dict lookup in a per-flow dict. -/
def lookupS : PerFlow → String → Option SVal
  | [], _ => none
  | (k0, v0) :: rest, k => if k0 = k then some v0 else lookupS rest k

/-- Dict item assignment in a per-flow dict: replace in place if the key is
present, else append (Python dict semantics, insertion-ordered). -/
def setS : PerFlow → String → SVal → PerFlow
  | [], k, v => [(k, v)]
  | (k0, v0) :: rest, k, v =>
    if k0 = k then (k, v) :: rest else (k0, v0) :: setS rest k v

/-- Lookup in `Settings._values`. -/
def lookupF : SettingsMap → Nat → Option PerFlow
  | [], _ => none
  | (k0, v0) :: rest, k => if k0 = k then some v0 else lookupF rest k

/-- Item assignment in `Settings._values`. -/
def setF : SettingsMap → Nat → PerFlow → SettingsMap
  | [], k, v => [(k, v)]
  | (k0, v0) :: rest, k, v =>
    if k0 = k then (k, v) :: rest else (k0, v0) :: setF rest k v

/-- `del Settings._values[fid]`. -/
def delF : SettingsMap → Nat → SettingsMap
  | [], _ => []
  | (k0, v0) :: rest, k => if k0 = k then rest else (k0, v0) :: delF rest k

/-- The sorted index `View._view`: each entry records the sort key the
`SortedListWithKey` computed when the flow was inserted, plus the flow id. -/
abbrev ViewIndex := List (SVal × Nat)

/-- The state of the module: `View` together with its owned `Focus` and
`Settings`.  `filt` is the parsed filter predicate (an external collaborator,
kept abstract as a boolean predicate on flows); `order_key` identifies the
active `_OrderKey` instance (`id(self)` in the source) — instances `0`–`4`
are the ones `View.__init__` constructs. -/
structure ViewState where
  store : List HTTPFlow
  filt : HTTPFlow → Bool
  show_marked : Bool
  order_key : Nat
  order_reversed : Bool
  focus_follow : Bool
  viewList : ViewIndex
  focusFlow : Option HTTPFlow
  settings : SettingsMap

/-- The signals of the view/store bus (`sig_view_*`, `sig_store_*`).
`Focus.sig_change` is Focus's own downstream channel and is not part of this
bus. -/
inductive Signal where
  | viewAdd : Nat → Signal
  | viewRemove : Nat → Signal
  | viewUpdate : Nat → Signal
  | viewRefresh : Signal
  | storeRemove : Nat → Signal
  | storeRefresh : Signal
deriving DecidableEq, Repr

/-- `f.id in self._store`. -/
def storeMem (store : List HTTPFlow) (fid : Nat) : Bool :=
  store.any (fun g => g.id = fid)

/-- `OrderRequestStart.generate`: `f.request.timestamp_start or 0`
(`None` and `0` are both falsy). -/
def OrderRequestStart_generate (f : HTTPFlow) : SVal :=
  .i (match f.ts_start with
      | some t => if t ≠ 0 then t else 0
      | none => 0)

/-- `OrderRequestMethod.generate`: `f.request.method`. -/
def OrderRequestMethod_generate (f : HTTPFlow) : SVal := .s f.method

/-- `OrderRequestURL.generate`: `f.request.url`. -/
def OrderRequestURL_generate (f : HTTPFlow) : SVal := .s f.url

/-- `OrderKeySize.generate`: sum of request and response raw-content lengths,
each counted only when truthy (present and non-empty). -/
def OrderKeySize_generate (f : HTTPFlow) : SVal :=
  .i ((match f.req_raw_content with
       | some n => if n ≠ 0 then (n : Int) else 0
       | none => 0)
      +
      (match f.resp_raw_content with
       | some n => if n ≠ 0 then (n : Int) else 0
       | none => 0))

/-- `generate` of the order-key instance identified by `okId`.  Instances:
`0` = `View.default_order` (an `OrderRequestStart`), `1` = `orders["time"]`
(a second `OrderRequestStart`), `2` = method, `3` = url, `4` = size.  The
base class's `generate` is abstract; other ids never arise from this module
and are given the base class's (vacuous) value. -/
def generateOf (okId : Nat) (f : HTTPFlow) : SVal :=
  match okId with
  | 0 => OrderRequestStart_generate f
  | 1 => OrderRequestStart_generate f
  | 2 => OrderRequestMethod_generate f
  | 3 => OrderRequestURL_generate f
  | 4 => OrderKeySize_generate f
  | _ => .i 0

/-- `_OrderKey._key()`: the settings key namespaced by the instance identity
(`"_order_%s" % id(self)`). -/
def orderKeyName (okId : Nat) : String := "_order_" ++ toString okId

/-- `Settings.__getitem__` seen as a pure map operation (without the store
guard): returns the per-flow dict and the settings map after the
`setdefault(f.id, {})`. -/
def settingsEntry (sm : SettingsMap) (fid : Nat) : PerFlow × SettingsMap :=
  match lookupF sm fid with
  | some d => (d, sm)
  | none => ([], sm ++ [(fid, [])])

/-- `_OrderKey.__call__(f)`: if the flow id is in the store, return the
cached order value under this instance's key, computing and caching it on a
miss (`Settings.__getitem__` runs its `setdefault` either way); otherwise
return a fresh `generate(f)` without touching settings.  Returns the value
and the resulting settings map. -/
def orderKeyCall (st : ViewState) (okId : Nat) (f : HTTPFlow) : SVal × SettingsMap :=
  if storeMem st.store f.id then
    let d := (settingsEntry st.settings f.id).1
    let sm1 := (settingsEntry st.settings f.id).2
    match lookupS d (orderKeyName okId) with
    | some v => (v, sm1)
    | none =>
      let val := generateOf okId f
      (val, setF sm1 f.id (setS d (orderKeyName okId) val))
  else
    (generateOf okId f, st.settings)

/-- The active order key applied to a flow, with its settings side effect
folded back into the state (this is what `self._view`'s key function does on
every insert, remove, contains and bisect). -/
def keyOf (st : ViewState) (f : HTTPFlow) : SVal × ViewState :=
  ((orderKeyCall st st.order_key f).1,
   { st with settings := (orderKeyCall st st.order_key f).2 })

/-- `SortedList.add`: insert before the first entry whose stored key is
strictly greater (i.e. after all equal keys — `bisect_right`). -/
def sortedInsert (l : ViewIndex) (k : SVal) (fid : Nat) : ViewIndex :=
  match l with
  | [] => [(k, fid)]
  | p :: rest =>
    if SVal.lt k p.1 then (k, fid) :: p :: rest else p :: sortedInsert rest k fid

/-- `SortedList.remove(f)`: locate the entry with the computed key and equal
value and remove it; `none` models the `ValueError` when it is absent. -/
def removePair (l : ViewIndex) (k : SVal) (fid : Nat) : Option ViewIndex :=
  match l with
  | [] => none
  | p :: rest =>
    if p.1 = k ∧ p.2 = fid then some rest
    else (removePair rest k fid).map (p :: ·)

/-- `SortedList.index(f)`: position of the entry with the computed key and
equal value; `none` models the `ValueError`. -/
def idxOfPair (l : ViewIndex) (k : SVal) (fid : Nat) : Option Nat :=
  match l with
  | [] => none
  | p :: rest =>
    if p.1 = k ∧ p.2 = fid then some 0
    else (idxOfPair rest k fid).map (· + 1)

/-- The flow ids of the index, in index order. -/
def viewIds (l : ViewIndex) : List Nat := l.map (fun p => p.2)

/-- `self._store.get(fid)` / dereferencing an id back to the flow object. -/
def flowById (store : List HTTPFlow) (fid : Nat) : Option HTTPFlow :=
  store.find? (fun g => g.id = fid)

/-- `View._rev(idx)`: reverse an index when `order_reversed` is set;
`none` models the `IndexError`. -/
def View_rev (st : ViewState) (idx : Int) : Option Int :=
  if st.order_reversed then
    if idx < 0 then some (-idx - 1)
    else
      let i := (st.viewList.length : Int) - idx - 1
      if i < 0 then none else some i
  else some idx

/-- Python list indexing on the underlying sorted list (negative offsets
count from the end; out of range is an `IndexError`). -/
def pyGetPair (l : ViewIndex) (i : Int) : Option (SVal × Nat) :=
  let j := if i < 0 then (l.length : Int) + i else i
  if 0 ≤ j ∧ j < (l.length : Int) then l.get? j.toNat else none

/-- `View.__getitem__(offset)`: the flow (by id) at a displayed offset. -/
def View_getitem (st : ViewState) (offset : Int) : Option Nat :=
  (View_rev st offset).bind (fun i => (pyGetPair st.viewList i).map (fun p => p.2))

/-- `View.inbounds(index)`: `0 <= index < len(self)`. -/
def View_inbounds (st : ViewState) (index : Int) : Bool :=
  decide (0 ≤ index) && decide (index < (st.viewList.length : Int))

/-- `View.__contains__(f)` / `f in self._view`: the `SortedListWithKey`
computes the key (caching side effect included) and looks for an entry with
that key and equal value. -/
def viewContainsF (st : ViewState) (f : HTTPFlow) : Bool × ViewState :=
  ((keyOf st f).2.viewList.any (fun p => p.1 = (keyOf st f).1 && p.2 = f.id),
   (keyOf st f).2)

/-- `self._view.add(f)`: compute the key (caching) and insert. -/
def viewAddElem (st : ViewState) (f : HTTPFlow) : ViewState :=
  { (keyOf st f).2 with
    viewList := sortedInsert (keyOf st f).2.viewList (keyOf st f).1 f.id }

/-- `self._view.remove(f)`: compute the key (caching) and remove the matching
entry; the boolean records whether it was found (`false` = `ValueError`). -/
def viewRemoveTry (st : ViewState) (f : HTTPFlow) : ViewState × Bool :=
  ({ (keyOf st f).2 with
     viewList :=
       (removePair (keyOf st f).2.viewList (keyOf st f).1 f.id).getD
         (keyOf st f).2.viewList },
   (removePair (keyOf st f).2.viewList (keyOf st f).1 f.id).isSome)

/-- `settings[f][k] = v`: `Settings.__getitem__` (with its store guard and
`setdefault`) followed by dict assignment.  When the flow id is not in the
store the source raises `KeyError`; every call site below guards this. -/
def settingsSetItem (st : ViewState) (f : HTTPFlow) (k : String) (v : SVal) : ViewState :=
  { st with settings :=
      (if storeMem st.store f.id then
         setF (settingsEntry st.settings f.id).2 f.id
           (setS (settingsEntry st.settings f.id).1 k v)
       else st.settings) }

/-- `Focus.flow` setter: setting `None` clears; setting a flow checks
`f not in self.view` (computing the key, with its caching side effect) and
raises `ValueError` on failure — every call site below passes a view member,
so the failure branch leaves the state as the raise would. -/
def Focus_setFlow (st : ViewState) (of : Option HTTPFlow) : ViewState :=
  match of with
  | none => { st with focusFlow := none }
  | some f =>
    { (viewContainsF st f).2 with
      focusFlow :=
        if (viewContainsF st f).1 then some f else (viewContainsF st f).2.focusFlow }

/-- `self.flow = view[i]`: fetch the displayed item at `i` and focus it.
The index dereference is by id; the index only ever holds store members at
the points this runs. -/
def Focus_focusAt (st : ViewState) (i : Int) : ViewState :=
  match View_getitem st i with
  | some fid =>
    match flowById st.store fid with
    | some g => Focus_setFlow st (some g)
    | none => st
  | none => st

/-- `View._bisect(f)`: `bisect_right` by the computed key, then
`self._rev(v - 1) + 1`. -/
def View_bisect (st : ViewState) (f : HTTPFlow) : Option Int × ViewState :=
  let v : Int :=
    (((keyOf st f).2.viewList.takeWhile (fun p => !(SVal.lt (keyOf st f).1 p.1))).length : Int)
  (((View_rev (keyOf st f).2 (v - 1)).map (· + 1)), (keyOf st f).2)

/-- `Focus._nearest(f, v)`: `min(v._bisect(f), len(v) - 1)`. -/
def Focus_nearest (st : ViewState) (f : HTTPFlow) : Option Int × ViewState :=
  (((View_bisect st f).1.map
      (fun b => min b (((View_bisect st f).2.viewList.length : Int) - 1))),
   (View_bisect st f).2)

/-- `Focus._sig_view_remove`: clear the focus when the view emptied, else
re-anchor to the nearest position when the removed flow was the focus
(`flow is self.flow`: object identity, i.e. equal ids). -/
def Focus_sigViewRemove (st : ViewState) (f : HTTPFlow) : ViewState :=
  if st.viewList.length = 0 then Focus_setFlow st none
  else
    match st.focusFlow with
    | some g =>
      if g.id = f.id then
        match (Focus_nearest st g).1 with
        | some n => Focus_focusAt (Focus_nearest st g).2 n
        | none => (Focus_nearest st g).2
      else st
    | none => st

/-- `Focus._sig_view_refresh`: clear on empty view, focus the first item when
unfocused, re-anchor when the focused flow left the view. -/
def Focus_sigViewRefresh (st : ViewState) : ViewState :=
  if st.viewList.length = 0 then Focus_setFlow st none
  else
    match st.focusFlow with
    | none => Focus_focusAt st 0
    | some g =>
      if (viewContainsF st g).1 then (viewContainsF st g).2
      else
        match (Focus_nearest (viewContainsF st g).2 g).1 with
        | some n => Focus_focusAt (Focus_nearest (viewContainsF st g).2 g).2 n
        | none => (Focus_nearest (viewContainsF st g).2 g).2

/-- `Focus._sig_view_add`: focus the added flow when nothing is focused. -/
def Focus_sigViewAdd (st : ViewState) (f : HTTPFlow) : ViewState :=
  match st.focusFlow with
  | none => Focus_setFlow st (some f)
  | some _ => st

/-- `Settings._sig_store_remove`: drop the removed flow's entry. -/
def Settings_sigStoreRemove (st : ViewState) (f : HTTPFlow) : ViewState :=
  { st with settings :=
      if (lookupF st.settings f.id).isSome then delF st.settings f.id
      else st.settings }

/-- `Settings._sig_store_refresh`: prune every entry whose id left the
store. -/
def Settings_sigStoreRefresh (st : ViewState) : ViewState :=
  { st with settings := st.settings.filter (fun p => storeMem st.store p.1) }

/-- `sig_view_add.send`: deliver to `Focus._sig_view_add` and record the
signal. -/
def sendViewAdd (st : ViewState) (f : HTTPFlow) : ViewState × List Signal :=
  (Focus_sigViewAdd st f, [Signal.viewAdd f.id])

/-- `sig_view_remove.send`. -/
def sendViewRemove (st : ViewState) (f : HTTPFlow) : ViewState × List Signal :=
  (Focus_sigViewRemove st f, [Signal.viewRemove f.id])

/-- `sig_view_refresh.send`. -/
def sendViewRefresh (st : ViewState) : ViewState × List Signal :=
  (Focus_sigViewRefresh st, [Signal.viewRefresh])

/-- `sig_store_remove.send`: deliver to `Settings._sig_store_remove`. -/
def sendStoreRemove (st : ViewState) (f : HTTPFlow) : ViewState × List Signal :=
  (Settings_sigStoreRemove st f, [Signal.storeRemove f.id])

/-- `sig_store_refresh.send`: deliver to `Settings._sig_store_refresh`. -/
def sendStoreRefresh (st : ViewState) : ViewState × List Signal :=
  (Settings_sigStoreRefresh st, [Signal.storeRefresh])

/-- `flowfilter.parse(".")`: the match-everything predicate. -/
def matchall : HTTPFlow → Bool := fun _ => true

/-- `View._base_add(f)`:
`self.settings[f][self._order_key_name()] = self.order_key(f)` (right-hand
side first, which itself caches the value), then `self._view.add(f)`. -/
def View_base_add (st : ViewState) (f : HTTPFlow) : ViewState :=
  viewAddElem
    (settingsSetItem (keyOf st f).2 f (orderKeyName st.order_key) (keyOf st f).1)
    f

/-- `_OrderKey.refresh(f)`: read the cached value (a `KeyError` — flow not in
store, or value never cached — propagates after only `Settings.__getitem__`'s
`setdefault`; modeled as the state at the raise with no signals), recompute
`generate`, and when they differ remove the flow from the index, re-cache,
re-insert and send a full view refresh.  `self.view._view.remove(f)` raises
`ValueError` when the flow is not in the index: the exception propagates and
nothing further runs — the key function only re-reads the just-read cache —
modeled likewise as the state at the raise with no signals.  Both error paths
are unreachable from `update`, which guards the call with `f in self._view`. -/
def orderKeyRefresh (st : ViewState) (f : HTTPFlow) : ViewState × List Signal :=
  if storeMem st.store f.id then
    let st1 := { st with settings := (settingsEntry st.settings f.id).2 }
    match lookupS (settingsEntry st.settings f.id).1 (orderKeyName st.order_key) with
    | none => (st1, [])
    | some old =>
      if old ≠ generateOf st.order_key f then
        if (viewRemoveTry st1 f).2 then
          sendViewRefresh
            (viewAddElem
              (settingsSetItem (viewRemoveTry st1 f).1 f (orderKeyName st.order_key)
                (generateOf st.order_key f))
              f)
        else ((viewRemoveTry st1 f).1, [])
      else (st1, [])
  else (st, [])

/-- `View._refilter()`: clear the index, re-add every store flow passing
`show_marked` and the filter, then send a full view refresh. -/
def refilterStep (acc : ViewState) (i : HTTPFlow) : ViewState :=
  if acc.show_marked && !i.marked then acc
  else if acc.filt i then View_base_add acc i else acc

def View_refilter (st : ViewState) : ViewState × List Signal :=
  sendViewRefresh (st.store.foldl refilterStep { st with viewList := [] })

/-- `View.add` for one flow of the batch: ignore ids already in the store;
otherwise insert into the store, and when the filter accepts the flow index
it, optionally follow focus, and send `view_add`. -/
def View_addOne (st : ViewState) (f : HTTPFlow) : ViewState × List Signal :=
  if storeMem st.store f.id then (st, [])
  else
    let st1 := { st with store := st.store ++ [f] }
    if st1.filt f then
      let st2 := View_base_add st1 f
      let st3 := if st2.focus_follow then Focus_setFlow st2 (some f) else st2
      sendViewAdd st3 f
    else (st1, [])

/-- Accumulate one step of a batched operation with its signals. -/
def batchStep (one : ViewState → HTTPFlow → ViewState × List Signal)
    (acc : ViewState × List Signal) (f : HTTPFlow) : ViewState × List Signal :=
  ((one acc.1 f).1, acc.2 ++ (one acc.1 f).2)

/-- `View.add(flows)`. -/
def View_add (st : ViewState) (flows : List HTTPFlow) : ViewState × List Signal :=
  flows.foldl (batchStep View_addOne) (st, [])

/-- `View.update` for one flow of the batch.  In the source the store, the
index and the focus all alias the same mutable object per id; passing `f`
here means the object with `f.id` now carries `f`'s field values, so the
embedding first re-synchronises the store entry and the focus reference.
Then: if the filter accepts the flow, either index it (as in `add`) or
refresh its order key and send `view_update`; otherwise remove it from the
index, swallowing the `ValueError` when it was not indexed.
`updSync` models the aliasing: the object with `f.id` in the store and in
the focus is the same object the caller mutated. -/
def updSync (st : ViewState) (f : HTTPFlow) : ViewState :=
  { st with
    store := st.store.map (fun g => if g.id = f.id then f else g),
    focusFlow := st.focusFlow.map (fun g => if g.id = f.id then f else g) }

/-- `View.update` for one flow of the batch (see `updSync`). -/
def View_updateOne (st : ViewState) (f : HTTPFlow) : ViewState × List Signal :=
  if storeMem st.store f.id then
    let st0 := updSync st f
    if st0.filt f then
      if (viewContainsF st0 f).1 = false then
        let st2 := View_base_add (viewContainsF st0 f).2 f
        let st3 := if st2.focus_follow then Focus_setFlow st2 (some f) else st2
        sendViewAdd st3 f
      else
        ((orderKeyRefresh (viewContainsF st0 f).2 f).1,
         (orderKeyRefresh (viewContainsF st0 f).2 f).2 ++ [Signal.viewUpdate f.id])
    else
      if (viewRemoveTry st0 f).2 then sendViewRemove (viewRemoveTry st0 f).1 f
      else ((viewRemoveTry st0 f).1, [])
  else (st, [])

/-- `View.update(flows)`. -/
def View_update (st : ViewState) (flows : List HTTPFlow) : ViewState × List Signal :=
  flows.foldl (batchStep View_updateOne) (st, [])

/-- `View.remove` for one flow of the batch: skip ids not in the store;
`f.kill()` is an external capability with no effect on this state; remove
from the index (sending `view_remove`) when indexed; delete from the store
and send `store_remove`. -/
def View_removeOne (st : ViewState) (f : HTTPFlow) : ViewState × List Signal :=
  if storeMem st.store f.id then
    let c := viewContainsF st f
    let step1 : ViewState × List Signal :=
      if c.1 then sendViewRemove (viewRemoveTry c.2 f).1 f else (c.2, [])
    let st2 := { step1.1 with store := step1.1.store.filter (fun g => g.id ≠ f.id) }
    ((sendStoreRemove st2 f).1, step1.2 ++ (sendStoreRemove st2 f).2)
  else (st, [])

/-- `View.remove(flows)`. -/
def View_remove (st : ViewState) (flows : List HTTPFlow) : ViewState × List Signal :=
  flows.foldl (batchStep View_removeOne) (st, [])

/-- `View.set_filter(flt)`: `self.filter = flt or matchall`, then refilter. -/
def View_set_filter (st : ViewState) (flt : Option (HTTPFlow → Bool)) : ViewState × List Signal :=
  View_refilter { st with filt := flt.getD matchall }

/-- `View.set_order(order_key)`: swap the active key and rebuild the index
over the same membership (`SortedListWithKey.update` re-adds every element,
computing — and caching — the new key; ties keep their old relative order).
No signal is sent. -/
def setOrderStep (acc : ViewState) (p : SVal × Nat) : ViewState :=
  match flowById acc.store p.2 with
  | some g => viewAddElem acc g
  | none => acc

def View_set_order (st : ViewState) (okId : Nat) : ViewState :=
  ({ st with order_key := okId }).viewList.foldl setOrderStep
    { st with order_key := okId, viewList := [] }

/-- `View.set_reversed(value)`: flip the display direction and send a view
refresh; the index is untouched. -/
def View_set_reversed (st : ViewState) (value : Bool) : ViewState × List Signal :=
  sendViewRefresh { st with order_reversed := value }

/-- `View.toggle_marked()`: flip `show_marked` and refilter. -/
def View_toggle_marked (st : ViewState) : ViewState × List Signal :=
  View_refilter { st with show_marked := !st.show_marked }

/-- `View.clear()`: empty store and index, send view and store refreshes. -/
def View_clear (st : ViewState) : ViewState × List Signal :=
  ((sendStoreRefresh (sendViewRefresh { st with store := [], viewList := [] }).1).1,
   (sendViewRefresh { st with store := [], viewList := [] }).2 ++
   (sendStoreRefresh (sendViewRefresh { st with store := [], viewList := [] }).1).2)

/-- `View.clear_not_marked()`: pop every unmarked flow from the store,
refilter, send a store refresh. -/
def View_clear_not_marked (st : ViewState) : ViewState × List Signal :=
  ((sendStoreRefresh (View_refilter { st with store := st.store.filter (fun g => g.marked) }).1).1,
   (View_refilter { st with store := st.store.filter (fun g => g.marked) }).2 ++
   (sendStoreRefresh (View_refilter { st with store := st.store.filter (fun g => g.marked) }).1).2)

/-- `View.go(dst)`: clamp the (possibly negative) offset into bounds and
focus the flow there; a no-op on an empty view. -/
def View_go (st : ViewState) (dst : Int) : ViewState :=
  if st.viewList.length = 0 then st
  else
    let n : Int := st.viewList.length
    let d1 := if dst < 0 then n + dst else dst
    let d2 := if d1 < 0 then 0 else d1
    let d3 := if d2 > n - 1 then n - 1 else d2
    Focus_focusAt st d3

/-- `Focus.index` property: the displayed index of the focused flow, `none`
when unfocused (`View.index` applies `_rev` to the underlying position; a
`ValueError` — focus not indexed — is modeled as `none` as well, with the
key-computation side effect kept). -/
def Focus_index (st : ViewState) : Option Int × ViewState :=
  match st.focusFlow with
  | some f =>
    (match idxOfPair (keyOf st f).2.viewList (keyOf st f).1 f.id with
     | some p => View_rev (keyOf st f).2 (p : Int)
     | none => none,
     (keyOf st f).2)
  | none => (none, st)

/-- `View.focus_next()`: `idx = self.focus.index + 1` (a `TypeError` when the
focus is empty — no mutation beyond the index computation), then focus `idx`
when in bounds. -/
def View_focus_next (st : ViewState) : ViewState :=
  match (Focus_index st).1 with
  | none => (Focus_index st).2
  | some i =>
    if View_inbounds (Focus_index st).2 (i + 1) then
      Focus_focusAt (Focus_index st).2 (i + 1)
    else (Focus_index st).2

/-- `View.focus_prev()`. -/
def View_focus_prev (st : ViewState) : ViewState :=
  match (Focus_index st).1 with
  | none => (Focus_index st).2
  | some i =>
    if View_inbounds (Focus_index st).2 (i - 1) then
      Focus_focusAt (Focus_index st).2 (i - 1)
    else (Focus_index st).2

/-- `View.getvalue(f, key, default)`: `self.settings[f].get(key, default)`;
`none` models the `KeyError` for a flow outside the store. -/
def View_getvalue (st : ViewState) (f : HTTPFlow) (key default : String) :
    Option (SVal × ViewState) :=
  if storeMem st.store f.id then
    some ((lookupS (settingsEntry st.settings f.id).1 key).getD (.s default),
          { st with settings := (settingsEntry st.settings f.id).2 })
  else none

/-- `View.setvalue(flows, key, value)`: set the per-flow setting; the
external `addons.trigger("update", updated)` notification is not part of
this state.  A `KeyError` (flow outside the store) aborts the batch; only
the success path is modeled. -/
def View_setvalue (st : ViewState) (flows : List HTTPFlow) (key value : String) :
    Option ViewState :=
  flows.foldlM
    (fun acc f =>
      if storeMem acc.store f.id then some (settingsSetItem acc f key (.s value))
      else none)
    st

/-- `View.setvalue_toggle(flows, key)`: the source reads the previous value
under the literal string `"key"` (not under the `key` parameter) with default
`"false"`, and writes `"false"` if that value was `"true"`, else `"true"`,
under the `key` parameter. -/
def View_setvalue_toggle (st : ViewState) (flows : List HTTPFlow) (key : String) :
    Option ViewState :=
  flows.foldlM
    (fun acc f =>
      if storeMem acc.store f.id then
        some (settingsSetItem acc f key
          (if (lookupS (settingsEntry acc.settings f.id).1 "key").getD (.s "false")
              = SVal.s "true"
           then .s "false" else .s "true"))
      else none)
    st

/-- `View.__init__` (with `Focus.__init__` and `Settings.__init__`): empty
store and index, match-all filter, `default_order` active, nothing focused,
no settings. -/
def initView : ViewState :=
  { store := []
    filt := matchall
    show_marked := false
    order_key := 0
    order_reversed := false
    focus_follow := false
    viewList := []
    focusFlow := none
    settings := [] }

/-! ### Invariants -/

/-- The order value cached in settings for `fid` under the *current* order
key. -/
def cachedOrder (st : ViewState) (fid : Nat) : Option SVal :=
  (lookupF st.settings fid).bind (fun d => lookupS d (orderKeyName st.order_key))

/-- The index is ascending in its stored keys. -/
def sortedByKeys (l : ViewIndex) : Prop :=
  List.Pairwise (fun a b => SVal.le a.1 b.1 = true) l

/-- Structural well-formedness of a state, all of which holds in the initial
state and is preserved by every public operation: unique store ids, unique
index ids, the index only holds store members, every index entry's stored
sort key equals the value cached under the current order key, and the index
is sorted by its stored keys. -/
def ViewInv (st : ViewState) : Prop :=
  (st.store.map HTTPFlow.id).Nodup ∧
  (viewIds st.viewList).Nodup ∧
  (∀ fid ∈ viewIds st.viewList, storeMem st.store fid = true) ∧
  (∀ p ∈ st.viewList, cachedOrder st p.2 = some p.1) ∧
  sortedByKeys st.viewList

/-- Focus validity: the focus is empty or references a current view member. -/
def FocusInv (st : ViewState) : Prop :=
  match st.focusFlow with
  | none => True
  | some f => f.id ∈ viewIds st.viewList

/-- Settings well-formedness: unique settings ids, and no entry for an id
outside the store. -/
def SettingsWF (st : ViewState) : Prop :=
  (st.settings.map Prod.fst).Nodup ∧
  ∀ fid, (lookupF st.settings fid).isSome = true → storeMem st.store fid = true

/-! ### Concrete sample data

Flows and states used to instantiate the verified properties on concrete
inputs. -/

def flowA : HTTPFlow :=
  { id := 1, marked := false, killable := true, ts_start := some 5,
    method := "GET", url := "a", req_raw_content := some 2,
    resp_raw_content := none }

def flowB : HTTPFlow :=
  { flowA with id := 2, ts_start := some 7, url := "b", marked := true }

def flowC : HTTPFlow :=
  { flowA with id := 3, ts_start := some 9, url := "c" }

/-- A three-flow state under the default (request-start) order key, every
order value cached, focus on the middle flow. -/
def stThree : ViewState :=
  { store := [flowA, flowB, flowC]
    filt := matchall
    show_marked := false
    order_key := 0
    order_reversed := false
    focus_follow := false
    viewList := [(.i 5, 1), (.i 7, 2), (.i 9, 3)]
    focusFlow := some flowB
    settings := [(1, [("_order_0", .i 5)]), (2, [("_order_0", .i 7)]),
      (3, [("_order_0", .i 9)])] }

/-- A one-flow state whose cached order value for `flowA` is stale (the flow
generates `5` but the cache and the index hold `4`). -/
def stStale : ViewState :=
  { stThree with
    store := [flowA]
    viewList := [(.i 4, 1)]
    focusFlow := none
    settings := [(1, [("_order_0", .i 4)])] }

/-- A one-flow state whose settings entry for `flowA` holds
`"star" ↦ "true"` and nothing under the literal key `"key"`. -/
def stStar : ViewState :=
  { stThree with
    store := [flowA]
    viewList := []
    focusFlow := none
    settings := [(1, [("star", .s "true")])] }

/-- A flow generating order value `5` under the default key. -/
def flowD : HTTPFlow :=
  { flowA with id := 3, ts_start := some 5, url := "d" }

/-- A reversed view at the instant the view-removal signal fires for the
focused flow `flowD` (cached key `5`): the index already lost its entry and
holds keys `1`, `3`, `7` (displayed reversed as `7, 3, 1`), the store still
holds all four flows, and the focus still references `flowD`. -/
def stRev : ViewState :=
  { store := [{ flowA with ts_start := some 1 },
              { flowA with id := 2, ts_start := some 3 },
              flowD,
              { flowA with id := 4, ts_start := some 7 }]
    filt := matchall
    show_marked := false
    order_key := 0
    order_reversed := true
    focus_follow := false
    viewList := [(.i 1, 1), (.i 3, 2), (.i 7, 4)]
    focusFlow := some flowD
    settings := [(1, [("_order_0", .i 1)]), (2, [("_order_0", .i 3)]),
      (3, [("_order_0", .i 5)]), (4, [("_order_0", .i 7)])] }

/-- Like `stStar` with `"key" ↦ "true"` present as well. -/
def stStarKey : ViewState :=
  { stThree with
    store := [flowA]
    viewList := []
    focusFlow := none
    settings := [(1, [("key", .s "true"), ("star", .s "true")])] }

/-! ### Order comparison lemmas -/

theorem SVal.lt_asymmetric {a b : SVal} (h : SVal.lt a b = true) :
    SVal.lt b a = false := by
  cases a <;> cases b <;> simp [SVal.lt] at h ⊢
  · omega
  · exact le_of_lt h

theorem SVal.le_of_lt {a b : SVal} (h : SVal.lt a b = true) : SVal.le a b = true := by
  unfold SVal.le
  rw [SVal.lt_asymmetric h]
  rfl

theorem SVal.le_of_not_lt {a b : SVal} (h : SVal.lt a b = false) :
    SVal.le b a = true := by
  unfold SVal.le
  rw [h]
  rfl

theorem SVal.le_transitive {a b c : SVal} (h1 : SVal.le a b = true)
    (h2 : SVal.le b c = true) : SVal.le a c = true := by
  unfold SVal.le at *
  cases a <;> cases b <;> cases c <;> simp [SVal.lt] at h1 h2 ⊢
  · omega
  · exact h1.trans h2

/-! ### Assoc-map lemmas -/

theorem lookupS_setS_self (d : PerFlow) (k : String) (v : SVal) :
    lookupS (setS d k v) k = some v := by
  induction d with
  | nil => simp [setS, lookupS]
  | cons p rest ih =>
    by_cases h : p.1 = k
    · simp [setS, lookupS, h]
    · simp [setS, lookupS, h, ih]

theorem lookupS_setS_ne (d : PerFlow) {k k' : String} (v : SVal) (h : k' ≠ k) :
    lookupS (setS d k v) k' = lookupS d k' := by
  induction d with
  | nil => simp [setS, lookupS, Ne.symm h]
  | cons p rest ih =>
    by_cases hp : p.1 = k
    · simp [setS, lookupS, hp, Ne.symm h, h]
    · by_cases hp' : p.1 = k' <;> simp [setS, lookupS, hp, hp', h, ih]

theorem lookupF_setF_self (sm : SettingsMap) (k : Nat) (v : PerFlow) :
    lookupF (setF sm k v) k = some v := by
  induction sm with
  | nil => simp [setF, lookupF]
  | cons p rest ih =>
    by_cases h : p.1 = k
    · simp [setF, lookupF, h]
    · simp [setF, lookupF, h, ih]

theorem lookupF_setF_ne (sm : SettingsMap) {k k' : Nat} (v : PerFlow) (h : k' ≠ k) :
    lookupF (setF sm k v) k' = lookupF sm k' := by
  induction sm with
  | nil => simp [setF, lookupF, Ne.symm h]
  | cons p rest ih =>
    by_cases hp : p.1 = k
    · simp [setF, lookupF, hp, Ne.symm h, h]
    · by_cases hp' : p.1 = k' <;> simp [setF, lookupF, hp, hp', h, ih]

theorem lookupF_append_entry (sm : SettingsMap) (fid : Nat) (d : PerFlow) :
    lookupF (sm ++ [(fid, d)]) fid = (lookupF sm fid).getD d := by
  induction sm with
  | nil => simp [lookupF]
  | cons p rest ih =>
    by_cases h : p.1 = fid <;> simp [lookupF, h, ih]

theorem lookupF_append_ne (sm : SettingsMap) {fid fid' : Nat} (d : PerFlow)
    (h : fid' ≠ fid) : lookupF (sm ++ [(fid, d)]) fid' = lookupF sm fid' := by
  induction sm with
  | nil => simp [lookupF, Ne.symm h]
  | cons p rest ih =>
    by_cases hp : p.1 = fid' <;> simp [lookupF, hp, ih]

theorem lookupF_settingsEntry (sm : SettingsMap) (fid : Nat) :
    lookupF (settingsEntry sm fid).2 fid = some (settingsEntry sm fid).1 := by
  cases h : lookupF sm fid with
  | some d => simp [settingsEntry, h]
  | none => simp [settingsEntry, h, lookupF_append_entry]

theorem lookupF_settingsEntry_ne (sm : SettingsMap) {fid fid' : Nat} (h : fid' ≠ fid) :
    lookupF (settingsEntry sm fid).2 fid' = lookupF sm fid' := by
  cases hh : lookupF sm fid with
  | some d => simp [settingsEntry, hh]
  | none => simp [settingsEntry, hh, lookupF_append_ne _ _ h]

theorem lookupF_isSome_of_mem_keys (sm : SettingsMap) (k : Nat)
    (h : k ∈ sm.map Prod.fst) : (lookupF sm k).isSome = true := by
  induction sm with
  | nil => simp at h
  | cons p rest ih =>
    by_cases hp : p.1 = k
    · simp [lookupF, hp]
    · simp only [List.map_cons, List.mem_cons] at h
      rcases h with h | h
      · exact absurd h.symm hp
      · simpa [lookupF, hp] using ih h

theorem mem_keys_of_lookupF_isSome (sm : SettingsMap) (k : Nat)
    (h : (lookupF sm k).isSome = true) : k ∈ sm.map Prod.fst := by
  induction sm with
  | nil => simp [lookupF] at h
  | cons p rest ih =>
    by_cases hp : p.1 = k
    · simp [hp.symm]
    · simp only [lookupF, if_neg hp] at h
      simp [ih h]

theorem lookupF_delF_self (sm : SettingsMap) (k : Nat)
    (hnd : (sm.map Prod.fst).Nodup) : lookupF (delF sm k) k = none := by
  induction sm with
  | nil => simp [delF, lookupF]
  | cons p rest ih =>
    simp only [List.map_cons, List.nodup_cons] at hnd
    by_cases h : p.1 = k
    · subst h
      have hnone : lookupF rest p.1 = none := by
        cases hl : lookupF rest p.1 with
        | none => rfl
        | some d =>
          exact absurd (mem_keys_of_lookupF_isSome rest p.1 (by simp [hl])) hnd.1
      simp [delF, hnone]
    · simp [delF, lookupF, h, ih hnd.2]

theorem lookupF_delF_ne (sm : SettingsMap) {k k' : Nat} (h : k' ≠ k) :
    lookupF (delF sm k) k' = lookupF sm k' := by
  induction sm with
  | nil => simp [delF, lookupF]
  | cons p rest ih =>
    by_cases hp : p.1 = k
    · simp [delF, lookupF, hp, Ne.symm h, h]
    · by_cases hp' : p.1 = k' <;> simp [delF, lookupF, hp, hp', h, ih]

theorem keys_setF (sm : SettingsMap) (k : Nat) (v : PerFlow) :
    (setF sm k v).map Prod.fst = sm.map Prod.fst ∨
    (setF sm k v).map Prod.fst = sm.map Prod.fst ++ [k] := by
  induction sm with
  | nil => right; simp [setF]
  | cons p rest ih =>
    by_cases h : p.1 = k
    · left; simp [setF, h]
    · rcases ih with ih | ih
      · left; simp [setF, h, ih]
      · right; simp [setF, h, ih]

theorem keys_delF_sublist (sm : SettingsMap) (k : Nat) :
    List.Sublist ((delF sm k).map Prod.fst) (sm.map Prod.fst) := by
  induction sm with
  | nil => simp [delF]
  | cons p rest ih =>
    by_cases h : p.1 = k
    · simpa [delF, h] using List.sublist_cons_self _ _
    · simpa [delF, h] using ih.cons₂ p.1

/-! ### Sorted-index lemmas -/

theorem sortedInsert_perm (l : ViewIndex) (k : SVal) (fid : Nat) :
    List.Perm (sortedInsert l k fid) ((k, fid) :: l) := by
  induction l with
  | nil => simp [sortedInsert]
  | cons p rest ih =>
    by_cases h : SVal.lt k p.1
    · simp [sortedInsert, h]
    · simp only [sortedInsert, h, Bool.false_eq_true, if_false]
      exact (ih.cons p).trans (List.Perm.swap _ _ _)

theorem mem_sortedInsert {l : ViewIndex} {k : SVal} {fid : Nat} {q : SVal × Nat} :
    q ∈ sortedInsert l k fid ↔ q = (k, fid) ∨ q ∈ l := by
  rw [(sortedInsert_perm l k fid).mem_iff]
  simp

theorem viewIds_sortedInsert_perm (l : ViewIndex) (k : SVal) (fid : Nat) :
    List.Perm (viewIds (sortedInsert l k fid)) (fid :: viewIds l) :=
  (sortedInsert_perm l k fid).map _

theorem sortedInsert_sorted {l : ViewIndex} (hs : sortedByKeys l) (k : SVal)
    (fid : Nat) : sortedByKeys (sortedInsert l k fid) := by
  induction l with
  | nil => simp [sortedInsert, sortedByKeys]
  | cons p rest ih =>
    rcases (List.pairwise_cons.mp hs) with ⟨hall, hrest⟩
    by_cases h : SVal.lt k p.1
    · simp only [sortedInsert, h, if_true]
      refine List.pairwise_cons.mpr ⟨?_, hs⟩
      intro q hq
      rcases List.mem_cons.mp hq with rfl | hq
      · exact SVal.le_of_lt h
      · exact SVal.le_transitive (SVal.le_of_lt h) (hall q hq)
    · simp only [sortedInsert, h, Bool.false_eq_true, if_false]
      refine List.pairwise_cons.mpr ⟨?_, ih hrest⟩
      intro q hq
      rcases mem_sortedInsert.mp hq with rfl | hq
      · exact SVal.le_of_not_lt (by simpa using h)
      · exact hall q hq

theorem removePair_some {l : ViewIndex} {k : SVal} {fid : Nat} {l' : ViewIndex}
    (h : removePair l k fid = some l') :
    ∃ l1 l2, l = l1 ++ (k, fid) :: l2 ∧ l' = l1 ++ l2 := by
  induction l generalizing l' with
  | nil => simp [removePair] at h
  | cons p rest ih =>
    by_cases hp : p.1 = k ∧ p.2 = fid
    · refine ⟨[], rest, ?_, ?_⟩
      · simp only [List.nil_append]
        have : p = (k, fid) := Prod.ext hp.1 hp.2
        rw [this]
      · simpa [removePair, if_pos hp] using h.symm
    · simp only [removePair, if_neg hp, Option.map_eq_some'] at h
      rcases h with ⟨l2, hrec, rfl⟩
      rcases ih hrec with ⟨l1, l2', rfl, rfl⟩
      exact ⟨p :: l1, l2', by simp, by simp⟩

theorem removePair_none {l : ViewIndex} {k : SVal} {fid : Nat}
    (h : removePair l k fid = none) : (k, fid) ∉ l := by
  induction l with
  | nil => simp
  | cons p rest ih =>
    by_cases hp : p.1 = k ∧ p.2 = fid
    · simp [removePair, if_pos hp] at h
    · simp only [removePair, if_neg hp, Option.map_eq_none'] at h
      intro hm
      rcases List.mem_cons.mp hm with rfl | hm
      · exact hp ⟨rfl, rfl⟩
      · exact ih h hm

theorem removePair_isSome_of_mem {l : ViewIndex} {k : SVal} {fid : Nat}
    (h : (k, fid) ∈ l) : (removePair l k fid).isSome = true := by
  cases hr : removePair l k fid with
  | some l' => rfl
  | none => exact absurd h (removePair_none hr)

/-! ### Key-computation lemmas -/

theorem keyOf_store (st : ViewState) (f : HTTPFlow) :
    (keyOf st f).2.store = st.store := rfl

theorem keyOf_viewList (st : ViewState) (f : HTTPFlow) :
    (keyOf st f).2.viewList = st.viewList := rfl

theorem keyOf_order_key (st : ViewState) (f : HTTPFlow) :
    (keyOf st f).2.order_key = st.order_key := rfl

theorem keyOf_focusFlow (st : ViewState) (f : HTTPFlow) :
    (keyOf st f).2.focusFlow = st.focusFlow := rfl

theorem keyOf_filt (st : ViewState) (f : HTTPFlow) :
    (keyOf st f).2.filt = st.filt := rfl

theorem keys_setF_mem (sm : SettingsMap) (k : Nat) (v : PerFlow)
    (h : (lookupF sm k).isSome = true) :
    (setF sm k v).map Prod.fst = sm.map Prod.fst := by
  induction sm with
  | nil => simp [lookupF] at h
  | cons p rest ih =>
    by_cases hp : p.1 = k
    · simp [setF, hp]
    · simp only [lookupF, if_neg hp] at h
      simp [setF, hp, ih h]

theorem orderKeyCall_of_cached {st : ViewState} {f : HTTPFlow} {v : SVal}
    (hs : storeMem st.store f.id = true) (hc : cachedOrder st f.id = some v) :
    orderKeyCall st st.order_key f = (v, st.settings) := by
  unfold cachedOrder at hc
  cases hl : lookupF st.settings f.id with
  | none => rw [hl] at hc; simp at hc
  | some d =>
    rw [hl] at hc
    simp only [Option.some_bind] at hc
    have he : settingsEntry st.settings f.id = (d, st.settings) := by
      simp [settingsEntry, hl]
    unfold orderKeyCall
    rw [if_pos hs]
    simp [he, hc]

theorem keyOf_of_cached {st : ViewState} {f : HTTPFlow} {v : SVal}
    (hs : storeMem st.store f.id = true) (hc : cachedOrder st f.id = some v) :
    keyOf st f = (v, st) := by
  unfold keyOf
  rw [orderKeyCall_of_cached hs hc]

theorem keyOf_of_notStore {st : ViewState} {f : HTTPFlow}
    (hs : storeMem st.store f.id = false) :
    keyOf st f = (generateOf st.order_key f, st) := by
  unfold keyOf orderKeyCall
  rw [if_neg (by simp [hs])]

theorem keyOf_lookupF_ne {st : ViewState} {f : HTTPFlow} {fid : Nat}
    (hf : fid ≠ f.id) :
    lookupF (keyOf st f).2.settings fid = lookupF st.settings fid := by
  by_cases hs : storeMem st.store f.id
  · show lookupF (orderKeyCall st st.order_key f).2 fid = _
    unfold orderKeyCall
    rw [if_pos hs]
    cases hl : lookupS (settingsEntry st.settings f.id).1 (orderKeyName st.order_key) with
    | some w => simp [hl, lookupF_settingsEntry_ne _ hf]
    | none => simp [hl, lookupF_setF_ne _ _ hf, lookupF_settingsEntry_ne _ hf]
  · rw [keyOf_of_notStore (by simpa using hs)]

theorem cachedOrder_keyOf_preserved {st : ViewState} (f : HTTPFlow) {fid : Nat}
    {v : SVal} (hc : cachedOrder st fid = some v) :
    cachedOrder (keyOf st f).2 fid = some v := by
  by_cases hs : storeMem st.store f.id
  · by_cases hf : fid = f.id
    · subst hf
      rw [keyOf_of_cached hs hc]
      exact hc
    · show (lookupF (keyOf st f).2.settings fid).bind _ = some v
      rw [keyOf_lookupF_ne hf]
      exact hc
  · rw [keyOf_of_notStore (by simpa using hs)]
    exact hc

theorem cachedOrder_keyOf_self {st : ViewState} {f : HTTPFlow}
    (hs : storeMem st.store f.id = true) :
    cachedOrder (keyOf st f).2 f.id = some (keyOf st f).1 := by
  show (lookupF (orderKeyCall st st.order_key f).2 f.id).bind _
      = some (orderKeyCall st st.order_key f).1
  unfold orderKeyCall
  rw [if_pos hs]
  cases hl : lookupS (settingsEntry st.settings f.id).1 (orderKeyName st.order_key) with
  | some w => simp [hl, lookupF_settingsEntry, keyOf_order_key]
  | none => simp [hl, lookupF_setF_self, lookupS_setS_self, keyOf_order_key]

theorem keyOf_settings_nodup {st : ViewState} (f : HTTPFlow)
    (h : (st.settings.map Prod.fst).Nodup) :
    ((keyOf st f).2.settings.map Prod.fst).Nodup := by
  by_cases hs : storeMem st.store f.id
  · show ((orderKeyCall st st.order_key f).2.map Prod.fst).Nodup
    unfold orderKeyCall
    rw [if_pos hs]
    have hentry : ((settingsEntry st.settings f.id).2.map Prod.fst).Nodup := by
      unfold settingsEntry
      cases hl : lookupF st.settings f.id with
      | some d => simpa using h
      | none =>
        have hnm : f.id ∉ st.settings.map Prod.fst := by
          intro hm
          have := lookupF_isSome_of_mem_keys st.settings f.id hm
          rw [hl] at this
          simp at this
        simp [List.nodup_append, h, hnm]
    cases hl : lookupS (settingsEntry st.settings f.id).1 (orderKeyName st.order_key) with
    | some w => simpa [hl] using hentry
    | none =>
      simp only [hl]
      rw [keys_setF_mem _ _ _ (by rw [lookupF_settingsEntry]; rfl)]
      exact hentry
  · rw [keyOf_of_notStore (by simpa using hs)]
    exact h

theorem keyOf_lookupF_isSome {st : ViewState} {f : HTTPFlow} {fid : Nat}
    (h : (lookupF (keyOf st f).2.settings fid).isSome = true) :
    (lookupF st.settings fid).isSome = true ∨
      (fid = f.id ∧ storeMem st.store f.id = true) := by
  by_cases hf : fid = f.id
  · by_cases hs : storeMem st.store f.id
    · exact Or.inr ⟨hf, hs⟩
    · rw [keyOf_of_notStore (by simpa using hs)] at h
      exact Or.inl h
  · rw [keyOf_lookupF_ne hf] at h
    exact Or.inl h

/-! ### Settings-write and index-helper lemmas -/

theorem settingsSetItem_store (st : ViewState) (f : HTTPFlow) (k : String) (v : SVal) :
    (settingsSetItem st f k v).store = st.store := rfl

theorem settingsSetItem_viewList (st : ViewState) (f : HTTPFlow) (k : String) (v : SVal) :
    (settingsSetItem st f k v).viewList = st.viewList := rfl

theorem settingsSetItem_order_key (st : ViewState) (f : HTTPFlow) (k : String) (v : SVal) :
    (settingsSetItem st f k v).order_key = st.order_key := rfl

theorem settingsSetItem_focusFlow (st : ViewState) (f : HTTPFlow) (k : String) (v : SVal) :
    (settingsSetItem st f k v).focusFlow = st.focusFlow := rfl

theorem settingsSetItem_lookupF_ne {st : ViewState} {f : HTTPFlow} {fid : Nat}
    (k : String) (v : SVal) (hf : fid ≠ f.id) :
    lookupF (settingsSetItem st f k v).settings fid = lookupF st.settings fid := by
  unfold settingsSetItem
  by_cases hs : storeMem st.store f.id
  · simp [hs, lookupF_setF_ne _ _ hf, lookupF_settingsEntry_ne _ hf]
  · simp [hs]

theorem settingsSetItem_cachedOrder_ne {st : ViewState} {f : HTTPFlow} {fid : Nat}
    (k : String) (v : SVal) (hf : fid ≠ f.id) :
    cachedOrder (settingsSetItem st f k v) fid = cachedOrder st fid := by
  unfold cachedOrder
  rw [settingsSetItem_lookupF_ne k v hf, settingsSetItem_order_key]

theorem settingsSetItem_cachedOrder_self {st : ViewState} {f : HTTPFlow} {v : SVal}
    (hs : storeMem st.store f.id = true) :
    cachedOrder (settingsSetItem st f (orderKeyName st.order_key) v) f.id = some v := by
  unfold cachedOrder settingsSetItem
  simp [hs, lookupF_setF_self, lookupS_setS_self]

theorem settingsSetItem_settings_nodup {st : ViewState} (f : HTTPFlow)
    (k : String) (v : SVal) (h : (st.settings.map Prod.fst).Nodup) :
    ((settingsSetItem st f k v).settings.map Prod.fst).Nodup := by
  unfold settingsSetItem
  by_cases hs : storeMem st.store f.id
  · simp only [hs, if_true]
    rw [keys_setF_mem _ _ _ (by rw [lookupF_settingsEntry]; rfl)]
    unfold settingsEntry
    cases hl : lookupF st.settings f.id with
    | some d => simpa using h
    | none =>
      have hnm : f.id ∉ st.settings.map Prod.fst := by
        intro hm
        have := lookupF_isSome_of_mem_keys st.settings f.id hm
        rw [hl] at this
        simp at this
      simp [List.nodup_append, h, hnm]
  · simpa [hs] using h

theorem settingsSetItem_lookupF_isSome {st : ViewState} {f : HTTPFlow} {fid : Nat}
    {k : String} {v : SVal}
    (h : (lookupF (settingsSetItem st f k v).settings fid).isSome = true) :
    (lookupF st.settings fid).isSome = true ∨
      (fid = f.id ∧ storeMem st.store f.id = true) := by
  by_cases hf : fid = f.id
  · by_cases hs : storeMem st.store f.id
    · exact Or.inr ⟨hf, hs⟩
    · left
      unfold settingsSetItem at h
      simpa [hs] using h
  · rw [settingsSetItem_lookupF_ne k v hf] at h
    exact Or.inl h

theorem viewContainsF_snd (st : ViewState) (f : HTTPFlow) :
    (viewContainsF st f).2 = (keyOf st f).2 := rfl

theorem viewContainsF_mem_of_true {st : ViewState} {f : HTTPFlow}
    (h : (viewContainsF st f).1 = true) : f.id ∈ viewIds st.viewList := by
  unfold viewContainsF at h
  rcases List.any_eq_true.mp h with ⟨p, hp, hcond⟩
  simp only [Bool.and_eq_true, decide_eq_true_eq] at hcond
  exact hcond.2 ▸ List.mem_map_of_mem _ hp

theorem viewContainsF_true_of_mem {st : ViewState} {f : HTTPFlow}
    (hs : storeMem st.store f.id = true)
    (hkeys : ∀ p ∈ st.viewList, cachedOrder st p.2 = some p.1)
    (hm : f.id ∈ viewIds st.viewList) : (viewContainsF st f).1 = true := by
  rcases List.mem_map.mp hm with ⟨p, hp, hpid⟩
  have hc : cachedOrder st f.id = some p.1 := by
    rw [← hpid]
    exact hkeys p hp
  unfold viewContainsF
  rw [keyOf_of_cached hs hc]
  exact List.any_eq_true.mpr ⟨p, hp, by simp [hpid]⟩

theorem viewContainsF_false_not_mem {st : ViewState} {f : HTTPFlow}
    (hs : storeMem st.store f.id = true)
    (hkeys : ∀ p ∈ st.viewList, cachedOrder st p.2 = some p.1)
    (h : (viewContainsF st f).1 = false) : f.id ∉ viewIds st.viewList := by
  intro hm
  rw [viewContainsF_true_of_mem hs hkeys hm] at h
  simp at h

theorem viewAddElem_store (st : ViewState) (f : HTTPFlow) :
    (viewAddElem st f).store = st.store := rfl

theorem viewAddElem_focusFlow (st : ViewState) (f : HTTPFlow) :
    (viewAddElem st f).focusFlow = st.focusFlow := rfl

theorem viewAddElem_order_key (st : ViewState) (f : HTTPFlow) :
    (viewAddElem st f).order_key = st.order_key := rfl

theorem viewAddElem_viewList (st : ViewState) (f : HTTPFlow) :
    (viewAddElem st f).viewList = sortedInsert st.viewList (keyOf st f).1 f.id := rfl

theorem viewRemoveTry_store (st : ViewState) (f : HTTPFlow) :
    (viewRemoveTry st f).1.store = st.store := rfl

theorem viewRemoveTry_focusFlow (st : ViewState) (f : HTTPFlow) :
    (viewRemoveTry st f).1.focusFlow = st.focusFlow := rfl

theorem viewRemoveTry_order_key (st : ViewState) (f : HTTPFlow) :
    (viewRemoveTry st f).1.order_key = st.order_key := rfl

theorem viewRemoveTry_viewList (st : ViewState) (f : HTTPFlow) :
    (viewRemoveTry st f).1.viewList =
      (removePair st.viewList (keyOf st f).1 f.id).getD st.viewList := rfl

theorem removePair_not_mem {l : ViewIndex} {k : SVal} {fid : Nat}
    (h : fid ∉ viewIds l) : removePair l k fid = none := by
  cases hr : removePair l k fid with
  | none => rfl
  | some l' =>
    rcases removePair_some hr with ⟨l1, l2, rfl, _⟩
    exact absurd (by simp [viewIds]) h

/-! ### `_base_add` lemmas -/

theorem cachedOrder_viewAddElem (st : ViewState) (f : HTTPFlow) (fid : Nat) :
    cachedOrder (viewAddElem st f) fid = cachedOrder (keyOf st f).2 fid := rfl

theorem base_add_store (st : ViewState) (f : HTTPFlow) :
    (View_base_add st f).store = st.store := rfl

theorem base_add_focusFlow (st : ViewState) (f : HTTPFlow) :
    (View_base_add st f).focusFlow = st.focusFlow := rfl

theorem base_add_order_key (st : ViewState) (f : HTTPFlow) :
    (View_base_add st f).order_key = st.order_key := rfl

theorem base_add_cached_mid {st : ViewState} {f : HTTPFlow}
    (hs : storeMem st.store f.id = true) :
    cachedOrder
      (settingsSetItem (keyOf st f).2 f (orderKeyName st.order_key) (keyOf st f).1)
      f.id = some (keyOf st f).1 :=
  @settingsSetItem_cachedOrder_self (keyOf st f).2 f (keyOf st f).1 hs

theorem base_add_viewList {st : ViewState} {f : HTTPFlow}
    (hs : storeMem st.store f.id = true) :
    (View_base_add st f).viewList = sortedInsert st.viewList (keyOf st f).1 f.id := by
  unfold View_base_add
  rw [viewAddElem_viewList]
  rw [@keyOf_of_cached
        (settingsSetItem (keyOf st f).2 f (orderKeyName st.order_key) (keyOf st f).1)
        f (keyOf st f).1 hs (base_add_cached_mid hs)]
  rfl

theorem base_add_cachedOrder_self {st : ViewState} {f : HTTPFlow}
    (hs : storeMem st.store f.id = true) :
    cachedOrder (View_base_add st f) f.id = some (keyOf st f).1 := by
  unfold View_base_add
  rw [cachedOrder_viewAddElem]
  rw [@keyOf_of_cached
        (settingsSetItem (keyOf st f).2 f (orderKeyName st.order_key) (keyOf st f).1)
        f (keyOf st f).1 hs (base_add_cached_mid hs)]
  exact base_add_cached_mid hs

theorem base_add_cachedOrder_ne {st : ViewState} {f : HTTPFlow} {fid : Nat}
    (hf : fid ≠ f.id) :
    cachedOrder (View_base_add st f) fid = cachedOrder st fid := by
  unfold View_base_add
  rw [cachedOrder_viewAddElem]
  show (lookupF _ fid).bind _ = _
  rw [keyOf_lookupF_ne hf, settingsSetItem_lookupF_ne _ _ hf, keyOf_lookupF_ne hf]
  rfl

theorem base_add_settings_nodup {st : ViewState} (f : HTTPFlow)
    (h : (st.settings.map Prod.fst).Nodup) :
    ((View_base_add st f).settings.map Prod.fst).Nodup := by
  unfold View_base_add
  show ((keyOf _ f).2.settings.map Prod.fst).Nodup
  exact keyOf_settings_nodup f
    (settingsSetItem_settings_nodup f _ _ (keyOf_settings_nodup f h))

theorem base_add_lookupF_isSome {st : ViewState} {f : HTTPFlow} {fid : Nat}
    (h : (lookupF (View_base_add st f).settings fid).isSome = true) :
    (lookupF st.settings fid).isSome = true ∨
      (fid = f.id ∧ storeMem st.store f.id = true) := by
  unfold View_base_add at h
  replace h := @keyOf_lookupF_isSome
    (settingsSetItem (keyOf st f).2 f (orderKeyName st.order_key) (keyOf st f).1) f fid h
  rcases h with h | h
  · rcases @settingsSetItem_lookupF_isSome (keyOf st f).2 f fid _ _ h with h | h
    · exact keyOf_lookupF_isSome h
    · exact Or.inr h
  · exact Or.inr h

/-! ### `_refilter` fold lemmas -/

theorem refilterStep_frames (acc : ViewState) (i : HTTPFlow) :
    (refilterStep acc i).store = acc.store ∧
    (refilterStep acc i).order_key = acc.order_key ∧
    (refilterStep acc i).focusFlow = acc.focusFlow ∧
    (refilterStep acc i).filt = acc.filt ∧
    (refilterStep acc i).show_marked = acc.show_marked ∧
    (refilterStep acc i).order_reversed = acc.order_reversed ∧
    (refilterStep acc i).focus_follow = acc.focus_follow := by
  unfold refilterStep
  split
  · exact ⟨rfl, rfl, rfl, rfl, rfl, rfl, rfl⟩
  · split
    · exact ⟨rfl, rfl, rfl, rfl, rfl, rfl, rfl⟩
    · exact ⟨rfl, rfl, rfl, rfl, rfl, rfl, rfl⟩

theorem refilter_fold_frames (l : List HTTPFlow) :
    ∀ acc : ViewState,
    (l.foldl refilterStep acc).store = acc.store ∧
    (l.foldl refilterStep acc).order_key = acc.order_key ∧
    (l.foldl refilterStep acc).focusFlow = acc.focusFlow ∧
    (l.foldl refilterStep acc).filt = acc.filt ∧
    (l.foldl refilterStep acc).show_marked = acc.show_marked ∧
    (l.foldl refilterStep acc).order_reversed = acc.order_reversed ∧
    (l.foldl refilterStep acc).focus_follow = acc.focus_follow := by
  induction l with
  | nil => intro acc; exact ⟨rfl, rfl, rfl, rfl, rfl, rfl, rfl⟩
  | cons i rest ih =>
    intro acc
    have hstep := refilterStep_frames acc i
    have hrest := ih (refilterStep acc i)
    simp only [List.foldl_cons]
    exact ⟨hrest.1.trans hstep.1, hrest.2.1.trans hstep.2.1,
      hrest.2.2.1.trans hstep.2.2.1, hrest.2.2.2.1.trans hstep.2.2.2.1,
      hrest.2.2.2.2.1.trans hstep.2.2.2.2.1,
      hrest.2.2.2.2.2.1.trans hstep.2.2.2.2.2.1,
      hrest.2.2.2.2.2.2.trans hstep.2.2.2.2.2.2⟩

theorem refilter_fold_inv (l : List HTTPFlow) :
    ∀ acc : ViewState,
    (∀ i ∈ l, storeMem acc.store i.id = true) →
    (∀ i ∈ l, i.id ∉ viewIds acc.viewList) →
    (l.map HTTPFlow.id).Nodup →
    (viewIds acc.viewList).Nodup →
    (∀ p ∈ acc.viewList, cachedOrder acc p.2 = some p.1) →
    sortedByKeys acc.viewList →
    (viewIds (l.foldl refilterStep acc).viewList).Nodup ∧
    (∀ p ∈ (l.foldl refilterStep acc).viewList,
        cachedOrder (l.foldl refilterStep acc) p.2 = some p.1) ∧
    sortedByKeys (l.foldl refilterStep acc).viewList := by
  induction l with
  | nil =>
    intro acc _ _ _ h4 h5 h6
    exact ⟨h4, h5, h6⟩
  | cons i rest ih =>
    intro acc hmem hnotin hnodupl hnodupv hkeys hsorted
    simp only [List.foldl_cons]
    simp only [List.map_cons, List.nodup_cons] at hnodupl
    have hmem_i : storeMem acc.store i.id = true := hmem i (by simp)
    by_cases h1 : (acc.show_marked && !i.marked) = true
    · have hstep : refilterStep acc i = acc := by unfold refilterStep; rw [if_pos h1]
      rw [hstep]
      exact ih acc (fun j hj => hmem j (by simp [hj]))
        (fun j hj => hnotin j (by simp [hj])) hnodupl.2 hnodupv hkeys hsorted
    · by_cases h2 : acc.filt i = true
      · have hstep : refilterStep acc i = View_base_add acc i := by
          unfold refilterStep
          rw [if_neg (by simpa using h1), if_pos h2]
        rw [hstep]
        have hperm := viewIds_sortedInsert_perm acc.viewList (keyOf acc i).1 i.id
        have hvl := @base_add_viewList acc i hmem_i
        have hmem_new : ∀ fid, fid ∈ viewIds (View_base_add acc i).viewList ↔
            (fid = i.id ∨ fid ∈ viewIds acc.viewList) := by
          intro fid
          rw [hvl, (viewIds_sortedInsert_perm _ _ _).mem_iff]
          simp
        refine ih (View_base_add acc i)
          (fun j hj => by rw [base_add_store]; exact hmem j (by simp [hj]))
          (fun j hj => by
            rw [hmem_new j.id]
            push_neg
            refine ⟨?_, hnotin j (by simp [hj])⟩
            intro heq
            exact hnodupl.1 (by rw [← heq]; exact List.mem_map_of_mem _ hj))
          hnodupl.2 ?_ ?_ ?_
        · rw [hvl]
          refine ((viewIds_sortedInsert_perm _ _ _).nodup_iff).mpr ?_
          exact List.nodup_cons.mpr ⟨hnotin i (by simp), hnodupv⟩
        · intro p hp
          rw [hvl] at hp
          rcases mem_sortedInsert.mp hp with rfl | hp
          · exact base_add_cachedOrder_self hmem_i
          · have hne : p.2 ≠ i.id := by
              intro hc
              exact hnotin i (by simp) (hc ▸ List.mem_map_of_mem _ hp)
            rw [base_add_cachedOrder_ne hne]
            exact hkeys p hp
        · rw [hvl]
          exact sortedInsert_sorted hsorted _ _
      · have hstep : refilterStep acc i = acc := by
          unfold refilterStep
          rw [if_neg (by simpa using h1), if_neg (by simpa using h2)]
        rw [hstep]
        exact ih acc (fun j hj => hmem j (by simp [hj]))
          (fun j hj => hnotin j (by simp [hj])) hnodupl.2 hnodupv hkeys hsorted

theorem refilter_fold_mem (l : List HTTPFlow) :
    ∀ acc : ViewState,
    (∀ i ∈ l, storeMem acc.store i.id = true) →
    ∀ fid, (fid ∈ viewIds (l.foldl refilterStep acc).viewList ↔
      (fid ∈ viewIds acc.viewList ∨
        ∃ i, i ∈ l ∧ i.id = fid ∧ (acc.show_marked && !i.marked) = false ∧
          acc.filt i = true)) := by
  induction l with
  | nil => intro acc _ fid; simp
  | cons i rest ih =>
    intro acc hmem fid
    simp only [List.foldl_cons]
    have hmem_i : storeMem acc.store i.id = true := hmem i (by simp)
    by_cases h1 : (acc.show_marked && !i.marked) = true
    · have hstep : refilterStep acc i = acc := by unfold refilterStep; rw [if_pos h1]
      rw [hstep, ih acc (fun j hj => hmem j (by simp [hj])) fid]
      constructor
      · rintro (h | ⟨j, hj, hrest⟩)
        · exact Or.inl h
        · exact Or.inr ⟨j, by simp [hj], hrest⟩
      · rintro (h | ⟨j, hj, hjid, hj1, hj2⟩)
        · exact Or.inl h
        · rcases List.mem_cons.mp hj with rfl | hj
          · rw [h1] at hj1; simp at hj1
          · exact Or.inr ⟨j, hj, hjid, hj1, hj2⟩
    · by_cases h2 : acc.filt i = true
      · have hstep : refilterStep acc i = View_base_add acc i := by
          unfold refilterStep
          rw [if_neg (by simpa using h1), if_pos h2]
        rw [hstep]
        have hrec : fid ∈ viewIds (List.foldl refilterStep (View_base_add acc i)
              rest).viewList ↔
            fid ∈ viewIds (View_base_add acc i).viewList ∨
              ∃ j, j ∈ rest ∧ j.id = fid ∧
                (acc.show_marked && !j.marked) = false ∧ acc.filt j = true :=
          ih (View_base_add acc i)
            (fun j hj => by rw [base_add_store]; exact hmem j (by simp [hj])) fid
        rw [hrec]
        have hvl := @base_add_viewList acc i hmem_i
        have hmem_new : fid ∈ viewIds (View_base_add acc i).viewList ↔
            (fid = i.id ∨ fid ∈ viewIds acc.viewList) := by
          rw [hvl, (viewIds_sortedInsert_perm _ _ _).mem_iff]
          simp
        rw [hmem_new]
        constructor
        · rintro ((rfl | h) | ⟨j, hj, hrest⟩)
          · exact Or.inr ⟨i, by simp, rfl, by simpa using h1, h2⟩
          · exact Or.inl h
          · exact Or.inr ⟨j, by simp [hj], hrest⟩
        · rintro (h | ⟨j, hj, hjid, hj1, hj2⟩)
          · exact Or.inl (Or.inr h)
          · rcases List.mem_cons.mp hj with rfl | hj
            · exact Or.inl (Or.inl hjid.symm)
            · exact Or.inr ⟨j, hj, hjid, hj1, hj2⟩
      · have hstep : refilterStep acc i = acc := by
          unfold refilterStep
          rw [if_neg (by simpa using h1), if_neg (by simpa using h2)]
        rw [hstep, ih acc (fun j hj => hmem j (by simp [hj])) fid]
        constructor
        · rintro (h | ⟨j, hj, hrest⟩)
          · exact Or.inl h
          · exact Or.inr ⟨j, by simp [hj], hrest⟩
        · rintro (h | ⟨j, hj, hjid, hj1, hj2⟩)
          · exact Or.inl h
          · rcases List.mem_cons.mp hj with rfl | hj
            · exact absurd hj2 h2
            · exact Or.inr ⟨j, hj, hjid, hj1, hj2⟩

/-! ### Benign-state-change relation -/

/-- `FrameOk a b`: `b` differs from `a` only in the focus reference and in
settings writes that are benign for the invariants — existing cached order
values are preserved, settings keys stay duplicate-free, and new entries only
appear for store members.  All the Focus machinery (which only sets the focus
and computes keys) satisfies this. -/
def FrameOk (a b : ViewState) : Prop :=
  b.store = a.store ∧ b.viewList = a.viewList ∧ b.order_key = a.order_key ∧
  b.filt = a.filt ∧ b.show_marked = a.show_marked ∧
  b.order_reversed = a.order_reversed ∧ b.focus_follow = a.focus_follow ∧
  (∀ fid v, cachedOrder a fid = some v → cachedOrder b fid = some v) ∧
  ((a.settings.map Prod.fst).Nodup → (b.settings.map Prod.fst).Nodup) ∧
  (∀ fid, (lookupF b.settings fid).isSome = true →
     (lookupF a.settings fid).isSome = true ∨ storeMem a.store fid = true)

theorem FrameOk.refl (a : ViewState) : FrameOk a a :=
  ⟨rfl, rfl, rfl, rfl, rfl, rfl, rfl, fun _ _ h => h, id, fun _ h => Or.inl h⟩

theorem FrameOk.trans {a b c : ViewState} (h1 : FrameOk a b) (h2 : FrameOk b c) :
    FrameOk a c := by
  obtain ⟨s1, v1, o1, f1, m1, r1, w1, c1, n1, i1⟩ := h1
  obtain ⟨s2, v2, o2, f2, m2, r2, w2, c2, n2, i2⟩ := h2
  refine ⟨s2.trans s1, v2.trans v1, o2.trans o1, f2.trans f1, m2.trans m1,
    r2.trans r1, w2.trans w1, fun fid v h => c2 fid v (c1 fid v h), fun h => n2 (n1 h),
    fun fid h => ?_⟩
  rcases i2 fid h with h' | h'
  · exact i1 fid h'
  · rw [s1] at h'
    exact Or.inr h'

theorem FrameOk_keyOf (st : ViewState) (f : HTTPFlow) : FrameOk st (keyOf st f).2 := by
  refine ⟨rfl, rfl, rfl, rfl, rfl, rfl, rfl,
    fun fid v h => cachedOrder_keyOf_preserved f h, keyOf_settings_nodup f,
    fun fid h => ?_⟩
  rcases keyOf_lookupF_isSome h with h' | ⟨rfl, hm⟩
  · exact Or.inl h'
  · exact Or.inr hm

theorem FrameOk_setFlow (st : ViewState) (of : Option HTTPFlow) :
    FrameOk st (Focus_setFlow st of) := by
  cases of with
  | none => exact ⟨rfl, rfl, rfl, rfl, rfl, rfl, rfl, fun _ _ h => h, id,
      fun _ h => Or.inl h⟩
  | some f => exact FrameOk_keyOf st f

theorem FrameOk_focusAt (st : ViewState) (i : Int) :
    FrameOk st (Focus_focusAt st i) := by
  unfold Focus_focusAt
  split
  · split
    · exact FrameOk_setFlow st _
    · exact FrameOk.refl st
  · exact FrameOk.refl st

theorem FrameOk_nearest (st : ViewState) (f : HTTPFlow) :
    FrameOk st (Focus_nearest st f).2 :=
  FrameOk_keyOf st f

theorem FrameOk_sigViewRemove (st : ViewState) (f : HTTPFlow) :
    FrameOk st (Focus_sigViewRemove st f) := by
  unfold Focus_sigViewRemove
  split
  · exact FrameOk_setFlow st none
  · split
    · split
      · split
        · exact (FrameOk_nearest st _).trans (FrameOk_focusAt _ _)
        · exact FrameOk_nearest st _
      · exact FrameOk.refl st
    · exact FrameOk.refl st

theorem FrameOk_sigViewRefresh (st : ViewState) :
    FrameOk st (Focus_sigViewRefresh st) := by
  unfold Focus_sigViewRefresh
  split
  · exact FrameOk_setFlow st none
  · split
    · exact FrameOk_focusAt st 0
    · split
      · show FrameOk st (viewContainsF st _).2
        exact FrameOk_keyOf st _
      · split
        · exact ((FrameOk_keyOf st _).trans (FrameOk_nearest _ _)).trans
            (FrameOk_focusAt _ _)
        · exact (FrameOk_keyOf st _).trans (FrameOk_nearest _ _)

theorem FrameOk_sigViewAdd (st : ViewState) (f : HTTPFlow) :
    FrameOk st (Focus_sigViewAdd st f) := by
  unfold Focus_sigViewAdd
  split
  · exact FrameOk_setFlow st _
  · exact FrameOk.refl st

theorem ViewInv_of_FrameOk {a b : ViewState} (hf : FrameOk a b) (hinv : ViewInv a) :
    ViewInv b := by
  obtain ⟨s, v, o, _, _, _, _, c, _, _⟩ := hf
  obtain ⟨i1, i2, i3, i4, i5⟩ := hinv
  exact ⟨by rw [s]; exact i1, by rw [v]; exact i2,
    fun fid hm => by rw [s]; exact i3 fid (v ▸ hm),
    fun p hp => c p.2 p.1 (i4 p (v ▸ hp)), by rw [v]; exact i5⟩

theorem SettingsWF_of_FrameOk {a b : ViewState} (hf : FrameOk a b)
    (hwf : SettingsWF a) : SettingsWF b := by
  obtain ⟨s, _, _, _, _, _, _, _, n, i⟩ := hf
  refine ⟨n hwf.1, fun fid h => ?_⟩
  rw [s]
  rcases i fid h with h' | h'
  · exact hwf.2 fid h'
  · exact h'

/-! ### Focus lemmas -/

theorem flowById_of_storeMem {store : List HTTPFlow} {fid : Nat}
    (h : storeMem store fid = true) :
    ∃ g, flowById store fid = some g ∧ g.id = fid := by
  rcases List.any_eq_true.mp h with ⟨g, hg, hgid⟩
  have hsome : (store.find? (fun g => g.id = fid)).isSome :=
    List.find?_isSome.mpr ⟨g, hg, hgid⟩
  cases hf : store.find? (fun g => g.id = fid) with
  | none => rw [hf] at hsome; simp at hsome
  | some g' => exact ⟨g', hf, by simpa using List.find?_some hf⟩

theorem pyGetPair_nonneg {l : ViewIndex} {j : Int} (hj0 : 0 ≤ j)
    (hjl : j < (l.length : Int)) :
    ∃ p, pyGetPair l j = some p ∧ p ∈ l := by
  have hlt : j.toNat < l.length := by omega
  have heq : pyGetPair l j = l.get? j.toNat := by
    unfold pyGetPair
    simp only [if_neg (show ¬ j < 0 by omega)]
    rw [if_pos ⟨hj0, hjl⟩]
  rw [heq, List.get?_eq_get hlt]
  exact ⟨_, rfl, List.get_mem _ _ _⟩

theorem View_getitem_some_mem {st : ViewState} {i : Int} (h0 : 0 ≤ i)
    (hl : i < (st.viewList.length : Int)) :
    ∃ fid, View_getitem st i = some fid ∧ fid ∈ viewIds st.viewList := by
  unfold View_getitem View_rev
  by_cases hrev : st.order_reversed = true
  · rw [if_pos hrev, if_neg (by omega), if_neg (by omega)]
    rcases pyGetPair_nonneg (l := st.viewList)
        (j := (st.viewList.length : Int) - i - 1) (by omega) (by omega) with ⟨p, hp, hpm⟩
    exact ⟨p.2, by simp [hp], List.mem_map_of_mem _ hpm⟩
  · rw [if_neg hrev]
    rcases pyGetPair_nonneg (l := st.viewList) (j := i) h0 hl with ⟨p, hp, hpm⟩
    exact ⟨p.2, by simp [hp], List.mem_map_of_mem _ hpm⟩

theorem View_rev_some {st : ViewState} {idx : Int} (h0 : -1 ≤ idx)
    (hl : idx ≤ (st.viewList.length : Int) - 1)
    (hlen : 1 ≤ (st.viewList.length : Int)) :
    ∃ m, View_rev st idx = some m ∧ -1 ≤ m ∧ m ≤ (st.viewList.length : Int) - 1 := by
  unfold View_rev
  by_cases hrev : st.order_reversed = true
  · rw [if_pos hrev]
    by_cases hneg : idx < 0
    · rw [if_pos hneg]
      exact ⟨-idx - 1, rfl, by omega, by omega⟩
    · rw [if_neg hneg]
      simp only [if_neg (show ¬ ((st.viewList.length : Int) - idx - 1 < 0) by omega)]
      exact ⟨_, rfl, by omega, by omega⟩
  · rw [if_neg hrev]
    exact ⟨idx, rfl, h0, hl⟩

theorem Focus_nearest_bounds {st : ViewState} (f : HTTPFlow)
    (hlen : st.viewList.length ≠ 0) :
    ∃ n, (Focus_nearest st f).1 = some n ∧ 0 ≤ n ∧
      n < (st.viewList.length : Int) := by
  have hvb : (((st.viewList.takeWhile
        (fun p => !(SVal.lt (keyOf st f).1 p.1))).length : Int)) ≤
        (st.viewList.length : Int) := by
    exact_mod_cast (List.takeWhile_sublist (l := st.viewList)
      (fun p => !(SVal.lt (keyOf st f).1 p.1))).length_le
  obtain ⟨m, hm, hm0, hm1⟩ := @View_rev_some (keyOf st f).2
    (((st.viewList.takeWhile
      (fun p => !(SVal.lt (keyOf st f).1 p.1))).length : Int) - 1)
    (by omega) (by rw [keyOf_viewList]; omega) (by rw [keyOf_viewList]; omega)
  rw [keyOf_viewList] at hm1
  refine ⟨min (m + 1) ((st.viewList.length : Int) - 1), ?_, by omega, by omega⟩
  show ((View_bisect st f).1.map _) = _
  unfold View_bisect
  simp [keyOf_viewList, hm]

theorem Focus_setFlow_focusFlow_pos {st : ViewState} {f : HTTPFlow}
    (hb : (viewContainsF st f).1 = true) :
    (Focus_setFlow st (some f)).focusFlow = some f := by
  show (if (viewContainsF st f).1 = true then some f
        else (viewContainsF st f).2.focusFlow) = some f
  rw [if_pos hb]

theorem Focus_setFlow_focusFlow_neg {st : ViewState} {f : HTTPFlow}
    (hb : ¬ (viewContainsF st f).1 = true) :
    (Focus_setFlow st (some f)).focusFlow = st.focusFlow := by
  show (if (viewContainsF st f).1 = true then some f
        else (viewContainsF st f).2.focusFlow) = st.focusFlow
  rw [if_neg hb]
  rfl

theorem Focus_setFlow_viewList (st : ViewState) (of : Option HTTPFlow) :
    (Focus_setFlow st of).viewList = st.viewList := by
  cases of <;> rfl

theorem FocusInv_setFlow_none (st : ViewState) : FocusInv (Focus_setFlow st none) := by
  unfold FocusInv Focus_setFlow
  simp

theorem FocusInv_setFlow_some {st : ViewState} (f : HTTPFlow) (hprev : FocusInv st) :
    FocusInv (Focus_setFlow st (some f)) := by
  unfold FocusInv
  by_cases hb : (viewContainsF st f).1 = true
  · rw [Focus_setFlow_focusFlow_pos hb, Focus_setFlow_viewList]
    exact viewContainsF_mem_of_true hb
  · rw [Focus_setFlow_focusFlow_neg hb, Focus_setFlow_viewList]
    exact hprev

theorem Focus_focusAt_eq {st : ViewState} {i : Int} {fid : Nat} {g : HTTPFlow}
    (hget : View_getitem st i = some fid) (hfb : flowById st.store fid = some g) :
    Focus_focusAt st i = Focus_setFlow st (some g) := by
  unfold Focus_focusAt
  split
  · rename_i fid' heq
    rw [hget] at heq
    injection heq with h
    subst h
    split
    · rename_i g' heq2
      rw [hfb] at heq2
      injection heq2 with h2
      subst h2
      rfl
    · rename_i heq2
      rw [hfb] at heq2
      cases heq2
  · rename_i heq
    rw [hget] at heq
    cases heq

theorem focusAt_sets {st : ViewState} {i : Int} (h0 : 0 ≤ i)
    (hl : i < (st.viewList.length : Int))
    (hsub : ∀ fid ∈ viewIds st.viewList, storeMem st.store fid = true)
    (hkeys : ∀ p ∈ st.viewList, cachedOrder st p.2 = some p.1) :
    ∃ g, (Focus_focusAt st i).focusFlow = some g ∧ g.id ∈ viewIds st.viewList := by
  rcases View_getitem_some_mem h0 hl with ⟨fid, hget, hmem⟩
  rcases flowById_of_storeMem (hsub fid hmem) with ⟨g, hfb, hgid⟩
  have hcont : (viewContainsF st g).1 = true :=
    viewContainsF_true_of_mem (by rw [hgid]; exact hsub fid hmem) hkeys
      (by rw [hgid]; exact hmem)
  rw [Focus_focusAt_eq hget hfb]
  exact ⟨g, Focus_setFlow_focusFlow_pos hcont, by rw [hgid]; exact hmem⟩

theorem FocusInv_focusAt {st : ViewState} (i : Int) (hprev : FocusInv st) :
    FocusInv (Focus_focusAt st i) := by
  unfold Focus_focusAt
  split
  · split
    · exact FocusInv_setFlow_some _ hprev
    · exact hprev
  · exact hprev

/-! ### FocusInv for the Focus signal handlers -/

theorem FocusInv_sigViewAdd {st : ViewState} (f : HTTPFlow) (hprev : FocusInv st) :
    FocusInv (Focus_sigViewAdd st f) := by
  unfold Focus_sigViewAdd
  split
  · exact FocusInv_setFlow_some _ (by unfold FocusInv; rename_i heq; rw [heq]; trivial)
  · exact hprev

theorem FocusInv_sigViewRemove {st : ViewState} {f : HTTPFlow}
    (hsub : ∀ fid ∈ viewIds st.viewList, storeMem st.store fid = true)
    (hkeys : ∀ p ∈ st.viewList, cachedOrder st p.2 = some p.1)
    (hfoc : ∀ g, st.focusFlow = some g → g.id ≠ f.id → g.id ∈ viewIds st.viewList) :
    FocusInv (Focus_sigViewRemove st f) := by
  unfold Focus_sigViewRemove
  by_cases hlen : st.viewList.length = 0
  · rw [if_pos hlen]
    exact FocusInv_setFlow_none st
  · rw [if_neg hlen]
    cases hfoc' : st.focusFlow with
    | none =>
      show FocusInv st
      unfold FocusInv
      rw [hfoc']
      trivial
    | some g =>
      show FocusInv (if g.id = f.id then _ else st)
      by_cases hg : g.id = f.id
      · rw [if_pos hg]
        obtain ⟨n, hn, hn0, hn1⟩ := Focus_nearest_bounds g hlen
        rw [hn]
        show FocusInv (Focus_focusAt (Focus_nearest st g).2 n)
        have hkeys' : ∀ p ∈ (Focus_nearest st g).2.viewList,
            cachedOrder (Focus_nearest st g).2 p.2 = some p.1 := by
          intro p hp
          exact cachedOrder_keyOf_preserved g (hkeys p hp)
        obtain ⟨g', hg', hgm⟩ := @focusAt_sets (Focus_nearest st g).2 n
          hn0 hn1 hsub hkeys'
        unfold FocusInv
        rw [hg']
        have hvl : (Focus_focusAt (Focus_nearest st g).2 n).viewList
            = st.viewList := (FrameOk_focusAt _ n).2.1
        rw [hvl]
        exact hgm
      · rw [if_neg hg]
        unfold FocusInv
        rw [hfoc']
        exact hfoc g hfoc' hg

theorem FocusInv_sigViewRefresh {st : ViewState}
    (hsub : ∀ fid ∈ viewIds st.viewList, storeMem st.store fid = true)
    (hkeys : ∀ p ∈ st.viewList, cachedOrder st p.2 = some p.1) :
    FocusInv (Focus_sigViewRefresh st) := by
  unfold Focus_sigViewRefresh
  by_cases hlen : st.viewList.length = 0
  · rw [if_pos hlen]
    exact FocusInv_setFlow_none st
  · rw [if_neg hlen]
    cases hfoc' : st.focusFlow with
    | none =>
      show FocusInv (Focus_focusAt st 0)
      obtain ⟨g', hg', hgm⟩ := @focusAt_sets st 0 le_rfl
        (by exact_mod_cast Nat.pos_of_ne_zero hlen) hsub hkeys
      unfold FocusInv
      rw [hg', (FrameOk_focusAt st 0).2.1]
      exact hgm
    | some g =>
      show FocusInv (if (viewContainsF st g).1 then _ else _)
      by_cases hb : (viewContainsF st g).1 = true
      · rw [if_pos hb]
        unfold FocusInv
        show (match (viewContainsF st g).2.focusFlow with
          | none => True
          | some gg => gg.id ∈ viewIds (viewContainsF st g).2.viewList : Prop)
        rw [viewContainsF_snd, keyOf_focusFlow, keyOf_viewList, hfoc']
        exact viewContainsF_mem_of_true hb
      · rw [if_neg hb]
        obtain ⟨n, hn, hn0, hn1⟩ :=
          @Focus_nearest_bounds (viewContainsF st g).2 g
            (by rw [viewContainsF_snd, keyOf_viewList]; exact hlen)
        rw [hn]
        show FocusInv (Focus_focusAt (Focus_nearest (viewContainsF st g).2 g).2 n)
        have hkeys' : ∀ p ∈ (Focus_nearest (viewContainsF st g).2 g).2.viewList,
            cachedOrder (Focus_nearest (viewContainsF st g).2 g).2 p.2 = some p.1 := by
          intro p hp
          exact cachedOrder_keyOf_preserved g (cachedOrder_keyOf_preserved g (hkeys p hp))
        obtain ⟨g', hg', hgm⟩ :=
          @focusAt_sets (Focus_nearest (viewContainsF st g).2 g).2 n
            hn0 (by rw [viewContainsF_snd, keyOf_viewList] at hn1; exact hn1) hsub hkeys'
        unfold FocusInv
        rw [hg', (FrameOk_focusAt _ n).2.1]
        exact hgm

/-! ### Store and index-removal corollaries -/

theorem storeMem_iff {store : List HTTPFlow} {fid : Nat} :
    storeMem store fid = true ↔ fid ∈ store.map HTTPFlow.id := by
  unfold storeMem
  rw [List.any_eq_true]
  constructor
  · rintro ⟨g, hg, hgid⟩
    exact (by simpa using hgid : g.id = fid) ▸ List.mem_map_of_mem _ hg
  · rintro hm
    rcases List.mem_map.mp hm with ⟨g, hg, hgid⟩
    exact ⟨g, hg, by simpa using hgid⟩

theorem storeMem_of_mem {store : List HTTPFlow} {g : HTTPFlow} (h : g ∈ store) :
    storeMem store g.id = true :=
  storeMem_iff.mpr (List.mem_map_of_mem _ h)

theorem storeMem_append {store : List HTTPFlow} {f : HTTPFlow} {fid : Nat} :
    storeMem (store ++ [f]) fid = (storeMem store fid || decide (f.id = fid)) := by
  unfold storeMem
  simp [List.any_append]

theorem replace_map_id (store : List HTTPFlow) (f : HTTPFlow) :
    (store.map (fun g => if g.id = f.id then f else g)).map HTTPFlow.id =
      store.map HTTPFlow.id := by
  rw [List.map_map]
  refine List.map_congr_left ?_
  intro g _
  by_cases h : g.id = f.id <;> simp [h]

theorem storeMem_replace (store : List HTTPFlow) (f : HTTPFlow) (fid : Nat) :
    storeMem (store.map (fun g => if g.id = f.id then f else g)) fid =
      storeMem store fid := by
  have h2 : storeMem (store.map (fun g => if g.id = f.id then f else g)) fid = true ↔
      storeMem store fid = true := by
    rw [storeMem_iff, storeMem_iff, replace_map_id]
  cases hcase : storeMem store fid with
  | true => exact h2.mpr hcase
  | false =>
    cases hrep : storeMem (store.map (fun g => if g.id = f.id then f else g)) fid with
    | false => rfl
    | true =>
      rw [hcase] at h2
      exact absurd (h2.mp hrep) (by simp)

theorem removePair_subset {l : ViewIndex} {k : SVal} {fid : Nat} {l' : ViewIndex}
    (h : removePair l k fid = some l') : ∀ q ∈ l', q ∈ l := by
  rcases removePair_some h with ⟨l1, l2, rfl, rfl⟩
  intro q hq
  rcases List.mem_append.mp hq with hq | hq
  · exact List.mem_append.mpr (Or.inl hq)
  · exact List.mem_append.mpr (Or.inr (List.mem_cons_of_mem _ hq))

theorem removePair_not_mem_ids {l : ViewIndex} {k : SVal} {fid : Nat} {l' : ViewIndex}
    (h : removePair l k fid = some l') (hnd : (viewIds l).Nodup) :
    fid ∉ viewIds l' := by
  rcases removePair_some h with ⟨l1, l2, rfl, rfl⟩
  unfold viewIds at hnd ⊢
  simp only [List.map_append, List.map_cons] at hnd
  rcases List.nodup_append.mp hnd with ⟨h1, h2, h3⟩
  intro hm
  rw [List.map_append, List.mem_append] at hm
  rcases hm with hm | hm
  · exact h3 hm (by simp)
  · exact (List.nodup_cons.mp h2).1 hm

theorem removePair_mem_ids_ne {l : ViewIndex} {k : SVal} {fid : Nat} {l' : ViewIndex}
    (h : removePair l k fid = some l') {fid' : Nat} (hne : fid' ≠ fid) :
    (fid' ∈ viewIds l' ↔ fid' ∈ viewIds l) := by
  rcases removePair_some h with ⟨l1, l2, rfl, rfl⟩
  unfold viewIds
  simp only [List.map_append, List.map_cons, List.mem_append, List.mem_cons]
  constructor
  · rintro (hm | hm)
    · exact Or.inl hm
    · exact Or.inr (Or.inr hm)
  · rintro (hm | hm | hm)
    · exact Or.inl hm
    · exact absurd hm hne
    · exact Or.inr hm

theorem removePair_nodup {l : ViewIndex} {k : SVal} {fid : Nat} {l' : ViewIndex}
    (h : removePair l k fid = some l') (hnd : (viewIds l).Nodup) :
    (viewIds l').Nodup := by
  rcases removePair_some h with ⟨l1, l2, rfl, rfl⟩
  unfold viewIds at hnd ⊢
  simp only [List.map_append, List.map_cons] at hnd
  rcases List.nodup_append.mp hnd with ⟨h1, h2, h3⟩
  rw [List.map_append, List.nodup_append]
  exact ⟨h1, (List.nodup_cons.mp h2).2,
    fun _ ha hb => h3 ha (List.mem_cons_of_mem _ hb)⟩

theorem removePair_sorted {l : ViewIndex} {k : SVal} {fid : Nat} {l' : ViewIndex}
    (h : removePair l k fid = some l') (hs : sortedByKeys l) : sortedByKeys l' := by
  rcases removePair_some h with ⟨l1, l2, rfl, rfl⟩
  unfold sortedByKeys at hs ⊢
  exact hs.sublist (by simpa using (List.sublist_cons_self (k, fid) l2).append_left l1)

/-! ### `ViewInv` for `_base_add` -/

theorem ViewInv_base_add {st : ViewState} {f : HTTPFlow} (hinv : ViewInv st)
    (hs : storeMem st.store f.id = true) (hnotin : f.id ∉ viewIds st.viewList) :
    ViewInv (View_base_add st f) := by
  obtain ⟨i1, i2, i3, i4, i5⟩ := hinv
  refine ⟨?_, ?_, ?_, ?_, ?_⟩
  · rw [base_add_store]
    exact i1
  · rw [base_add_viewList hs]
    exact ((viewIds_sortedInsert_perm _ _ _).nodup_iff).mpr
      (List.nodup_cons.mpr ⟨hnotin, i2⟩)
  · intro fid hm
    rw [base_add_viewList hs] at hm
    rw [base_add_store]
    rcases List.mem_cons.mp ((viewIds_sortedInsert_perm _ _ _).mem_iff.mp hm)
        with rfl | hm
    · exact hs
    · exact i3 fid hm
  · intro p hp
    rw [base_add_viewList hs] at hp
    rcases mem_sortedInsert.mp hp with rfl | hp
    · exact base_add_cachedOrder_self hs
    · have hne : p.2 ≠ f.id := by
        intro hc
        exact hnotin (hc ▸ List.mem_map_of_mem _ hp)
      rw [base_add_cachedOrder_ne hne]
      exact i4 p hp
  · rw [base_add_viewList hs]
    exact sortedInsert_sorted i5 _ _

/-! ### `View.add` lemmas -/

theorem addOne_of_mem {st : ViewState} {f : HTTPFlow}
    (hs : storeMem st.store f.id = true) : View_addOne st f = (st, []) := by
  unfold View_addOne
  rw [if_pos hs]

theorem addOne_shape {st : ViewState} {f : HTTPFlow}
    (hs : ¬ storeMem st.store f.id = true) (hfl : st.filt f = true) :
    View_addOne st f = (Focus_sigViewAdd
      (if (View_base_add { st with store := st.store ++ [f] } f).focus_follow = true
       then Focus_setFlow (View_base_add { st with store := st.store ++ [f] } f) (some f)
       else View_base_add { st with store := st.store ++ [f] } f) f,
      [Signal.viewAdd f.id]) := by
  unfold View_addOne
  rw [if_neg hs]
  rw [if_pos (show ({ st with store := st.store ++ [f] } : ViewState).filt f = true
    from hfl)]
  rfl

theorem addOne_shape_nofilt {st : ViewState} {f : HTTPFlow}
    (hs : ¬ storeMem st.store f.id = true) (hfl : st.filt f = false) :
    View_addOne st f = ({ st with store := st.store ++ [f] }, []) := by
  unfold View_addOne
  rw [if_neg hs]
  rw [if_neg (show ¬ ({ st with store := st.store ++ [f] } : ViewState).filt f = true
    from by rw [show ({ st with store := st.store ++ [f] } : ViewState).filt = st.filt
      from rfl, hfl]; simp)]

theorem FocusInv_base_add {st : ViewState} {f : HTTPFlow}
    (hs : storeMem st.store f.id = true) (hfoc : FocusInv st) :
    FocusInv (View_base_add st f) := by
  unfold FocusInv at hfoc ⊢
  rw [base_add_focusFlow]
  cases hff : st.focusFlow with
  | none => trivial
  | some g =>
    rw [base_add_viewList hs]
    show g.id ∈ viewIds (sortedInsert st.viewList (keyOf st f).1 f.id)
    rw [(viewIds_sortedInsert_perm _ _ _).mem_iff]
    refine List.mem_cons_of_mem _ ?_
    rw [hff] at hfoc
    exact hfoc

theorem addOne_inv {st : ViewState} (f : HTTPFlow) (hinv : ViewInv st)
    (hfoc : FocusInv st) (hwf : SettingsWF st) :
    ViewInv (View_addOne st f).1 ∧ FocusInv (View_addOne st f).1 ∧
      SettingsWF (View_addOne st f).1 := by
  by_cases hs : storeMem st.store f.id = true
  · rw [addOne_of_mem hs]
    exact ⟨hinv, hfoc, hwf⟩
  · have hs' : storeMem st.store f.id = false := by simpa using hs
    have hnotid : f.id ∉ st.store.map HTTPFlow.id := by
      intro hm
      rw [storeMem_iff.mpr hm] at hs'
      simp at hs'
    have hinv1 : ViewInv ({ st with store := st.store ++ [f] }) := by
      obtain ⟨i1, i2, i3, i4, i5⟩ := hinv
      refine ⟨?_, i2, ?_, i4, i5⟩
      · simpa [List.nodup_append] using ⟨i1, by simpa using hnotid⟩
      · intro fid hm
        rw [storeMem_append, i3 fid hm]
        simp
    have hfoc1 : FocusInv ({ st with store := st.store ++ [f] }) := hfoc
    have hwf1 : SettingsWF ({ st with store := st.store ++ [f] }) := by
      refine ⟨hwf.1, fun fid h => ?_⟩
      show storeMem (st.store ++ [f]) fid = true
      rw [storeMem_append, hwf.2 fid h]
      simp
    by_cases hfl : st.filt f = true
    · rw [addOne_shape hs hfl]
      have hsmem1 : storeMem ({ st with store := st.store ++ [f] } : ViewState).store
          f.id = true := by
        show storeMem (st.store ++ [f]) f.id = true
        rw [storeMem_append]
        simp
      have hnotin : f.id ∉ viewIds ({ st with store := st.store ++ [f] }
          : ViewState).viewList := by
        intro hm
        exact hnotid (storeMem_iff.mp (hinv.2.2.1 f.id hm))
      have hinv2 := ViewInv_base_add hinv1 hsmem1 hnotin
      have hfoc2 : FocusInv (View_base_add { st with store := st.store ++ [f] } f) :=
        FocusInv_base_add hsmem1 hfoc1
      have hwf2 : SettingsWF (View_base_add { st with store := st.store ++ [f] } f) := by
        refine ⟨base_add_settings_nodup f hwf1.1, fun fid h => ?_⟩
        rw [base_add_store]
        rcases base_add_lookupF_isSome h with h | ⟨rfl, hm⟩
        · exact hwf1.2 fid h
        · exact hm
      set stB := View_base_add { st with store := st.store ++ [f] } f with hstB
      have hstep3 : ∀ s3 : ViewState, ViewInv s3 → FocusInv s3 → SettingsWF s3 →
          ViewInv (Focus_sigViewAdd s3 f) ∧ FocusInv (Focus_sigViewAdd s3 f) ∧
            SettingsWF (Focus_sigViewAdd s3 f) := by
        intro s3 h1 h2 h3
        exact ⟨ViewInv_of_FrameOk (FrameOk_sigViewAdd s3 f) h1,
          FocusInv_sigViewAdd f h2,
          SettingsWF_of_FrameOk (FrameOk_sigViewAdd s3 f) h3⟩
      by_cases hff : stB.focus_follow = true
      · rw [if_pos hff]
        exact hstep3 _ (ViewInv_of_FrameOk (FrameOk_setFlow stB (some f)) hinv2)
          (FocusInv_setFlow_some f hfoc2)
          (SettingsWF_of_FrameOk (FrameOk_setFlow stB (some f)) hwf2)
      · rw [if_neg hff]
        exact hstep3 _ hinv2 hfoc2 hwf2
    · rw [addOne_shape_nofilt hs (by simpa using hfl)]
      exact ⟨hinv1, hfoc1, hwf1⟩

theorem follow_store (f : HTTPFlow) (s : ViewState) :
    (if s.focus_follow = true then Focus_setFlow s (some f) else s).store = s.store := by
  split
  · exact (FrameOk_setFlow s (some f)).1
  · rfl

theorem follow_viewList (f : HTTPFlow) (s : ViewState) :
    (if s.focus_follow = true then Focus_setFlow s (some f) else s).viewList
      = s.viewList := by
  split
  · exact (FrameOk_setFlow s (some f)).2.1
  · rfl

theorem addOne_store_char (st : ViewState) (f : HTTPFlow) :
    (View_addOne st f).1.store =
      if storeMem st.store f.id = true then st.store else st.store ++ [f] := by
  by_cases hs : storeMem st.store f.id = true
  · rw [addOne_of_mem hs, if_pos hs]
  · rw [if_neg hs]
    by_cases hfl : st.filt f = true
    · rw [addOne_shape hs hfl]
      show (Focus_sigViewAdd _ f).store = _
      rw [(FrameOk_sigViewAdd _ f).1, follow_store, base_add_store]
    · rw [addOne_shape_nofilt hs (by simpa using hfl)]

theorem addOne_storeMem_self (st : ViewState) (f : HTTPFlow) :
    storeMem (View_addOne st f).1.store f.id = true := by
  rw [addOne_store_char]
  by_cases hs : storeMem st.store f.id = true
  · rw [if_pos hs]
    exact hs
  · rw [if_neg hs, storeMem_append]
    simp

theorem addOne_mem_ids (st : ViewState) (f : HTTPFlow) (fid : Nat) :
    fid ∈ viewIds (View_addOne st f).1.viewList ↔
      (fid ∈ viewIds st.viewList ∨
        (storeMem st.store f.id = false ∧ st.filt f = true ∧ fid = f.id)) := by
  by_cases hs : storeMem st.store f.id = true
  · rw [addOne_of_mem hs]
    show fid ∈ viewIds st.viewList ↔ _
    simp [hs]
  · have hs' : storeMem st.store f.id = false := by simpa using hs
    by_cases hfl : st.filt f = true
    · rw [addOne_shape hs hfl]
      show fid ∈ viewIds (Focus_sigViewAdd _ f).viewList ↔ _
      rw [(FrameOk_sigViewAdd _ f).2.1, follow_viewList,
        base_add_viewList (by rw [storeMem_append, hs']; simp),
        (viewIds_sortedInsert_perm _ _ _).mem_iff]
      show fid ∈ f.id :: viewIds st.viewList ↔ _
      rw [List.mem_cons]
      constructor
      · rintro (rfl | h)
        · exact Or.inr ⟨hs', hfl, rfl⟩
        · exact Or.inl h
      · rintro (h | ⟨_, _, rfl⟩)
        · exact Or.inr h
        · exact Or.inl rfl
    · have hfl' : st.filt f = false := by simpa using hfl
      rw [addOne_shape_nofilt hs hfl']
      show fid ∈ viewIds st.viewList ↔ _
      simp [hfl']

theorem addOne_idem (st : ViewState) (f : HTTPFlow) :
    View_addOne (View_addOne st f).1 f = ((View_addOne st f).1, []) :=
  addOne_of_mem (addOne_storeMem_self st f)

theorem batch_fold_inv {one : ViewState → HTTPFlow → ViewState × List Signal}
    (hone : ∀ st f, ViewInv st → FocusInv st → SettingsWF st →
      ViewInv (one st f).1 ∧ FocusInv (one st f).1 ∧ SettingsWF (one st f).1)
    (l : List HTTPFlow) :
    ∀ acc : ViewState × List Signal,
      ViewInv acc.1 → FocusInv acc.1 → SettingsWF acc.1 →
      ViewInv (l.foldl (batchStep one) acc).1 ∧
      FocusInv (l.foldl (batchStep one) acc).1 ∧
      SettingsWF (l.foldl (batchStep one) acc).1 := by
  induction l with
  | nil => intro acc h1 h2 h3; exact ⟨h1, h2, h3⟩
  | cons f rest ih =>
    intro acc h1 h2 h3
    simp only [List.foldl_cons]
    have hstep := hone acc.1 f h1 h2 h3
    exact ih (batchStep one acc f) hstep.1 hstep.2.1 hstep.2.2

/-! ### `View.update` lemmas -/

theorem updSync_viewList (st : ViewState) (f : HTTPFlow) :
    (updSync st f).viewList = st.viewList := rfl

theorem updSync_filt (st : ViewState) (f : HTTPFlow) :
    (updSync st f).filt = st.filt := rfl

theorem updSync_cachedOrder (st : ViewState) (f : HTTPFlow) (fid : Nat) :
    cachedOrder (updSync st f) fid = cachedOrder st fid := rfl

theorem updSync_storeMem (st : ViewState) (f : HTTPFlow) (fid : Nat) :
    storeMem (updSync st f).store fid = storeMem st.store fid :=
  storeMem_replace st.store f fid

theorem ViewInv_updSync {st : ViewState} (f : HTTPFlow) (hinv : ViewInv st) :
    ViewInv (updSync st f) := by
  obtain ⟨i1, i2, i3, i4, i5⟩ := hinv
  refine ⟨?_, i2, ?_, i4, i5⟩
  · show ((st.store.map (fun g => if g.id = f.id then f else g)).map
      HTTPFlow.id).Nodup
    rw [replace_map_id]
    exact i1
  · intro fid hm
    rw [updSync_storeMem]
    exact i3 fid hm

theorem FocusInv_updSync {st : ViewState} (f : HTTPFlow) (hfoc : FocusInv st) :
    FocusInv (updSync st f) := by
  unfold FocusInv at hfoc ⊢
  show (match st.focusFlow.map (fun g => if g.id = f.id then f else g) with
    | none => True
    | some g => g.id ∈ viewIds st.viewList : Prop)
  cases hff : st.focusFlow with
  | none => trivial
  | some g =>
    rw [hff] at hfoc
    show (if g.id = f.id then f else g).id ∈ viewIds st.viewList
    by_cases hg : g.id = f.id
    · rw [if_pos hg]
      rw [← hg]
      exact hfoc
    · rw [if_neg hg]
      exact hfoc

theorem SettingsWF_updSync {st : ViewState} (f : HTTPFlow) (hwf : SettingsWF st) :
    SettingsWF (updSync st f) := by
  refine ⟨hwf.1, fun fid h => ?_⟩
  rw [updSync_storeMem]
  exact hwf.2 fid h

theorem viewRemoveTry_of_cached {st : ViewState} {f : HTTPFlow} {k : SVal}
    (hs : storeMem st.store f.id = true) (hc : cachedOrder st f.id = some k) :
    viewRemoveTry st f =
      ({ st with viewList := (removePair st.viewList k f.id).getD st.viewList },
       (removePair st.viewList k f.id).isSome) := by
  unfold viewRemoveTry
  simp only [keyOf_of_cached hs hc]

theorem ViewInv_removePair {st : ViewState} {k : SVal} {fid : Nat} {l' : ViewIndex}
    (hinv : ViewInv st) (hr : removePair st.viewList k fid = some l') :
    ViewInv { st with viewList := l' } := by
  obtain ⟨i1, i2, i3, i4, i5⟩ := hinv
  refine ⟨i1, removePair_nodup hr i2, ?_, ?_, removePair_sorted hr i5⟩
  · intro fid' hm
    rcases List.mem_map.mp hm with ⟨p, hp, hpid⟩
    exact i3 fid' (hpid ▸ List.mem_map_of_mem _ (removePair_subset hr p hp))
  · intro p hp
    exact i4 p (removePair_subset hr p hp)

theorem ViewInv_viewAddElem_cached {st : ViewState} {f : HTTPFlow} {v : SVal}
    (hinv : ViewInv st) (hs : storeMem st.store f.id = true)
    (hc : cachedOrder st f.id = some v) (hnotin : f.id ∉ viewIds st.viewList) :
    ViewInv (viewAddElem st f) := by
  obtain ⟨i1, i2, i3, i4, i5⟩ := hinv
  have hk : keyOf st f = (v, st) := keyOf_of_cached hs hc
  have hvl : (viewAddElem st f).viewList = sortedInsert st.viewList v f.id := by
    rw [viewAddElem_viewList, hk]
  refine ⟨?_, ?_, ?_, ?_, ?_⟩
  · rw [viewAddElem_store]
    exact i1
  · rw [hvl]
    exact ((viewIds_sortedInsert_perm _ _ _).nodup_iff).mpr
      (List.nodup_cons.mpr ⟨hnotin, i2⟩)
  · intro fid hm
    rw [hvl] at hm
    rw [viewAddElem_store]
    rcases List.mem_cons.mp ((viewIds_sortedInsert_perm _ _ _).mem_iff.mp hm)
        with rfl | hm
    · exact hs
    · exact i3 fid hm
  · intro p hp
    rw [hvl] at hp
    rcases mem_sortedInsert.mp hp with rfl | hp
    · show cachedOrder (viewAddElem st f) f.id = some v
      rw [cachedOrder_viewAddElem, hk]
      exact hc
    · rw [cachedOrder_viewAddElem, hk]
      exact i4 p hp
  · rw [hvl]
    exact sortedInsert_sorted i5 _ _

theorem settingsEntry_of_cached {sm : SettingsMap} {fid : Nat} {d : PerFlow}
    (h : lookupF sm fid = some d) : settingsEntry sm fid = (d, sm) := by
  unfold settingsEntry
  rw [h]

theorem orderKeyRefresh_noop {st : ViewState} {f : HTTPFlow} {d : PerFlow} {k : SVal}
    (hs : storeMem st.store f.id = true)
    (hd : lookupF st.settings f.id = some d)
    (hk : lookupS d (orderKeyName st.order_key) = some k)
    (heq : k = generateOf st.order_key f) :
    orderKeyRefresh st f = (st, []) := by
  unfold orderKeyRefresh
  rw [if_pos hs]
  simp only [settingsEntry_of_cached hd, hk]
  rw [if_neg (by simp [heq])]

theorem orderKeyRefresh_shape {st : ViewState} {f : HTTPFlow} {d : PerFlow} {k : SVal}
    (hs : storeMem st.store f.id = true)
    (hd : lookupF st.settings f.id = some d)
    (hk : lookupS d (orderKeyName st.order_key) = some k)
    (hne : k ≠ generateOf st.order_key f)
    (hfd : (viewRemoveTry st f).2 = true) :
    orderKeyRefresh st f = sendViewRefresh (viewAddElem
      (settingsSetItem (viewRemoveTry st f).1 f (orderKeyName st.order_key)
        (generateOf st.order_key f)) f) := by
  unfold orderKeyRefresh
  rw [if_pos hs]
  simp only [settingsEntry_of_cached hd, hk]
  rw [if_pos hne]
  split
  · rfl
  · rename_i hnf
    exact absurd hfd hnf

theorem orderKeyRefresh_notfound {st : ViewState} {f : HTTPFlow} {d : PerFlow}
    {k : SVal} (hs : storeMem st.store f.id = true)
    (hd : lookupF st.settings f.id = some d)
    (hk : lookupS d (orderKeyName st.order_key) = some k)
    (hne : k ≠ generateOf st.order_key f)
    (hfd : (viewRemoveTry st f).2 = false) :
    orderKeyRefresh st f = ((viewRemoveTry st f).1, []) := by
  unfold orderKeyRefresh
  rw [if_pos hs]
  simp only [settingsEntry_of_cached hd, hk]
  rw [if_pos hne]
  split
  · rename_i hc
    have hc' : (viewRemoveTry st f).2 = true := hc
    rw [hfd] at hc'
    exact Bool.noConfusion hc'
  · rfl

theorem ViewInv_settingsSetItem_order {st : ViewState} {f : HTTPFlow} {v : SVal}
    (hinv : ViewInv st) (hnotin : f.id ∉ viewIds st.viewList) :
    ViewInv (settingsSetItem st f (orderKeyName st.order_key) v) := by
  obtain ⟨i1, i2, i3, i4, i5⟩ := hinv
  refine ⟨?_, ?_, ?_, ?_, ?_⟩
  · rw [settingsSetItem_store]
    exact i1
  · rw [settingsSetItem_viewList]
    exact i2
  · intro fid hm
    rw [settingsSetItem_viewList] at hm
    rw [settingsSetItem_store]
    exact i3 fid hm
  · intro p hp
    rw [settingsSetItem_viewList] at hp
    have hne : p.2 ≠ f.id := by
      intro hcn
      exact hnotin (hcn ▸ List.mem_map_of_mem _ hp)
    rw [settingsSetItem_cachedOrder_ne _ _ hne]
    exact i4 p hp
  · rw [settingsSetItem_viewList]
    exact i5

theorem SettingsWF_settingsSetItem {st : ViewState} {f : HTTPFlow} {k : String}
    {v : SVal} (hwf : SettingsWF st) :
    SettingsWF (settingsSetItem st f k v) := by
  refine ⟨settingsSetItem_settings_nodup f k v hwf.1, fun fid h => ?_⟩
  rw [settingsSetItem_store]
  rcases settingsSetItem_lookupF_isSome h with h | ⟨rfl, hm⟩
  · exact hwf.2 fid h
  · exact hm

theorem SettingsWF_keyOf {st : ViewState} (f : HTTPFlow) (hwf : SettingsWF st) :
    SettingsWF (keyOf st f).2 :=
  SettingsWF_of_FrameOk (FrameOk_keyOf st f) hwf

theorem viewAddElem_settings (st : ViewState) (f : HTTPFlow) :
    (viewAddElem st f).settings = (keyOf st f).2.settings := rfl

theorem SettingsWF_viewAddElem {st : ViewState} (f : HTTPFlow) (hwf : SettingsWF st) :
    SettingsWF (viewAddElem st f) := by
  refine ⟨?_, fun fid h => ?_⟩
  · rw [viewAddElem_settings]
    exact (SettingsWF_keyOf f hwf).1
  · rw [viewAddElem_store]
    rw [viewAddElem_settings] at h
    exact (SettingsWF_keyOf f hwf).2 fid h

theorem orderKeyRefresh_inv {st : ViewState} {f : HTTPFlow}
    (hinv : ViewInv st) (hfoc : FocusInv st) (hwf : SettingsWF st)
    (hs : storeMem st.store f.id = true) (hmem : f.id ∈ viewIds st.viewList) :
    ViewInv (orderKeyRefresh st f).1 ∧ FocusInv (orderKeyRefresh st f).1 ∧
      SettingsWF (orderKeyRefresh st f).1 := by
  rcases List.mem_map.mp hmem with ⟨p, hp, hpid⟩
  have hc : cachedOrder st f.id = some p.1 := by
    rw [← hpid]
    exact hinv.2.2.2.1 p hp
  cases hd : lookupF st.settings f.id with
  | none =>
    unfold cachedOrder at hc
    rw [hd] at hc
    simp at hc
  | some d =>
    have hk : lookupS d (orderKeyName st.order_key) = some p.1 := by
      unfold cachedOrder at hc
      rw [hd] at hc
      simpa using hc
    by_cases hne : p.1 = generateOf st.order_key f
    · rw [orderKeyRefresh_noop hs hd hk hne]
      exact ⟨hinv, hfoc, hwf⟩
    · have hpair : (p.1, f.id) ∈ st.viewList := by
        have hpp : p = (p.1, f.id) := Prod.ext rfl hpid
        rw [← hpp]
        exact hp
      have hfd : (viewRemoveTry st f).2 = true := by
        rw [viewRemoveTry_of_cached hs hc]
        exact removePair_isSome_of_mem hpair
      rw [orderKeyRefresh_shape hs hd hk hne hfd]
      cases hr : removePair st.viewList p.1 f.id with
      | none => exact absurd hpair (removePair_none hr)
      | some l' =>
        have hA : (viewRemoveTry st f).1 = { st with viewList := l' } := by
          rw [viewRemoveTry_of_cached hs hc]
          simp [hr]
        rw [hA]
        have hinvA : ViewInv ({ st with viewList := l' }) := ViewInv_removePair hinv hr
        have hnotinA : f.id ∉ viewIds ({ st with viewList := l' }
            : ViewState).viewList := removePair_not_mem_ids hr hinv.2.1
        have hinvB := ViewInv_settingsSetItem_order
          (v := generateOf st.order_key f) hinvA hnotinA
        have hsB : storeMem (settingsSetItem { st with viewList := l' } f
            (orderKeyName ({ st with viewList := l' } : ViewState).order_key)
            (generateOf st.order_key f)).store f.id = true := hs
        have hcB : cachedOrder (settingsSetItem { st with viewList := l' } f
            (orderKeyName ({ st with viewList := l' } : ViewState).order_key)
            (generateOf st.order_key f)) f.id
            = some (generateOf st.order_key f) :=
          @settingsSetItem_cachedOrder_self { st with viewList := l' } f
            (generateOf st.order_key f) hs
        have hinvC := ViewInv_viewAddElem_cached hinvB hsB hcB
          (by rw [settingsSetItem_viewList]; exact hnotinA)
        have hwfC : SettingsWF (viewAddElem (settingsSetItem
            { st with viewList := l' } f (orderKeyName st.order_key)
            (generateOf st.order_key f)) f) :=
          SettingsWF_viewAddElem f (SettingsWF_settingsSetItem hwf)
        refine ⟨ViewInv_of_FrameOk (FrameOk_sigViewRefresh _) hinvC,
          FocusInv_sigViewRefresh hinvC.2.2.1 hinvC.2.2.2.1,
          SettingsWF_of_FrameOk (FrameOk_sigViewRefresh _) hwfC⟩

theorem viewRemoveTry_cachedOrder (st : ViewState) (f : HTTPFlow) (fid : Nat) :
    cachedOrder (viewRemoveTry st f).1 fid = cachedOrder (keyOf st f).2 fid := rfl

theorem ViewInv_viewRemoveTry {st : ViewState} (f : HTTPFlow) (hinv : ViewInv st) :
    ViewInv (viewRemoveTry st f).1 := by
  obtain ⟨i1, i2, i3, i4, i5⟩ := hinv
  cases hr : removePair st.viewList (keyOf st f).1 f.id with
  | none =>
    have hvl : (viewRemoveTry st f).1.viewList = st.viewList := by
      rw [viewRemoveTry_viewList, hr]
      rfl
    refine ⟨by rw [viewRemoveTry_store]; exact i1, by rw [hvl]; exact i2, ?_, ?_,
      by rw [hvl]; exact i5⟩
    · intro fid hm
      rw [hvl] at hm
      rw [viewRemoveTry_store]
      exact i3 fid hm
    · intro p hp
      rw [hvl] at hp
      rw [viewRemoveTry_cachedOrder]
      exact cachedOrder_keyOf_preserved f (i4 p hp)
  | some l' =>
    have hvl : (viewRemoveTry st f).1.viewList = l' := by
      rw [viewRemoveTry_viewList, hr]
      rfl
    refine ⟨by rw [viewRemoveTry_store]; exact i1,
      by rw [hvl]; exact removePair_nodup hr i2, ?_, ?_,
      by rw [hvl]; exact removePair_sorted hr i5⟩
    · intro fid hm
      rw [hvl] at hm
      rw [viewRemoveTry_store]
      rcases List.mem_map.mp hm with ⟨p, hp, hpid⟩
      exact i3 fid (hpid ▸ List.mem_map_of_mem _ (removePair_subset hr p hp))
    · intro p hp
      rw [hvl] at hp
      rw [viewRemoveTry_cachedOrder]
      exact cachedOrder_keyOf_preserved f (i4 p (removePair_subset hr p hp))

theorem SettingsWF_base_add {st : ViewState} (f : HTTPFlow) (hwf : SettingsWF st) :
    SettingsWF (View_base_add st f) := by
  refine ⟨base_add_settings_nodup f hwf.1, fun fid h => ?_⟩
  rw [base_add_store]
  rcases base_add_lookupF_isSome h with h | ⟨rfl, hm⟩
  · exact hwf.2 fid h
  · exact hm

theorem followThenAdd_inv (s2 : ViewState) (f : HTTPFlow) (h1 : ViewInv s2)
    (h2 : FocusInv s2) (h3 : SettingsWF s2) :
    ViewInv (Focus_sigViewAdd
        (if s2.focus_follow = true then Focus_setFlow s2 (some f) else s2) f) ∧
    FocusInv (Focus_sigViewAdd
        (if s2.focus_follow = true then Focus_setFlow s2 (some f) else s2) f) ∧
    SettingsWF (Focus_sigViewAdd
        (if s2.focus_follow = true then Focus_setFlow s2 (some f) else s2) f) := by
  have hmid : ViewInv (if s2.focus_follow = true then Focus_setFlow s2 (some f)
        else s2) ∧
      FocusInv (if s2.focus_follow = true then Focus_setFlow s2 (some f) else s2) ∧
      SettingsWF (if s2.focus_follow = true then Focus_setFlow s2 (some f)
        else s2) := by
    split
    · exact ⟨ViewInv_of_FrameOk (FrameOk_setFlow s2 (some f)) h1,
        FocusInv_setFlow_some f h2,
        SettingsWF_of_FrameOk (FrameOk_setFlow s2 (some f)) h3⟩
    · exact ⟨h1, h2, h3⟩
  exact ⟨ViewInv_of_FrameOk (FrameOk_sigViewAdd _ f) hmid.1,
    FocusInv_sigViewAdd f hmid.2.1,
    SettingsWF_of_FrameOk (FrameOk_sigViewAdd _ f) hmid.2.2⟩

theorem updateOne_not_mem {st : ViewState} {f : HTTPFlow}
    (hs : ¬ storeMem st.store f.id = true) : View_updateOne st f = (st, []) := by
  unfold View_updateOne
  rw [if_neg hs]

theorem updateOne_shape_refresh {st : ViewState} {f : HTTPFlow}
    (hs : storeMem st.store f.id = true) (hfl : st.filt f = true)
    (hcont : (viewContainsF (updSync st f) f).1 = true) :
    View_updateOne st f =
      ((orderKeyRefresh (viewContainsF (updSync st f) f).2 f).1,
       (orderKeyRefresh (viewContainsF (updSync st f) f).2 f).2 ++
         [Signal.viewUpdate f.id]) := by
  simp only [View_updateOne]
  rw [if_pos hs, if_pos (show (updSync st f).filt f = true from hfl),
    if_neg (show ¬ (viewContainsF (updSync st f) f).1 = false by rw [hcont]; simp)]

theorem updateOne_shape_add {st : ViewState} {f : HTTPFlow}
    (hs : storeMem st.store f.id = true) (hfl : st.filt f = true)
    (hcont : (viewContainsF (updSync st f) f).1 = false) :
    View_updateOne st f =
      sendViewAdd
        (if (View_base_add (viewContainsF (updSync st f) f).2 f).focus_follow = true
         then Focus_setFlow (View_base_add (viewContainsF (updSync st f) f).2 f)
           (some f)
         else View_base_add (viewContainsF (updSync st f) f).2 f) f := by
  simp only [View_updateOne]
  rw [if_pos hs, if_pos (show (updSync st f).filt f = true from hfl), if_pos hcont]

theorem updateOne_shape_remove {st : ViewState} {f : HTTPFlow}
    (hs : storeMem st.store f.id = true) (hfl : st.filt f = false) :
    View_updateOne st f =
      (if (viewRemoveTry (updSync st f) f).2 = true
       then sendViewRemove (viewRemoveTry (updSync st f) f).1 f
       else ((viewRemoveTry (updSync st f) f).1, [])) := by
  simp only [View_updateOne]
  rw [if_pos hs, if_neg (show ¬ (updSync st f).filt f = true by
    rw [show (updSync st f).filt f = st.filt f from rfl, hfl]; simp)]

theorem updateOne_inv {st : ViewState} (f : HTTPFlow) (hinv : ViewInv st)
    (hfoc : FocusInv st) (hwf : SettingsWF st) :
    ViewInv (View_updateOne st f).1 ∧ FocusInv (View_updateOne st f).1 ∧
      SettingsWF (View_updateOne st f).1 := by
  by_cases hs : storeMem st.store f.id = true
  · have hinv0 := ViewInv_updSync f hinv
    have hfoc0 := FocusInv_updSync f hfoc
    have hwf0 := SettingsWF_updSync f hwf
    have hs0 : storeMem (updSync st f).store f.id = true := by
      rw [updSync_storeMem]
      exact hs
    by_cases hfl : st.filt f = true
    · by_cases hcont : (viewContainsF (updSync st f) f).1 = true
      · rw [updateOne_shape_refresh hs hfl hcont]
        have hK : ViewInv (viewContainsF (updSync st f) f).2 :=
          ViewInv_of_FrameOk (FrameOk_keyOf _ f) hinv0
        have hKf : FocusInv (viewContainsF (updSync st f) f).2 := hfoc0
        have hKw : SettingsWF (viewContainsF (updSync st f) f).2 :=
          SettingsWF_of_FrameOk (FrameOk_keyOf _ f) hwf0
        have hmemv : f.id ∈ viewIds (viewContainsF (updSync st f) f).2.viewList :=
          @viewContainsF_mem_of_true (updSync st f) f hcont
        exact orderKeyRefresh_inv hK hKf hKw hs0 hmemv
      · have hcont' : (viewContainsF (updSync st f) f).1 = false := by
          simpa using hcont
        rw [updateOne_shape_add hs hfl hcont']
        have hkeys0 : ∀ p ∈ (updSync st f).viewList,
            cachedOrder (updSync st f) p.2 = some p.1 := hinv0.2.2.2.1
        have hnotin : f.id ∉ viewIds (viewContainsF (updSync st f) f).2.viewList :=
          @viewContainsF_false_not_mem (updSync st f) f hs0 hkeys0 hcont'
        have hK : ViewInv (viewContainsF (updSync st f) f).2 :=
          ViewInv_of_FrameOk (FrameOk_keyOf _ f) hinv0
        have hKf : FocusInv (viewContainsF (updSync st f) f).2 := hfoc0
        have hKw : SettingsWF (viewContainsF (updSync st f) f).2 :=
          SettingsWF_of_FrameOk (FrameOk_keyOf _ f) hwf0
        exact followThenAdd_inv _ f (ViewInv_base_add hK hs0 hnotin)
          (FocusInv_base_add hs0 hKf) (SettingsWF_base_add f hKw)
    · have hfl' : st.filt f = false := by simpa using hfl
      rw [updateOne_shape_remove hs hfl']
      have hA : ViewInv (viewRemoveTry (updSync st f) f).1 :=
        ViewInv_viewRemoveTry f hinv0
      have hAw : SettingsWF (viewRemoveTry (updSync st f) f).1 := by
        refine ⟨?_, fun fid h => ?_⟩
        · show (((keyOf (updSync st f) f).2.settings).map Prod.fst).Nodup
          exact (SettingsWF_of_FrameOk (FrameOk_keyOf _ f) hwf0).1
        · rw [viewRemoveTry_store]
          exact (SettingsWF_of_FrameOk (FrameOk_keyOf _ f) hwf0).2 fid h
      split
      · rename_i hfound
        refine ⟨ViewInv_of_FrameOk (FrameOk_sigViewRemove _ f) hA, ?_,
          SettingsWF_of_FrameOk (FrameOk_sigViewRemove _ f) hAw⟩
        refine FocusInv_sigViewRemove hA.2.2.1 hA.2.2.2.1 ?_
        intro g hg hgne
        rw [viewRemoveTry_focusFlow] at hg
        have hgm : g.id ∈ viewIds (updSync st f).viewList := by
          have := hfoc0
          unfold FocusInv at this
          rw [hg] at this
          exact this
        rw [viewRemoveTry_viewList]
        cases hr : removePair (updSync st f).viewList (keyOf (updSync st f) f).1
            f.id with
        | none => simpa [hr] using hgm
        | some l' =>
          simp only [hr, Option.getD_some]
          exact (removePair_mem_ids_ne hr hgne).mpr hgm
      · rename_i hnotfound
        refine ⟨hA, ?_, hAw⟩
        have hnone : removePair (updSync st f).viewList
            (keyOf (updSync st f) f).1 f.id = none := by
          cases hr : removePair (updSync st f).viewList (keyOf (updSync st f) f).1
              f.id with
          | none => rfl
          | some l2 =>
            refine absurd ?_ hnotfound
            show (removePair (updSync st f).viewList (keyOf (updSync st f) f).1
              f.id).isSome = true
            rw [hr]
            rfl
        have hvl : (viewRemoveTry (updSync st f) f).1.viewList
            = (updSync st f).viewList := by
          rw [viewRemoveTry_viewList, hnone]
          rfl
        unfold FocusInv
        rw [viewRemoveTry_focusFlow, hvl]
        have := hfoc0
        unfold FocusInv at this
        exact this
  · rw [updateOne_not_mem hs]
    exact ⟨hinv, hfoc, hwf⟩

/-! ### `View.remove` lemmas -/

theorem storeMem_filter_ne {store : List HTTPFlow} {fid fid' : Nat}
    (h : storeMem store fid = true) (hne : fid ≠ fid') :
    storeMem (store.filter (fun g => g.id ≠ fid')) fid = true := by
  rw [storeMem_iff] at h ⊢
  rcases List.mem_map.mp h with ⟨g, hg, hgid⟩
  refine List.mem_map.mpr ⟨g, List.mem_filter.mpr ⟨hg, ?_⟩, hgid⟩
  simp [hgid, hne]

theorem filter_store_nodup {store : List HTTPFlow} {fid : Nat}
    (h : (store.map HTTPFlow.id).Nodup) :
    ((store.filter (fun g => g.id ≠ fid)).map HTTPFlow.id).Nodup :=
  h.sublist ((List.filter_sublist store).map HTTPFlow.id)

theorem sigStoreRemove_settings (s : ViewState) (f : HTTPFlow) :
    (Settings_sigStoreRemove s f).settings =
      (if (lookupF s.settings f.id).isSome = true then delF s.settings f.id
       else s.settings) := rfl

theorem cachedOrder_sigStoreRemove_ne {s : ViewState} {f : HTTPFlow} {fid : Nat}
    (hne : fid ≠ f.id) :
    cachedOrder (Settings_sigStoreRemove s f) fid = cachedOrder s fid := by
  unfold cachedOrder
  show (lookupF (Settings_sigStoreRemove s f).settings fid).bind _ =
    (lookupF s.settings fid).bind _
  rw [sigStoreRemove_settings]
  split
  · rw [lookupF_delF_ne _ hne]
    rfl
  · rfl


theorem sigStoreRemove_lookup_none {s : ViewState} (f : HTTPFlow)
    (hnd : (s.settings.map Prod.fst).Nodup) :
    lookupF (Settings_sigStoreRemove s f).settings f.id = none := by
  rw [sigStoreRemove_settings]
  split
  · exact lookupF_delF_self _ _ hnd
  · rename_i h
    cases hl : lookupF s.settings f.id with
    | none => rfl
    | some d => exact absurd (by rw [hl]; rfl) h

theorem removeOne_not_mem {st : ViewState} {f : HTTPFlow}
    (hs : ¬ storeMem st.store f.id = true) : View_removeOne st f = (st, []) := by
  unfold View_removeOne
  rw [if_neg hs]

theorem removeOne_shape_found {st : ViewState} {f : HTTPFlow}
    (hs : storeMem st.store f.id = true) (hc : (viewContainsF st f).1 = true) :
    View_removeOne st f =
      (Settings_sigStoreRemove
        { Focus_sigViewRemove (viewRemoveTry (viewContainsF st f).2 f).1 f with
          store := (Focus_sigViewRemove (viewRemoveTry (viewContainsF st f).2 f).1
            f).store.filter (fun g => g.id ≠ f.id) } f,
       [Signal.viewRemove f.id, Signal.storeRemove f.id]) := by
  simp only [View_removeOne]
  rw [if_pos hs, if_pos hc]
  rfl

theorem removeOne_shape_notfound {st : ViewState} {f : HTTPFlow}
    (hs : storeMem st.store f.id = true) (hc : ¬ (viewContainsF st f).1 = true) :
    View_removeOne st f =
      (Settings_sigStoreRemove
        { (viewContainsF st f).2 with
          store := (viewContainsF st f).2.store.filter (fun g => g.id ≠ f.id) } f,
       [Signal.storeRemove f.id]) := by
  simp only [View_removeOne]
  rw [if_pos hs, if_neg hc]
  rfl

theorem storeMem_filter_self (store : List HTTPFlow) (fid : Nat) :
    storeMem (store.filter (fun g => g.id ≠ fid)) fid = false := by
  cases hb : storeMem (store.filter (fun g => g.id ≠ fid)) fid with
  | false => rfl
  | true =>
    rw [storeMem_iff] at hb
    rcases List.mem_map.mp hb with ⟨g, hg, hgid⟩
    have := (List.mem_filter.mp hg).2
    simp [hgid] at this

theorem ViewInv_storeFilter_sigStoreRemove {s : ViewState} (f : HTTPFlow)
    (hinv : ViewInv s) (hnot : f.id ∉ viewIds s.viewList) :
    ViewInv (Settings_sigStoreRemove
      { s with store := s.store.filter (fun g => g.id ≠ f.id) } f) := by
  obtain ⟨i1, i2, i3, i4, i5⟩ := hinv
  refine ⟨?_, i2, ?_, ?_, i5⟩
  · show ((s.store.filter (fun g => g.id ≠ f.id)).map HTTPFlow.id).Nodup
    exact filter_store_nodup i1
  · intro fid hm
    show storeMem (s.store.filter (fun g => g.id ≠ f.id)) fid = true
    refine storeMem_filter_ne (i3 fid hm) ?_
    intro hcn
    exact hnot (hcn ▸ hm)
  · intro p hp
    have hne : p.2 ≠ f.id := fun hcn => hnot (hcn ▸ List.mem_map_of_mem _ hp)
    rw [cachedOrder_sigStoreRemove_ne hne]
    exact i4 p hp

theorem SettingsWF_storeFilter_sigStoreRemove {s : ViewState} (f : HTTPFlow)
    (hwf : SettingsWF s) :
    SettingsWF (Settings_sigStoreRemove
      { s with store := s.store.filter (fun g => g.id ≠ f.id) } f) := by
  constructor
  · rw [sigStoreRemove_settings]
    split
    · exact hwf.1.sublist (keys_delF_sublist _ _)
    · exact hwf.1
  · intro fid h
    show storeMem (s.store.filter (fun g => g.id ≠ f.id)) fid = true
    by_cases hf : fid = f.id
    · subst hf
      have hnone : lookupF (Settings_sigStoreRemove
          { s with store := s.store.filter (fun g => g.id ≠ f.id) } f).settings
          f.id = none := sigStoreRemove_lookup_none f hwf.1
      rw [hnone] at h
      simp at h
    · rw [sigStoreRemove_settings] at h
      have hsrc : (lookupF s.settings fid).isSome = true := by
        revert h
        split
        · rw [lookupF_delF_ne _ hf]
          exact id
        · exact id
      exact storeMem_filter_ne (hwf.2 fid hsrc) hf

theorem removeOne_inv {st : ViewState} (f : HTTPFlow) (hinv : ViewInv st)
    (hfoc : FocusInv st) (hwf : SettingsWF st) :
    ViewInv (View_removeOne st f).1 ∧ FocusInv (View_removeOne st f).1 ∧
      SettingsWF (View_removeOne st f).1 := by
  by_cases hs : storeMem st.store f.id = true
  · have hinv0 : ViewInv (viewContainsF st f).2 :=
      ViewInv_of_FrameOk (FrameOk_keyOf st f) hinv
    have hfoc0 : FocusInv (viewContainsF st f).2 := hfoc
    have hwf0 : SettingsWF (viewContainsF st f).2 :=
      SettingsWF_of_FrameOk (FrameOk_keyOf st f) hwf
    by_cases hc : (viewContainsF st f).1 = true
    · rw [removeOne_shape_found hs hc]
      have hinvA : ViewInv (viewRemoveTry (viewContainsF st f).2 f).1 :=
        ViewInv_viewRemoveTry f hinv0
      have hwfA : SettingsWF (viewRemoveTry (viewContainsF st f).2 f).1 := by
        refine ⟨?_, fun fid h => ?_⟩
        · exact (SettingsWF_of_FrameOk (FrameOk_keyOf _ f) hwf0).1
        · rw [viewRemoveTry_store]
          exact (SettingsWF_of_FrameOk (FrameOk_keyOf _ f) hwf0).2 fid h
      have hnotA : f.id ∉ viewIds (viewRemoveTry (viewContainsF st f).2 f).1.viewList := by
        rw [viewRemoveTry_viewList]
        cases hr : removePair (viewContainsF st f).2.viewList
            (keyOf (viewContainsF st f).2 f).1 f.id with
        | none =>
          rcases List.any_eq_true.mp hc with ⟨p, hp, hcond⟩
          simp only [Bool.and_eq_true, decide_eq_true_eq] at hcond
          have hsm : storeMem (viewContainsF st f).2.store f.id = true := hs
          have hco : cachedOrder (viewContainsF st f).2 f.id
              = some (keyOf st f).1 := cachedOrder_keyOf_self hs
          have hKcall : keyOf (viewContainsF st f).2 f = ((keyOf st f).1,
              (viewContainsF st f).2) := keyOf_of_cached hsm hco
          have hpair : ((keyOf (viewContainsF st f).2 f).1, f.id)
              ∈ (viewContainsF st f).2.viewList := by
            rw [hKcall]
            have hpp : p = ((keyOf st f).1, f.id) := Prod.ext hcond.1 hcond.2
            rw [← hpp]
            exact hp
          exact absurd hpair (removePair_none hr)
        | some l' =>
          simp only [hr, Option.getD_some]
          exact removePair_not_mem_ids hr hinv0.2.1
      have hfocB : FocusInv (Focus_sigViewRemove
          (viewRemoveTry (viewContainsF st f).2 f).1 f) := by
        refine FocusInv_sigViewRemove hinvA.2.2.1 hinvA.2.2.2.1 ?_
        intro g hg hgne
        rw [viewRemoveTry_focusFlow] at hg
        have hgm : g.id ∈ viewIds (viewContainsF st f).2.viewList := by
          have := hfoc0
          unfold FocusInv at this
          rw [hg] at this
          exact this
        rw [viewRemoveTry_viewList]
        cases hr : removePair (viewContainsF st f).2.viewList
            (keyOf (viewContainsF st f).2 f).1 f.id with
        | none => simpa [hr] using hgm
        | some l' =>
          simp only [hr, Option.getD_some]
          exact (removePair_mem_ids_ne hr hgne).mpr hgm
      have hinvB : ViewInv (Focus_sigViewRemove
          (viewRemoveTry (viewContainsF st f).2 f).1 f) :=
        ViewInv_of_FrameOk (FrameOk_sigViewRemove _ f) hinvA
      have hwfB : SettingsWF (Focus_sigViewRemove
          (viewRemoveTry (viewContainsF st f).2 f).1 f) :=
        SettingsWF_of_FrameOk (FrameOk_sigViewRemove _ f) hwfA
      have hnotB : f.id ∉ viewIds (Focus_sigViewRemove
          (viewRemoveTry (viewContainsF st f).2 f).1 f).viewList := by
        rw [(FrameOk_sigViewRemove _ f).2.1]
        exact hnotA
      exact ⟨ViewInv_storeFilter_sigStoreRemove f hinvB hnotB, hfocB,
        SettingsWF_storeFilter_sigStoreRemove f hwfB⟩
    · rw [removeOne_shape_notfound hs hc]
      have hnot0 : f.id ∉ viewIds (viewContainsF st f).2.viewList :=
        @viewContainsF_false_not_mem st f hs hinv.2.2.2.1 (by simpa using hc)
      exact ⟨ViewInv_storeFilter_sigStoreRemove f hinv0 hnot0, hfoc0,
        SettingsWF_storeFilter_sigStoreRemove f hwf0⟩
  · rw [removeOne_not_mem hs]
    exact ⟨hinv, hfoc, hwf⟩

theorem removeOne_settings_none {st : ViewState} (f : HTTPFlow)
    (hwf : SettingsWF st) :
    lookupF (View_removeOne st f).1.settings f.id = none := by
  by_cases hs : storeMem st.store f.id = true
  · have hnd0 : (((viewContainsF st f).2.settings).map Prod.fst).Nodup :=
      keyOf_settings_nodup f hwf.1
    by_cases hc : (viewContainsF st f).1 = true
    · rw [removeOne_shape_found hs hc]
      refine sigStoreRemove_lookup_none f ?_
      show (((Focus_sigViewRemove (viewRemoveTry (viewContainsF st f).2 f).1
        f).settings).map Prod.fst).Nodup
      refine ((FrameOk_sigViewRemove _ f).2.2.2.2.2.2.2.2.1) ?_
      exact keyOf_settings_nodup f hnd0
    · rw [removeOne_shape_notfound hs hc]
      exact sigStoreRemove_lookup_none f hnd0
  · rw [removeOne_not_mem hs]
    cases hl : lookupF st.settings f.id with
    | none => rfl
    | some d => exact absurd (hwf.2 f.id (by rw [hl]; rfl)) hs

/-! ### Store-refresh pruning lemmas -/

theorem lookupF_some_mem {l : SettingsMap} {fid : Nat} {d : PerFlow}
    (h : lookupF l fid = some d) : (fid, d) ∈ l := by
  induction l with
  | nil => exact absurd h (by simp [lookupF])
  | cons p rest ih =>
    obtain ⟨k0, v0⟩ := p
    rw [show lookupF ((k0, v0) :: rest) fid
        = if k0 = fid then some v0 else lookupF rest fid from rfl] at h
    split at h
    · rename_i hk
      have hd : v0 = d := by injection h
      subst hd
      subst hk
      exact List.mem_cons_self _ _
    · exact List.mem_cons_of_mem _ (ih h)

theorem lookupF_filter_eq {l : SettingsMap} {q : Nat × PerFlow → Bool} {fid : Nat}
    (hp : ∀ d, lookupF l fid = some d → q (fid, d) = true) :
    lookupF (l.filter q) fid = lookupF l fid := by
  induction l with
  | nil => rfl
  | cons p rest ih =>
    obtain ⟨k0, v0⟩ := p
    simp only [List.filter_cons]
    by_cases hk : k0 = fid
    · subst hk
      rw [if_pos (by simpa using hp v0 (by simp [lookupF]))]
      simp [lookupF]
    · have hp' : ∀ d, lookupF rest fid = some d → q (fid, d) = true := fun d hd =>
        hp d (by simp [lookupF, hk, hd])
      split
      · rw [show lookupF ((k0, v0) :: rest.filter q) fid = lookupF (rest.filter q) fid
            from by simp [lookupF, hk]]
        rw [show lookupF ((k0, v0) :: rest) fid = lookupF rest fid
            from by simp [lookupF, hk]]
        exact ih hp'
      · rw [show lookupF ((k0, v0) :: rest) fid = lookupF rest fid
            from by simp [lookupF, hk]]
        exact ih hp'

theorem lookupF_filter_isSome {l : SettingsMap} {q : Nat × PerFlow → Bool} {fid : Nat}
    (h : (lookupF (l.filter q) fid).isSome = true) :
    ∃ d, (fid, d) ∈ l ∧ q (fid, d) = true := by
  cases hl : lookupF (l.filter q) fid with
  | none => rw [hl] at h; simp at h
  | some d =>
    have hm := lookupF_some_mem hl
    rcases List.mem_filter.mp hm with ⟨hml, hq⟩
    exact ⟨d, hml, hq⟩

theorem sigStoreRefresh_settings (s : ViewState) :
    (Settings_sigStoreRefresh s).settings
      = s.settings.filter (fun p => storeMem s.store p.1) := rfl

theorem SettingsWF_sigStoreRefresh {s : ViewState}
    (hnd : (s.settings.map Prod.fst).Nodup) :
    SettingsWF (Settings_sigStoreRefresh s) := by
  constructor
  · rw [sigStoreRefresh_settings]
    exact hnd.sublist ((List.filter_sublist _).map Prod.fst)
  · intro fid h
    rw [sigStoreRefresh_settings] at h
    rcases lookupF_filter_isSome h with ⟨d, _, hq⟩
    exact hq

theorem cachedOrder_sigStoreRefresh_mem {s : ViewState} {fid : Nat}
    (hs : storeMem s.store fid = true) :
    cachedOrder (Settings_sigStoreRefresh s) fid = cachedOrder s fid := by
  unfold cachedOrder
  rw [show (Settings_sigStoreRefresh s).settings
      = s.settings.filter (fun p => storeMem s.store p.1) from rfl]
  rw [lookupF_filter_eq (fun d _ => hs)]
  rfl

theorem ViewInv_sigStoreRefresh {s : ViewState} (hinv : ViewInv s) :
    ViewInv (Settings_sigStoreRefresh s) := by
  obtain ⟨i1, i2, i3, i4, i5⟩ := hinv
  refine ⟨i1, i2, i3, ?_, i5⟩
  intro p hp
  rw [cachedOrder_sigStoreRefresh_mem (i3 p.2 (List.mem_map_of_mem _ hp))]
  exact i4 p hp

theorem FocusInv_sigStoreRefresh {s : ViewState} (h : FocusInv s) :
    FocusInv (Settings_sigStoreRefresh s) := h

/-! ### Refilter-based operations -/

theorem refilter_fold_settings (l : List HTTPFlow) :
    ∀ acc : ViewState,
    ((acc.settings.map Prod.fst).Nodup →
      ((l.foldl refilterStep acc).settings.map Prod.fst).Nodup) ∧
    (∀ fid, (lookupF (l.foldl refilterStep acc).settings fid).isSome = true →
      (lookupF acc.settings fid).isSome = true ∨ storeMem acc.store fid = true) := by
  induction l with
  | nil => intro acc; exact ⟨id, fun _ h => Or.inl h⟩
  | cons i rest ih =>
    intro acc
    simp only [List.foldl_cons]
    by_cases h1 : (acc.show_marked && !i.marked) = true
    · have hstep : refilterStep acc i = acc := by unfold refilterStep; rw [if_pos h1]
      rw [hstep]
      exact ih acc
    · by_cases h2 : acc.filt i = true
      · have hstep : refilterStep acc i = View_base_add acc i := by
          unfold refilterStep
          rw [if_neg (by simpa using h1), if_pos h2]
        rw [hstep]
        refine ⟨fun hnd => (ih _).1 (base_add_settings_nodup i hnd), fun fid h => ?_⟩
        rcases (ih _).2 fid h with h' | h'
        · rcases base_add_lookupF_isSome h' with h'' | ⟨rfl, hm⟩
          · exact Or.inl h''
          · exact Or.inr hm
        · rw [base_add_store] at h'
          exact Or.inr h'
      · have hstep : refilterStep acc i = acc := by
          unfold refilterStep
          rw [if_neg (by simpa using h1), if_neg (by simpa using h2)]
        rw [hstep]
        exact ih acc

theorem refilter_core {st : ViewState}
    (h1 : (st.store.map HTTPFlow.id).Nodup)
    (hnd : (st.settings.map Prod.fst).Nodup) :
    ViewInv (View_refilter st).1 ∧ FocusInv (View_refilter st).1 ∧
      ((View_refilter st).1.settings.map Prod.fst).Nodup ∧
      (∀ fid, (lookupF (View_refilter st).1.settings fid).isSome = true →
        (lookupF st.settings fid).isSome = true ∨ storeMem st.store fid = true) ∧
      (View_refilter st).1.store = st.store ∧
      (∀ fid, fid ∈ viewIds (View_refilter st).1.viewList ↔
        ∃ i, i ∈ st.store ∧ i.id = fid ∧
          (st.show_marked && !i.marked) = false ∧ st.filt i = true) := by
  have hmem0 : ∀ i ∈ st.store,
      storeMem ({ st with viewList := ([] : ViewIndex) } : ViewState).store i.id
        = true :=
    fun i hi => storeMem_of_mem hi
  have hfc := refilter_fold_inv st.store { st with viewList := [] } hmem0
    (fun i _ => List.not_mem_nil _) h1 List.nodup_nil
    (fun p hp => absurd hp (List.not_mem_nil p)) List.Pairwise.nil
  have hff := refilter_fold_frames st.store { st with viewList := [] }
  have hstore' : (st.store.foldl refilterStep { st with viewList := [] }).store
      = st.store := hff.1
  have hfm := refilter_fold_mem st.store { st with viewList := [] } hmem0
  have hinvf : ViewInv (st.store.foldl refilterStep { st with viewList := [] }) := by
    refine ⟨?_, hfc.1, ?_, hfc.2.1, hfc.2.2⟩
    · rw [hstore']
      exact h1
    · intro fid hm
      rcases (hfm fid).mp hm with h | ⟨i, hi, hiid, _, _⟩
      · exact absurd h (List.not_mem_nil _)
      · rw [hstore', ← hiid]
        exact storeMem_of_mem hi
  have hfs := refilter_fold_settings st.store { st with viewList := [] }
  have hndf : ((Focus_sigViewRefresh
      (st.store.foldl refilterStep { st with viewList := [] })).settings.map
      Prod.fst).Nodup :=
    (FrameOk_sigViewRefresh _).2.2.2.2.2.2.2.2.1 (hfs.1 hnd)
  have hisf : ∀ fid, (lookupF (Focus_sigViewRefresh
      (st.store.foldl refilterStep { st with viewList := [] })).settings
      fid).isSome = true →
      (lookupF st.settings fid).isSome = true ∨ storeMem st.store fid = true := by
    intro fid h
    rcases (FrameOk_sigViewRefresh _).2.2.2.2.2.2.2.2.2 fid h with h' | h'
    · exact hfs.2 fid h'
    · rw [hstore'] at h'
      exact Or.inr h'
  have hstoref : (Focus_sigViewRefresh
      (st.store.foldl refilterStep { st with viewList := [] })).store = st.store :=
    ((FrameOk_sigViewRefresh _).1).trans hstore'
  have hmemf : ∀ fid, fid ∈ viewIds (Focus_sigViewRefresh
      (st.store.foldl refilterStep { st with viewList := [] })).viewList ↔
      ∃ i, i ∈ st.store ∧ i.id = fid ∧
        (st.show_marked && !i.marked) = false ∧ st.filt i = true := by
    intro fid
    rw [(FrameOk_sigViewRefresh _).2.1]
    constructor
    · intro hm
      rcases (hfm fid).mp hm with h | h
      · exact absurd h (List.not_mem_nil _)
      · exact h
    · intro h
      exact (hfm fid).mpr (Or.inr h)
  exact ⟨ViewInv_of_FrameOk (FrameOk_sigViewRefresh _) hinvf,
    FocusInv_sigViewRefresh hinvf.2.2.1 hinvf.2.2.2.1,
    hndf, hisf, hstoref, hmemf⟩

theorem set_filter_inv {st : ViewState} (flt : Option (HTTPFlow → Bool))
    (hinv : ViewInv st) (hwf : SettingsWF st) :
    ViewInv (View_set_filter st flt).1 ∧ FocusInv (View_set_filter st flt).1 ∧
      SettingsWF (View_set_filter st flt).1 := by
  have hc := @refilter_core { st with filt := flt.getD matchall } hinv.1 hwf.1
  refine ⟨hc.1, hc.2.1, hc.2.2.1, ?_⟩
  intro fid h
  show storeMem (View_refilter { st with filt := flt.getD matchall }).1.store fid = true
  rw [hc.2.2.2.2.1]
  have h' : (lookupF (View_refilter
      { st with filt := flt.getD matchall }).1.settings fid).isSome = true := h
  rcases hc.2.2.2.1 fid h' with h2 | h2
  · exact hwf.2 fid h2
  · exact h2

theorem toggle_marked_inv {st : ViewState} (hinv : ViewInv st) (hwf : SettingsWF st) :
    ViewInv (View_toggle_marked st).1 ∧ FocusInv (View_toggle_marked st).1 ∧
      SettingsWF (View_toggle_marked st).1 := by
  have hc := @refilter_core { st with show_marked := !st.show_marked } hinv.1 hwf.1
  refine ⟨hc.1, hc.2.1, hc.2.2.1, ?_⟩
  intro fid h
  show storeMem (View_refilter
      { st with show_marked := !st.show_marked }).1.store fid = true
  rw [hc.2.2.2.2.1]
  have h' : (lookupF (View_refilter
      { st with show_marked := !st.show_marked }).1.settings fid).isSome = true := h
  rcases hc.2.2.2.1 fid h' with h2 | h2
  · exact hwf.2 fid h2
  · exact h2

theorem filter_settings_empty_store (l : SettingsMap) :
    l.filter (fun p => storeMem ([] : List HTTPFlow) p.1) = [] := by
  induction l with
  | nil => rfl
  | cons p rest ih => simpa [List.filter_cons, storeMem] using ih

theorem clear_inv (st : ViewState) :
    ViewInv (View_clear st).1 ∧ FocusInv (View_clear st).1 ∧
      SettingsWF (View_clear st).1 ∧
      (View_clear st).1.store = [] ∧ (View_clear st).1.viewList = [] ∧
      (View_clear st).1.settings = [] := by
  have hs2 : (View_clear st).1.settings = [] := filter_settings_empty_store st.settings
  refine ⟨⟨List.nodup_nil, List.nodup_nil, ?_, ?_, List.Pairwise.nil⟩, trivial,
    ⟨?_, ?_⟩, rfl, rfl, hs2⟩
  · intro fid hm
    exact absurd hm (List.not_mem_nil _)
  · intro p hp
    exact absurd hp (List.not_mem_nil _)
  · rw [hs2]
    exact List.nodup_nil
  · intro fid h
    rw [hs2] at h
    simp [lookupF] at h

theorem clear_not_marked_inv {st : ViewState} (hinv : ViewInv st)
    (hwf : SettingsWF st) :
    ViewInv (View_clear_not_marked st).1 ∧ FocusInv (View_clear_not_marked st).1 ∧
      SettingsWF (View_clear_not_marked st).1 := by
  have h1 : ((({ st with store := st.store.filter (fun g => g.marked) }
      : ViewState)).store.map HTTPFlow.id).Nodup :=
    hinv.1.sublist ((List.filter_sublist _).map HTTPFlow.id)
  have hc := @refilter_core { st with store := st.store.filter (fun g => g.marked) }
    h1 hwf.1
  exact ⟨ViewInv_sigStoreRefresh hc.1, FocusInv_sigStoreRefresh hc.2.1,
    SettingsWF_sigStoreRefresh hc.2.2.1⟩

/-! ### Remaining focus and order operations -/

theorem set_reversed_inv {st : ViewState} (b : Bool) (hinv : ViewInv st)
    (hwf : SettingsWF st) :
    ViewInv (View_set_reversed st b).1 ∧ FocusInv (View_set_reversed st b).1 ∧
      SettingsWF (View_set_reversed st b).1 := by
  have hinv' : ViewInv ({ st with order_reversed := b } : ViewState) := hinv
  have hwf' : SettingsWF ({ st with order_reversed := b } : ViewState) := hwf
  exact ⟨ViewInv_of_FrameOk (FrameOk_sigViewRefresh _) hinv',
    FocusInv_sigViewRefresh hinv'.2.2.1 hinv'.2.2.2.1,
    SettingsWF_of_FrameOk (FrameOk_sigViewRefresh _) hwf'⟩

theorem go_inv {st : ViewState} (dst : Int) (hinv : ViewInv st) (hfoc : FocusInv st)
    (hwf : SettingsWF st) :
    ViewInv (View_go st dst) ∧ FocusInv (View_go st dst) ∧
      SettingsWF (View_go st dst) := by
  unfold View_go
  split
  · exact ⟨hinv, hfoc, hwf⟩
  · exact ⟨ViewInv_of_FrameOk (FrameOk_focusAt _ _) hinv,
      FocusInv_focusAt _ hfoc, SettingsWF_of_FrameOk (FrameOk_focusAt _ _) hwf⟩

theorem FrameOk_focusIndex (st : ViewState) : FrameOk st (Focus_index st).2 := by
  unfold Focus_index
  split
  · rename_i f hf
    exact FrameOk_keyOf st f
  · exact FrameOk.refl st

theorem FocusInv_focusIndex {st : ViewState} (h : FocusInv st) :
    FocusInv (Focus_index st).2 := by
  unfold Focus_index
  split
  · exact h
  · exact h

theorem focus_next_inv {st : ViewState} (hinv : ViewInv st) (hfoc : FocusInv st)
    (hwf : SettingsWF st) :
    ViewInv (View_focus_next st) ∧ FocusInv (View_focus_next st) ∧
      SettingsWF (View_focus_next st) := by
  have h2 : ViewInv (Focus_index st).2 :=
    ViewInv_of_FrameOk (FrameOk_focusIndex st) hinv
  have h3 : FocusInv (Focus_index st).2 := FocusInv_focusIndex hfoc
  have h4 : SettingsWF (Focus_index st).2 :=
    SettingsWF_of_FrameOk (FrameOk_focusIndex st) hwf
  unfold View_focus_next
  split
  · exact ⟨h2, h3, h4⟩
  · split
    · exact ⟨ViewInv_of_FrameOk (FrameOk_focusAt _ _) h2,
        FocusInv_focusAt _ h3, SettingsWF_of_FrameOk (FrameOk_focusAt _ _) h4⟩
    · exact ⟨h2, h3, h4⟩

theorem focus_prev_inv {st : ViewState} (hinv : ViewInv st) (hfoc : FocusInv st)
    (hwf : SettingsWF st) :
    ViewInv (View_focus_prev st) ∧ FocusInv (View_focus_prev st) ∧
      SettingsWF (View_focus_prev st) := by
  have h2 : ViewInv (Focus_index st).2 :=
    ViewInv_of_FrameOk (FrameOk_focusIndex st) hinv
  have h3 : FocusInv (Focus_index st).2 := FocusInv_focusIndex hfoc
  have h4 : SettingsWF (Focus_index st).2 :=
    SettingsWF_of_FrameOk (FrameOk_focusIndex st) hwf
  unfold View_focus_prev
  split
  · exact ⟨h2, h3, h4⟩
  · split
    · exact ⟨ViewInv_of_FrameOk (FrameOk_focusAt _ _) h2,
        FocusInv_focusAt _ h3, SettingsWF_of_FrameOk (FrameOk_focusAt _ _) h4⟩
    · exact ⟨h2, h3, h4⟩

/-! ### `set_order` -/

theorem ViewInv_viewAddElem {s : ViewState} {g : HTTPFlow}
    (hinv : ViewInv s) (hs : storeMem s.store g.id = true)
    (hnotin : g.id ∉ viewIds s.viewList) :
    ViewInv (viewAddElem s g) := by
  have hinv1 : ViewInv (keyOf s g).2 := ViewInv_of_FrameOk (FrameOk_keyOf s g) hinv
  have hs1 : storeMem (keyOf s g).2.store g.id = true := hs
  have hc1 : cachedOrder (keyOf s g).2 g.id = some (keyOf s g).1 :=
    cachedOrder_keyOf_self hs
  have hn1 : g.id ∉ viewIds (keyOf s g).2.viewList := hnotin
  have heq : viewAddElem (keyOf s g).2 g = viewAddElem s g := by
    unfold viewAddElem
    rw [@keyOf_of_cached (keyOf s g).2 g (keyOf s g).1 hs1 hc1]
  rw [← heq]
  exact ViewInv_viewAddElem_cached hinv1 hs1 hc1 hn1

theorem FocusInv_of_members {a b : ViewState} (hf : b.focusFlow = a.focusFlow)
    (hm : ∀ fid, fid ∈ viewIds a.viewList → fid ∈ viewIds b.viewList)
    (hfoc : FocusInv a) : FocusInv b := by
  unfold FocusInv at hfoc ⊢
  rw [hf]
  cases hff : a.focusFlow with
  | none => trivial
  | some g =>
    rw [hff] at hfoc
    exact hm g.id hfoc

theorem setOrder_fold (l : ViewIndex) :
    ∀ acc : ViewState,
    (∀ p ∈ l, storeMem acc.store p.2 = true) →
    (∀ p ∈ l, p.2 ∉ viewIds acc.viewList) →
    (viewIds l).Nodup →
    ViewInv acc → SettingsWF acc →
    ViewInv (l.foldl setOrderStep acc) ∧ SettingsWF (l.foldl setOrderStep acc) ∧
      (l.foldl setOrderStep acc).store = acc.store ∧
      (l.foldl setOrderStep acc).focusFlow = acc.focusFlow ∧
      (∀ fid, fid ∈ viewIds (l.foldl setOrderStep acc).viewList ↔
        (fid ∈ viewIds acc.viewList ∨ fid ∈ viewIds l)) := by
  induction l with
  | nil =>
    intro acc _ _ _ hinv hwf
    refine ⟨hinv, hwf, rfl, rfl, fun fid => ?_⟩
    simp [viewIds]
  | cons p rest ih =>
    intro acc hmem hnot hnd hinv hwf
    simp only [List.foldl_cons]
    obtain ⟨g, hfb, hgid⟩ := flowById_of_storeMem (hmem p (by simp))
    have hstep : setOrderStep acc p = viewAddElem acc g := by
      unfold setOrderStep
      rw [hfb]
    rw [hstep]
    have hndr : (viewIds rest).Nodup := (List.nodup_cons.mp hnd).2
    have hpnotr : p.2 ∉ viewIds rest := (List.nodup_cons.mp hnd).1
    have hmem' : ∀ q ∈ rest, storeMem (viewAddElem acc g).store q.2 = true := by
      intro q hq
      rw [viewAddElem_store]
      exact hmem q (by simp [hq])
    have hidsAdd : ∀ fid, fid ∈ viewIds (viewAddElem acc g).viewList ↔
        (fid = g.id ∨ fid ∈ viewIds acc.viewList) := by
      intro fid
      rw [viewAddElem_viewList]
      rw [(viewIds_sortedInsert_perm _ _ _).mem_iff]
      simp
    have hnot' : ∀ q ∈ rest, q.2 ∉ viewIds (viewAddElem acc g).viewList := by
      intro q hq hmm
      rcases (hidsAdd q.2).mp hmm with h | h
      · rw [hgid] at h
        exact hpnotr (h ▸ List.mem_map_of_mem _ hq)
      · exact hnot q (by simp [hq]) h
    have hinvA : ViewInv (viewAddElem acc g) :=
      ViewInv_viewAddElem hinv (by rw [hgid]; exact hmem p (by simp))
        (by rw [hgid]; exact hnot p (by simp))
    have hwfA : SettingsWF (viewAddElem acc g) := SettingsWF_viewAddElem g hwf
    obtain ⟨r1, r2, r3, r4, r5⟩ := ih (viewAddElem acc g) hmem' hnot' hndr hinvA hwfA
    refine ⟨r1, r2, ?_, ?_, ?_⟩
    · rw [r3, viewAddElem_store]
    · rw [r4, viewAddElem_focusFlow]
    · intro fid
      rw [r5 fid, hidsAdd fid]
      constructor
      · rintro ((rfl | h) | h)
        · refine Or.inr ?_
          rw [hgid]
          exact List.mem_cons_self _ _
        · exact Or.inl h
        · exact Or.inr (List.mem_cons_of_mem _ h)
      · rintro (h | h)
        · exact Or.inl (Or.inr h)
        · rcases List.mem_cons.mp h with h | h
          · exact Or.inl (Or.inl (h.trans hgid.symm))
          · exact Or.inr h

theorem set_order_inv {st : ViewState} (okId : Nat) (hinv : ViewInv st)
    (hfoc : FocusInv st) (hwf : SettingsWF st) :
    ViewInv (View_set_order st okId) ∧ FocusInv (View_set_order st okId) ∧
      SettingsWF (View_set_order st okId) := by
  have hinv0 : ViewInv ({ st with order_key := okId, viewList := [] } : ViewState) := by
    refine ⟨hinv.1, List.nodup_nil, ?_, ?_, List.Pairwise.nil⟩
    · intro fid hm
      exact absurd hm (List.not_mem_nil _)
    · intro p hp
      exact absurd hp (List.not_mem_nil _)
  have hwf0 : SettingsWF ({ st with order_key := okId, viewList := [] } : ViewState) :=
    hwf
  obtain ⟨r1, r2, r3, r4, r5⟩ := setOrder_fold st.viewList
    { st with order_key := okId, viewList := [] }
    (fun p hp => hinv.2.2.1 p.2 (List.mem_map_of_mem _ hp))
    (fun p _ => List.not_mem_nil _)
    hinv.2.1 hinv0 hwf0
  refine ⟨r1, ?_, r2⟩
  have hf' : (st.viewList.foldl setOrderStep
      { st with order_key := okId, viewList := [] }).focusFlow = st.focusFlow := r4
  exact FocusInv_of_members hf' (fun fid hm => (r5 fid).mpr (Or.inr hm)) hfoc

/-! ### Initial state -/

theorem initView_inv : ViewInv initView ∧ FocusInv initView ∧ SettingsWF initView := by
  refine ⟨⟨List.nodup_nil, List.nodup_nil, ?_, ?_, List.Pairwise.nil⟩, trivial,
    List.nodup_nil, ?_⟩
  · intro fid hm
    exact absurd hm (List.not_mem_nil _)
  · intro p hp
    exact absurd hp (List.not_mem_nil _)
  · intro fid h
    simp [initView, lookupF] at h

/-! ### Membership bounds for `update` -/

theorem viewIds_removeGetD_sub {l : ViewIndex} {k : SVal} {i fid : Nat}
    (h : fid ∈ viewIds ((removePair l k i).getD l)) : fid ∈ viewIds l := by
  cases hr : removePair l k i with
  | none =>
    rw [hr] at h
    exact h
  | some l2 =>
    rw [hr] at h
    rcases List.mem_map.mp h with ⟨q, hq, hqid⟩
    exact hqid ▸ List.mem_map_of_mem _ (removePair_subset hr q hq)

theorem orderKeyRefresh_mem_sub {s : ViewState} {f : HTTPFlow} {fid : Nat}
    (h : fid ∈ viewIds (orderKeyRefresh s f).1.viewList) :
    fid ∈ viewIds s.viewList ∨ fid = f.id := by
  by_cases hs : storeMem s.store f.id = true
  · cases hd : lookupF s.settings f.id with
    | some d =>
      cases hk : lookupS d (orderKeyName s.order_key) with
      | some k =>
        by_cases heq : k = generateOf s.order_key f
        · rw [orderKeyRefresh_noop hs hd hk heq] at h
          exact Or.inl h
        · by_cases hfd : (viewRemoveTry s f).2 = true
          swap
          · rw [orderKeyRefresh_notfound hs hd hk heq (by simpa using hfd)] at h
            rw [viewRemoveTry_viewList] at h
            exact Or.inl (viewIds_removeGetD_sub h)
          rw [orderKeyRefresh_shape hs hd hk heq hfd] at h
          rw [show (sendViewRefresh (viewAddElem
              (settingsSetItem (viewRemoveTry s f).1 f (orderKeyName s.order_key)
                (generateOf s.order_key f)) f)).1
              = Focus_sigViewRefresh (viewAddElem
                (settingsSetItem (viewRemoveTry s f).1 f (orderKeyName s.order_key)
                  (generateOf s.order_key f)) f) from rfl] at h
          rw [(FrameOk_sigViewRefresh _).2.1, viewAddElem_viewList] at h
          rcases List.mem_cons.mp
              ((viewIds_sortedInsert_perm _ _ _).mem_iff.mp h) with h' | h'
          · exact Or.inr h'
          · rw [show (settingsSetItem (viewRemoveTry s f).1 f
                (orderKeyName s.order_key) (generateOf s.order_key f)).viewList
                = (viewRemoveTry s f).1.viewList from rfl,
              viewRemoveTry_viewList] at h'
            exact Or.inl (viewIds_removeGetD_sub h')
      | none =>
        have h1 : lookupS (settingsEntry s.settings f.id).1
            (orderKeyName s.order_key) = none := by
          rw [settingsEntry_of_cached hd]
          exact hk
        have hshape : orderKeyRefresh s f
            = ({ s with settings := (settingsEntry s.settings f.id).2 }, []) := by
          unfold orderKeyRefresh
          rw [if_pos hs, h1]
        rw [hshape] at h
        exact Or.inl h
    | none =>
      have h1 : lookupS (settingsEntry s.settings f.id).1
          (orderKeyName s.order_key) = none := by
        unfold settingsEntry
        rw [hd]
        rfl
      have hshape : orderKeyRefresh s f
          = ({ s with settings := (settingsEntry s.settings f.id).2 }, []) := by
        unfold orderKeyRefresh
        rw [if_pos hs, h1]
      rw [hshape] at h
      exact Or.inl h
  · have hshape : orderKeyRefresh s f = (s, []) := by
      unfold orderKeyRefresh
      rw [if_neg hs]
    rw [hshape] at h
    exact Or.inl h

theorem updateOne_mem_sub {st : ViewState} {f : HTTPFlow} {fid : Nat}
    (h : fid ∈ viewIds (View_updateOne st f).1.viewList) :
    fid ∈ viewIds st.viewList ∨ (st.filt f = true ∧ fid = f.id) := by
  by_cases hs : storeMem st.store f.id = true
  · by_cases hfl : st.filt f = true
    · by_cases hcont : (viewContainsF (updSync st f) f).1 = true
      · rw [updateOne_shape_refresh hs hfl hcont] at h
        rcases orderKeyRefresh_mem_sub h with h' | h'
        · exact Or.inl h'
        · exact Or.inr ⟨hfl, h'⟩
      · rw [updateOne_shape_add hs hfl (by simpa using hcont)] at h
        rw [show (sendViewAdd
            (if (View_base_add (viewContainsF (updSync st f) f).2 f).focus_follow
                = true
             then Focus_setFlow (View_base_add (viewContainsF (updSync st f) f).2 f)
               (some f)
             else View_base_add (viewContainsF (updSync st f) f).2 f) f).1
            = Focus_sigViewAdd
            (if (View_base_add (viewContainsF (updSync st f) f).2 f).focus_follow
                = true
             then Focus_setFlow (View_base_add (viewContainsF (updSync st f) f).2 f)
               (some f)
             else View_base_add (viewContainsF (updSync st f) f).2 f) f
            from rfl] at h
        rw [(FrameOk_sigViewAdd _ f).2.1, follow_viewList] at h
        have hsK : storeMem (viewContainsF (updSync st f) f).2.store f.id = true := by
          rw [show (viewContainsF (updSync st f) f).2.store = (updSync st f).store
              from rfl, updSync_storeMem]
          exact hs
        rw [@base_add_viewList (viewContainsF (updSync st f) f).2 f hsK] at h
        rcases List.mem_cons.mp
            ((viewIds_sortedInsert_perm _ _ _).mem_iff.mp h) with h' | h'
        · exact Or.inr ⟨hfl, h'⟩
        · exact Or.inl h'
    · rw [updateOne_shape_remove hs (by simpa using hfl)] at h
      split at h
      · rw [show (sendViewRemove (viewRemoveTry (updSync st f) f).1 f).1
            = Focus_sigViewRemove (viewRemoveTry (updSync st f) f).1 f from rfl] at h
        rw [(FrameOk_sigViewRemove _ f).2.1, viewRemoveTry_viewList] at h
        exact Or.inl (viewIds_removeGetD_sub h)
      · rw [show ((viewRemoveTry (updSync st f) f).1, ([] : List Signal)).1
            = (viewRemoveTry (updSync st f) f).1 from rfl, viewRemoveTry_viewList] at h
        exact Or.inl (viewIds_removeGetD_sub h)
  · rw [updateOne_not_mem hs] at h
    exact Or.inl h

/-! ### Positional focus lemmas -/

theorem pyGetPair_eq_get {l : ViewIndex} {i : Int} (h0 : 0 ≤ i)
    (hl : i < (l.length : Int)) : pyGetPair l i = l.get? i.toNat := by
  unfold pyGetPair
  rw [if_neg (show ¬ i < 0 by omega)]
  show (if 0 ≤ i ∧ i < (l.length : Int) then l.get? i.toNat else none) = l.get? i.toNat
  rw [if_pos ⟨h0, hl⟩]

theorem focusAt_gets {st : ViewState} {i : Int} (h0 : 0 ≤ i)
    (hl : i < (st.viewList.length : Int)) (hrev : st.order_reversed = false)
    (hsub : ∀ fid ∈ viewIds st.viewList, storeMem st.store fid = true)
    (hkeys : ∀ p ∈ st.viewList, cachedOrder st p.2 = some p.1) :
    ∃ p, pyGetPair st.viewList i = some p ∧
      ∃ g, (Focus_focusAt st i).focusFlow = some g ∧ g.id = p.2 := by
  have hpg : pyGetPair st.viewList i = st.viewList.get? i.toNat :=
    pyGetPair_eq_get h0 hl
  have hlt : i.toNat < st.viewList.length := by omega
  obtain ⟨p, hp⟩ : ∃ p, st.viewList.get? i.toNat = some p := by
    rw [List.get?_eq_get hlt]
    exact ⟨_, rfl⟩
  have hpmem : p ∈ st.viewList := List.get?_mem hp
  have hget : View_getitem st i = some p.2 := by
    have hr : View_rev st i = some i := by
      unfold View_rev
      rw [if_neg (show ¬ st.order_reversed = true by rw [hrev]; simp)]
    unfold View_getitem
    rw [hr]
    show (pyGetPair st.viewList i).map (fun q => q.2) = some p.2
    rw [hpg, hp]
    rfl
  have hmemid : p.2 ∈ viewIds st.viewList := List.mem_map_of_mem _ hpmem
  obtain ⟨g, hfb, hgid⟩ := flowById_of_storeMem (hsub p.2 hmemid)
  have hcont : (viewContainsF st g).1 = true :=
    viewContainsF_true_of_mem (by rw [hgid]; exact hsub p.2 hmemid) hkeys
      (by rw [hgid]; exact hmemid)
  refine ⟨p, hpg.trans hp, g, ?_, hgid⟩
  rw [Focus_focusAt_eq hget hfb]
  exact Focus_setFlow_focusFlow_pos hcont

/-! ### Sample-state invariants -/

theorem stThree_inv : ViewInv stThree ∧ FocusInv stThree ∧ SettingsWF stThree := by
  refine ⟨⟨by decide, by decide, by decide, by decide, ?_⟩, ?_, by decide, ?_⟩
  · show List.Pairwise (fun a b => SVal.le a.1 b.1 = true) stThree.viewList
    decide
  · show flowB.id ∈ viewIds stThree.viewList
    decide
  · intro fid h
    have hm := mem_keys_of_lookupF_isSome stThree.settings fid h
    simp only [stThree, List.map_cons, List.map_nil, List.mem_cons,
      List.not_mem_nil, or_false] at hm
    rcases hm with rfl | rfl | rfl <;> decide

/-! ### The claims -/

/-- Claim C1, counterexample to the spec's combined predicate: with
show-marked-only switched on, `add` indexes an unmarked flow that the
match-all filter accepts, so View membership does not imply
`predicate ∧ (¬show_marked ∨ marked)`. -/
theorem C1_counterexample :
    (View_add (View_toggle_marked initView).1 [flowA]).1.show_marked = true ∧
    flowA.marked = false ∧
    flowA.id ∈ viewIds (View_add (View_toggle_marked initView).1 [flowA]).1.viewList := by
  decide

/-- Claim C1, amended: `add` and `update` test only the filter predicate
(`self.filter(f)`), not the show-marked conjunct — a flow id newly indexed by
either operation is the operation's own argument and passed `filt`. -/
theorem C1_add_update_enforce_filter (st : ViewState) (f : HTTPFlow) (fid : Nat)
    (hnew : fid ∉ viewIds st.viewList) :
    (fid ∈ viewIds (View_addOne st f).1.viewList →
      st.filt f = true ∧ fid = f.id) ∧
    (fid ∈ viewIds (View_updateOne st f).1.viewList →
      st.filt f = true ∧ fid = f.id) := by
  constructor
  · intro h
    rcases (addOne_mem_ids st f fid).mp h with h' | ⟨_, h2, h3⟩
    · exact absurd h' hnew
    · exact ⟨h2, h3⟩
  · intro h
    rcases updateOne_mem_sub h with h' | h'
    · exact absurd h' hnew
    · exact h'

theorem C1_add_update_enforce_filter_witness :
    (1 ∉ viewIds initView.viewList) ∧
    ((1 ∈ viewIds (View_addOne initView flowA).1.viewList →
      initView.filt flowA = true ∧ 1 = flowA.id) ∧
     (1 ∈ viewIds (View_updateOne initView flowA).1.viewList →
      initView.filt flowA = true ∧ 1 = flowA.id)) :=
  ⟨by decide, C1_add_update_enforce_filter initView flowA 1 (by decide)⟩

/-- Claim C2, counterexample to the "entry exists ⟺ id in store" direction:
a flow the active filter rejects is stored by `add` without any settings
entry ever being created (entries are created lazily by the order-key
cache and the `setvalue` commands). -/
theorem C2_counterexample :
    storeMem (View_add (View_set_filter initView (some (fun g => g.marked))).1
        [flowA]).1.store flowA.id = true ∧
    lookupF (View_add (View_set_filter initView (some (fun g => g.marked))).1
        [flowA]).1.settings flowA.id = none := by
  decide

/-- Claim C2, amended: the "entry exists ⟹ id in store" direction is an
invariant of `add`, `update` and `remove`, and every store-removing
operation leaves no residual entry: `remove` deletes the removed flow's
entry, `clear` empties the settings entirely, and `clear_not_marked`
leaves no entry for any id it dropped from the store. -/
theorem C2_settings_lifecycle (st : ViewState) (f : HTTPFlow)
    (hinv : ViewInv st) (hfoc : FocusInv st) (hwf : SettingsWF st) :
    SettingsWF (View_addOne st f).1 ∧ SettingsWF (View_updateOne st f).1 ∧
    SettingsWF (View_removeOne st f).1 ∧
    lookupF (View_remove st [f]).1.settings f.id = none ∧
    (View_clear st).1.settings = [] ∧
    (∀ fid, storeMem (View_clear_not_marked st).1.store fid = false →
      lookupF (View_clear_not_marked st).1.settings fid = none) := by
  refine ⟨(addOne_inv f hinv hfoc hwf).2.2, (updateOne_inv f hinv hfoc hwf).2.2,
    (removeOne_inv f hinv hfoc hwf).2.2, removeOne_settings_none f hwf,
    (clear_inv st).2.2.2.2.2, ?_⟩
  intro fid h0
  cases hl : lookupF (View_clear_not_marked st).1.settings fid with
  | none => rfl
  | some d =>
    have hm := (clear_not_marked_inv hinv hwf).2.2.2 fid (by rw [hl]; rfl)
    rw [h0] at hm
    exact absurd hm (by simp)

theorem C2_settings_lifecycle_witness :
    SettingsWF (View_addOne stThree flowB).1 ∧
    SettingsWF (View_updateOne stThree flowB).1 ∧
    SettingsWF (View_removeOne stThree flowB).1 ∧
    lookupF (View_remove stThree [flowB]).1.settings flowB.id = none ∧
    (View_clear stThree).1.settings = [] ∧
    (∀ fid, storeMem (View_clear_not_marked stThree).1.store fid = false →
      lookupF (View_clear_not_marked stThree).1.settings fid = none) :=
  C2_settings_lifecycle stThree flowB stThree_inv.1 stThree_inv.2.1 stThree_inv.2.2

/-- Claim C3: after every public mutating operation the focus is either
empty or a current member of the view index. -/
theorem C3_focus_validity (st : ViewState) (fs : List HTTPFlow)
    (flt : Option (HTTPFlow → Bool)) (okId : Nat) (dst : Int)
    (hinv : ViewInv st) (hfoc : FocusInv st) (hwf : SettingsWF st) :
    FocusInv (View_add st fs).1 ∧ FocusInv (View_update st fs).1 ∧
    FocusInv (View_remove st fs).1 ∧ FocusInv (View_set_filter st flt).1 ∧
    FocusInv (View_set_order st okId) ∧ FocusInv (View_toggle_marked st).1 ∧
    FocusInv (View_clear st).1 ∧ FocusInv (View_clear_not_marked st).1 ∧
    FocusInv (View_go st dst) ∧ FocusInv (View_focus_next st) ∧
    FocusInv (View_focus_prev st) :=
  ⟨(batch_fold_inv (fun _ g hi hf hw => addOne_inv g hi hf hw) fs (st, [])
      hinv hfoc hwf).2.1,
   (batch_fold_inv (fun _ g hi hf hw => updateOne_inv g hi hf hw) fs (st, [])
      hinv hfoc hwf).2.1,
   (batch_fold_inv (fun _ g hi hf hw => removeOne_inv g hi hf hw) fs (st, [])
      hinv hfoc hwf).2.1,
   (set_filter_inv flt hinv hwf).2.1,
   (set_order_inv okId hinv hfoc hwf).2.1,
   (toggle_marked_inv hinv hwf).2.1,
   (clear_inv st).2.1,
   (clear_not_marked_inv hinv hwf).2.1,
   (go_inv dst hinv hfoc hwf).2.1,
   (focus_next_inv hinv hfoc hwf).2.1,
   (focus_prev_inv hinv hfoc hwf).2.1⟩

theorem C3_focus_validity_witness :
    FocusInv (View_add stThree [flowA]).1 ∧
    FocusInv (View_update stThree [flowA]).1 ∧
    FocusInv (View_remove stThree [flowA]).1 ∧
    FocusInv (View_set_filter stThree (some (fun g => g.marked))).1 ∧
    FocusInv (View_set_order stThree 2) ∧
    FocusInv (View_toggle_marked stThree).1 ∧
    FocusInv (View_clear stThree).1 ∧ FocusInv (View_clear_not_marked stThree).1 ∧
    FocusInv (View_go stThree (-1)) ∧ FocusInv (View_focus_next stThree) ∧
    FocusInv (View_focus_prev stThree) :=
  C3_focus_validity stThree [flowA] (some (fun g => g.marked)) 2 (-1)
    stThree_inv.1 stThree_inv.2.1 stThree_inv.2.2

/-- Claim C4: for a flow currently in the View's index (its stored sort key
agreeing with the cached order value, as the structural invariant
guarantees), `_OrderKey.refresh` is a no-op when the recomputed value equals
the cache, and otherwise removes the flow from the index, overwrites the
cache with the recomputed value, re-inserts the flow, and emits exactly one
view-refresh signal. -/
theorem C4_orderkey_refresh_contract (st : ViewState) (f : HTTPFlow)
    (d : PerFlow) (k : SVal) (hs : storeMem st.store f.id = true)
    (hd : lookupF st.settings f.id = some d)
    (hk : lookupS d (orderKeyName st.order_key) = some k)
    (hmem : f.id ∈ viewIds st.viewList)
    (hkeys : ∀ p ∈ st.viewList, cachedOrder st p.2 = some p.1) :
    (k = generateOf st.order_key f → orderKeyRefresh st f = (st, [])) ∧
    (k ≠ generateOf st.order_key f →
      orderKeyRefresh st f
        = (Focus_sigViewRefresh (viewAddElem
            (settingsSetItem (viewRemoveTry st f).1 f (orderKeyName st.order_key)
              (generateOf st.order_key f)) f),
           [Signal.viewRefresh]) ∧
      cachedOrder (orderKeyRefresh st f).1 f.id
        = some (generateOf st.order_key f) ∧
      f.id ∈ viewIds (orderKeyRefresh st f).1.viewList) := by
  have hc : cachedOrder st f.id = some k := by
    show (lookupF st.settings f.id).bind _ = some k
    rw [hd]
    exact hk
  have hpair : (k, f.id) ∈ st.viewList := by
    rcases List.mem_map.mp hmem with ⟨p, hp, hpid⟩
    have h2 : cachedOrder st p.2 = some p.1 := hkeys p hp
    rw [hpid, hc] at h2
    have h3 : k = p.1 := by injection h2
    have hpp : p = (k, f.id) := Prod.ext h3.symm hpid
    rw [← hpp]
    exact hp
  have hfd : (viewRemoveTry st f).2 = true := by
    rw [viewRemoveTry_of_cached hs hc]
    exact removePair_isSome_of_mem hpair
  constructor
  · intro heq
    exact orderKeyRefresh_noop hs hd hk heq
  · intro hne
    have hshape := orderKeyRefresh_shape hs hd hk hne hfd
    refine ⟨hshape, ?_, ?_⟩
    · rw [hshape]
      show cachedOrder (Focus_sigViewRefresh (viewAddElem
          (settingsSetItem (viewRemoveTry st f).1 f (orderKeyName st.order_key)
            (generateOf st.order_key f)) f)) f.id
        = some (generateOf st.order_key f)
      have hY : cachedOrder (settingsSetItem (viewRemoveTry st f).1 f
          (orderKeyName st.order_key) (generateOf st.order_key f)) f.id
          = some (generateOf st.order_key f) :=
        @settingsSetItem_cachedOrder_self (viewRemoveTry st f).1 f
          (generateOf st.order_key f) hs
      have hX : cachedOrder (viewAddElem (settingsSetItem (viewRemoveTry st f).1 f
          (orderKeyName st.order_key) (generateOf st.order_key f)) f) f.id
          = some (generateOf st.order_key f) := by
        rw [cachedOrder_viewAddElem]
        exact cachedOrder_keyOf_preserved f hY
      exact (FrameOk_sigViewRefresh _).2.2.2.2.2.2.2.1 f.id _ hX
    · rw [hshape]
      show f.id ∈ viewIds (Focus_sigViewRefresh (viewAddElem
          (settingsSetItem (viewRemoveTry st f).1 f (orderKeyName st.order_key)
            (generateOf st.order_key f)) f)).viewList
      rw [(FrameOk_sigViewRefresh _).2.1, viewAddElem_viewList]
      exact (viewIds_sortedInsert_perm _ _ _).mem_iff.mpr (List.mem_cons_self _ _)

theorem C4_orderkey_refresh_contract_witness :
    (SVal.i 4 = generateOf stStale.order_key flowA →
      orderKeyRefresh stStale flowA = (stStale, [])) ∧
    (SVal.i 4 ≠ generateOf stStale.order_key flowA →
      orderKeyRefresh stStale flowA
        = (Focus_sigViewRefresh (viewAddElem
            (settingsSetItem (viewRemoveTry stStale flowA).1 flowA
              (orderKeyName stStale.order_key)
              (generateOf stStale.order_key flowA)) flowA),
           [Signal.viewRefresh]) ∧
      cachedOrder (orderKeyRefresh stStale flowA).1 flowA.id
        = some (generateOf stStale.order_key flowA) ∧
      flowA.id ∈ viewIds (orderKeyRefresh stStale flowA).1.viewList) :=
  C4_orderkey_refresh_contract stStale flowA [("_order_0", SVal.i 4)] (SVal.i 4)
    (by decide) (by decide) (by decide) (by decide) (by decide)

/-- Claim C5: the initial state satisfies the structural invariant — unique
store and index ids, index members stored, each index entry's stored sort
key equal to the value cached under the current order key, and the index
ascending in those keys — and every public operation preserves it. -/
theorem C5_sort_consistency (st : ViewState) (fs : List HTTPFlow)
    (flt : Option (HTTPFlow → Bool)) (okId : Nat) (b : Bool) (dst : Int)
    (hinv : ViewInv st) (hfoc : FocusInv st) (hwf : SettingsWF st) :
    ViewInv initView ∧
    ViewInv (View_add st fs).1 ∧ ViewInv (View_update st fs).1 ∧
    ViewInv (View_remove st fs).1 ∧ ViewInv (View_set_filter st flt).1 ∧
    ViewInv (View_set_order st okId) ∧ ViewInv (View_set_reversed st b).1 ∧
    ViewInv (View_toggle_marked st).1 ∧ ViewInv (View_clear st).1 ∧
    ViewInv (View_clear_not_marked st).1 ∧ ViewInv (View_go st dst) ∧
    ViewInv (View_focus_next st) ∧ ViewInv (View_focus_prev st) :=
  ⟨initView_inv.1,
   (batch_fold_inv (fun _ g hi hf hw => addOne_inv g hi hf hw) fs (st, [])
      hinv hfoc hwf).1,
   (batch_fold_inv (fun _ g hi hf hw => updateOne_inv g hi hf hw) fs (st, [])
      hinv hfoc hwf).1,
   (batch_fold_inv (fun _ g hi hf hw => removeOne_inv g hi hf hw) fs (st, [])
      hinv hfoc hwf).1,
   (set_filter_inv flt hinv hwf).1,
   (set_order_inv okId hinv hfoc hwf).1,
   (set_reversed_inv b hinv hwf).1,
   (toggle_marked_inv hinv hwf).1,
   (clear_inv st).1,
   (clear_not_marked_inv hinv hwf).1,
   (go_inv dst hinv hfoc hwf).1,
   (focus_next_inv hinv hfoc hwf).1,
   (focus_prev_inv hinv hfoc hwf).1⟩

theorem C5_sort_consistency_witness :
    ViewInv initView ∧
    ViewInv (View_add stThree [flowA]).1 ∧ ViewInv (View_update stThree [flowA]).1 ∧
    ViewInv (View_remove stThree [flowA]).1 ∧
    ViewInv (View_set_filter stThree (some (fun g => g.marked))).1 ∧
    ViewInv (View_set_order stThree 2) ∧ ViewInv (View_set_reversed stThree true).1 ∧
    ViewInv (View_toggle_marked stThree).1 ∧ ViewInv (View_clear stThree).1 ∧
    ViewInv (View_clear_not_marked stThree).1 ∧ ViewInv (View_go stThree (-1)) ∧
    ViewInv (View_focus_next stThree) ∧ ViewInv (View_focus_prev stThree) :=
  C5_sort_consistency stThree [flowA] (some (fun g => g.marked)) 2 true (-1)
    stThree_inv.1 stThree_inv.2.1 stThree_inv.2.2

/-- Claim C6, counterexample for reversed views: the displayed order of
`stRev` is ids `4, 2, 1` (keys `7, 3, 1`), the removed focused flow (key `5`)
formerly sat between the key-`7` and key-`3` entries, yet the handler
re-anchors the focus to the key-`1` flow — the entry farthest from the
removed flow's former position (the double `_rev` of `_bisect` and
`__getitem__` does not cancel on a reversed view). -/
theorem C6_counterexample :
    stRev.order_reversed = true ∧
    View_getitem stRev 0 = some 4 ∧ View_getitem stRev 1 = some 2 ∧
    View_getitem stRev 2 = some 1 ∧
    (Focus_sigViewRemove stRev flowD).focusFlow.map HTTPFlow.id = some 1 := by
  decide

/-- Claim C6, amended: on a non-reversed view, when the view-removal signal
fires for the currently focused flow, the focus is cleared if the view
emptied, and otherwise moves to the entry at the position given by bisecting
the current index with the removed flow's (cached) sort key, clamped to the
last valid position — the nearest surviving position.  On a reversed view
the re-anchoring is not to the nearest entry (see the counterexample). -/
theorem C6_focus_reanchor_on_remove (s : ViewState) (f g : HTTPFlow) (kg : SVal)
    (hfoc : s.focusFlow = some g) (hgf : g.id = f.id)
    (hrev : s.order_reversed = false)
    (hs : storeMem s.store g.id = true)
    (hc : cachedOrder s g.id = some kg)
    (hsub : ∀ fid ∈ viewIds s.viewList, storeMem s.store fid = true)
    (hkeys : ∀ p ∈ s.viewList, cachedOrder s p.2 = some p.1) :
    (s.viewList.length = 0 → (Focus_sigViewRemove s f).focusFlow = none) ∧
    (s.viewList.length ≠ 0 →
      ∃ p, pyGetPair s.viewList
          (min (((s.viewList.takeWhile
              (fun q => !(SVal.lt kg q.1))).length : Int))
            ((s.viewList.length : Int) - 1)) = some p ∧
        ∃ gg, (Focus_sigViewRemove s f).focusFlow = some gg ∧ gg.id = p.2) := by
  constructor
  · intro hlen
    unfold Focus_sigViewRemove
    rw [if_pos hlen]
    rfl
  · intro hlen
    have hK : keyOf s g = (kg, s) := keyOf_of_cached hs hc
    have hred : Focus_sigViewRemove s f
        = (match (Focus_nearest s g).1 with
           | some n => Focus_focusAt (Focus_nearest s g).2 n
           | none => (Focus_nearest s g).2) := by
      unfold Focus_sigViewRemove
      rw [if_neg hlen]
      simp only [hfoc]
      rw [if_pos hgf]
    have hb2 : (View_bisect s g).2 = s := by
      show (keyOf s g).2 = s
      rw [hK]
    have hrevV : View_rev s ((((s.viewList.takeWhile
        (fun q => !(SVal.lt kg q.1))).length : Int)) - 1)
        = some ((((s.viewList.takeWhile
            (fun q => !(SVal.lt kg q.1))).length : Int)) - 1) := by
      unfold View_rev
      rw [if_neg (show ¬ s.order_reversed = true by rw [hrev]; simp)]
    have hbis : (View_bisect s g).1
        = some (((s.viewList.takeWhile
            (fun q => !(SVal.lt kg q.1))).length : Int)) := by
      show ((View_rev (keyOf s g).2
          (((((keyOf s g).2.viewList.takeWhile
            (fun q => !(SVal.lt (keyOf s g).1 q.1))).length : Int)) - 1)).map
          (· + 1)) = _
      rw [hK, hrevV]
      show some ((((s.viewList.takeWhile
          (fun q => !(SVal.lt kg q.1))).length : Int)) - 1 + 1) = _
      congr 1
      omega
    have hn1 : (Focus_nearest s g).1
        = some (min (((s.viewList.takeWhile
            (fun q => !(SVal.lt kg q.1))).length : Int))
          ((s.viewList.length : Int) - 1)) := by
      show ((View_bisect s g).1.map
          (fun b => min b ((((View_bisect s g).2.viewList.length : Int)) - 1))) = _
      rw [hbis, hb2]
      rfl
    have hn2 : (Focus_nearest s g).2 = s := hb2
    rw [hred]
    simp only [hn1]
    rw [hn2]
    exact focusAt_gets (by omega) (by omega) hrev hsub hkeys

theorem C6_focus_reanchor_on_remove_witness :
    (stThree.viewList.length = 0 →
      (Focus_sigViewRemove stThree flowB).focusFlow = none) ∧
    (stThree.viewList.length ≠ 0 →
      ∃ p, pyGetPair stThree.viewList
          (min (((stThree.viewList.takeWhile
              (fun q => !(SVal.lt (SVal.i 7) q.1))).length : Int))
            ((stThree.viewList.length : Int) - 1)) = some p ∧
        ∃ gg, (Focus_sigViewRemove stThree flowB).focusFlow = some gg ∧
          gg.id = p.2) :=
  C6_focus_reanchor_on_remove stThree flowB flowB (SVal.i 7) (by decide) rfl
    (by decide) (by decide) (by decide) (by decide) (by decide)

/-- Claim C7: adding the same record twice is idempotent — the second
`add([r])` returns the state of the first unchanged and emits no signal. -/
theorem C7_idempotent_add (st : ViewState) (r : HTTPFlow) :
    View_add (View_add st [r]).1 [r] = ((View_add st [r]).1, []) := by
  show ((View_addOne (View_add st [r]).1 r).1,
      [] ++ (View_addOne (View_add st [r]).1 r).2) = _
  rw [show (View_add st [r]).1 = (View_addOne st r).1 from rfl, addOne_idem]
  rfl

/-- Claim C8: reading offset `0` with the reversed flag set returns the same
entry as reading offset `n - 1` without it, and flipping the flag touches
neither the membership nor the store — it only emits a view refresh. -/
theorem C8_reversed_symmetry (st : ViewState) (b : Bool)
    (hn : st.viewList.length ≠ 0) :
    View_getitem { st with order_reversed := true } 0
      = View_getitem { st with order_reversed := false }
          ((st.viewList.length : Int) - 1) ∧
    (View_set_reversed st b).1.viewList = st.viewList ∧
    (View_set_reversed st b).1.store = st.store ∧
    (View_set_reversed st b).2 = [Signal.viewRefresh] := by
  refine ⟨?_, ((FrameOk_sigViewRefresh _).2.1).trans rfl,
    ((FrameOk_sigViewRefresh _).1).trans rfl, rfl⟩
  have h1 : View_rev { st with order_reversed := true } 0
      = some ((st.viewList.length : Int) - 1) := by
    unfold View_rev
    rw [if_pos rfl, if_neg (show ¬ (0 : Int) < 0 by omega)]
    show (if ((st.viewList.length : Int) - 0 - 1) < 0 then none
      else some ((st.viewList.length : Int) - 0 - 1))
      = some ((st.viewList.length : Int) - 1)
    rw [if_neg (show ¬ ((st.viewList.length : Int) - 0 - 1) < 0 by omega)]
    norm_num
  have h2 : View_rev { st with order_reversed := false }
      ((st.viewList.length : Int) - 1)
      = some ((st.viewList.length : Int) - 1) := by
    unfold View_rev
    rw [if_neg (show ¬ ({ st with order_reversed := false } : ViewState).order_reversed
        = true from fun h => Bool.noConfusion h)]
  show (View_rev { st with order_reversed := true } 0).bind
      (fun i => (pyGetPair st.viewList i).map (fun p => p.2))
    = (View_rev { st with order_reversed := false }
        ((st.viewList.length : Int) - 1)).bind
      (fun i => (pyGetPair st.viewList i).map (fun p => p.2))
  rw [h1, h2]

theorem C8_reversed_symmetry_witness :
    View_getitem { stThree with order_reversed := true } 0
      = View_getitem { stThree with order_reversed := false }
          ((stThree.viewList.length : Int) - 1) ∧
    (View_set_reversed stThree true).1.viewList = stThree.viewList ∧
    (View_set_reversed stThree true).1.store = stThree.store ∧
    (View_set_reversed stThree true).2 = [Signal.viewRefresh] :=
  C8_reversed_symmetry stThree true (by decide)

/-- Claim C9: `setvalue_toggle` does not toggle under the caller's key — it
reads the previous value under the literal string `"key"`.  With
`{"star": "true"}` cached and no `"key"` entry, toggling `"star"` writes
`"true"` (the intended behaviour writes `"false"`); with `"key" ↦ "true"`
present, the very same call writes `"false"`. -/
theorem C9_setvalue_toggle_reads_literal_key :
    (View_setvalue_toggle stStar [flowA] "star").map
        (fun s2 => (lookupF s2.settings flowA.id).bind (fun d => lookupS d "star"))
      = some (some (SVal.s "true")) ∧
    (View_setvalue_toggle stStarKey [flowA] "star").map
        (fun s2 => (lookupF s2.settings flowA.id).bind (fun d => lookupS d "star"))
      = some (some (SVal.s "false")) := by
  decide

/-- Claim C10: calling an order key on a flow outside the store returns a
fresh `generate(f)` and leaves the settings untouched, while on a store
member the returned value ends up cached in the flow's settings entry under
this key's name (on a cache miss it is the freshly computed `generate(f)`),
and an immediate second call returns the same value with no further
settings change. -/
theorem C10_orderkey_call_cache_frame (st : ViewState) (okId : Nat) (f : HTTPFlow) :
    (storeMem st.store f.id = false →
      orderKeyCall st okId f = (generateOf okId f, st.settings)) ∧
    (storeMem st.store f.id = true →
      ((lookupF (orderKeyCall st okId f).2 f.id).bind
          (fun dd => lookupS dd (orderKeyName okId)))
        = some (orderKeyCall st okId f).1 ∧
      (lookupS (settingsEntry st.settings f.id).1 (orderKeyName okId) = none →
        (orderKeyCall st okId f).1 = generateOf okId f) ∧
      orderKeyCall { st with settings := (orderKeyCall st okId f).2 } okId f
        = ((orderKeyCall st okId f).1, (orderKeyCall st okId f).2)) := by
  constructor
  · intro hs
    unfold orderKeyCall
    rw [if_neg (by simp [hs])]
  · intro hs
    cases hd : lookupF st.settings f.id with
    | some d =>
      have hent := settingsEntry_of_cached hd
      cases hk : lookupS d (orderKeyName okId) with
      | some v =>
        have h1 : orderKeyCall st okId f = (v, st.settings) := by
          unfold orderKeyCall
          rw [if_pos hs]
          simp only [hent, hk]
        refine ⟨?_, ?_, ?_⟩
        · rw [h1]
          show (lookupF st.settings f.id).bind
              (fun dd => lookupS dd (orderKeyName okId)) = some v
          rw [hd]
          exact hk
        · intro hmiss
          have hmiss' : lookupS d (orderKeyName okId) = none := by
            rw [hent] at hmiss
            exact hmiss
          rw [hk] at hmiss'
          exact Option.noConfusion hmiss'
        · rw [h1]
          exact h1
      | none =>
        have h1 : orderKeyCall st okId f
            = (generateOf okId f,
               setF st.settings f.id (setS d (orderKeyName okId)
                 (generateOf okId f))) := by
          unfold orderKeyCall
          rw [if_pos hs]
          simp only [hent, hk]
        refine ⟨?_, ?_, ?_⟩
        · rw [h1]
          show (lookupF (setF st.settings f.id (setS d (orderKeyName okId)
              (generateOf okId f))) f.id).bind
              (fun dd => lookupS dd (orderKeyName okId))
            = some (generateOf okId f)
          rw [lookupF_setF_self]
          exact lookupS_setS_self _ _ _
        · intro _
          rw [h1]
        · rw [h1]
          show orderKeyCall { st with settings := (setF st.settings f.id
              (setS d (orderKeyName okId) (generateOf okId f))) } okId f
            = (generateOf okId f,
               setF st.settings f.id (setS d (orderKeyName okId)
                 (generateOf okId f)))
          have h2 : settingsEntry (setF st.settings f.id (setS d (orderKeyName okId)
                (generateOf okId f))) f.id
              = (setS d (orderKeyName okId) (generateOf okId f),
                 setF st.settings f.id (setS d (orderKeyName okId)
                   (generateOf okId f))) :=
            settingsEntry_of_cached (lookupF_setF_self _ _ _)
          unfold orderKeyCall
          rw [if_pos (show storeMem ({ st with settings := (setF st.settings f.id
              (setS d (orderKeyName okId) (generateOf okId f))) } : ViewState).store
              f.id = true from hs)]
          simp only [show ({ st with settings := (setF st.settings f.id
              (setS d (orderKeyName okId) (generateOf okId f))) } : ViewState).settings
              = setF st.settings f.id (setS d (orderKeyName okId)
                (generateOf okId f)) from rfl, h2, lookupS_setS_self]
    | none =>
      have hent : settingsEntry st.settings f.id
          = ([], st.settings ++ [(f.id, [])]) := by
        unfold settingsEntry
        rw [hd]
      have h1 : orderKeyCall st okId f
          = (generateOf okId f,
             setF (st.settings ++ [(f.id, [])]) f.id
               (setS [] (orderKeyName okId) (generateOf okId f))) := by
        unfold orderKeyCall
        rw [if_pos hs]
        simp only [hent]
        rfl
      refine ⟨?_, ?_, ?_⟩
      · rw [h1]
        show (lookupF (setF (st.settings ++ [(f.id, [])]) f.id
            (setS [] (orderKeyName okId) (generateOf okId f))) f.id).bind
            (fun dd => lookupS dd (orderKeyName okId))
          = some (generateOf okId f)
        rw [lookupF_setF_self]
        exact lookupS_setS_self _ _ _
      · intro _
        rw [h1]
      · rw [h1]
        show orderKeyCall { st with settings := (setF (st.settings ++ [(f.id, [])])
            f.id (setS [] (orderKeyName okId) (generateOf okId f))) } okId f
          = (generateOf okId f,
             setF (st.settings ++ [(f.id, [])]) f.id
               (setS [] (orderKeyName okId) (generateOf okId f)))
        have h2 : settingsEntry (setF (st.settings ++ [(f.id, [])]) f.id
              (setS [] (orderKeyName okId) (generateOf okId f))) f.id
            = (setS [] (orderKeyName okId) (generateOf okId f),
               setF (st.settings ++ [(f.id, [])]) f.id
                 (setS [] (orderKeyName okId) (generateOf okId f))) :=
          settingsEntry_of_cached (lookupF_setF_self _ _ _)
        unfold orderKeyCall
        rw [if_pos (show storeMem ({ st with settings :=
            (setF (st.settings ++ [(f.id, [])]) f.id
              (setS [] (orderKeyName okId) (generateOf okId f))) } : ViewState).store
            f.id = true from hs)]
        simp only [show ({ st with settings := (setF (st.settings ++ [(f.id, [])])
            f.id (setS [] (orderKeyName okId) (generateOf okId f))) } : ViewState).settings
            = setF (st.settings ++ [(f.id, [])]) f.id
              (setS [] (orderKeyName okId) (generateOf okId f)) from rfl, h2,
          lookupS_setS_self]
